import Mathlib

/-!
SiStripDigitizerAlgorithm: a shallow embedding.

Source: `SimTracker/SiStripDigitizer/plugins/SiStripDigitizerAlgorithm.cc`.

Conventions of the embedding.

* `float` amplitudes are exact rationals (`ℚ`).  A float division is `fdiv`:
  a rational quotient for a nonzero divisor, `none` for a zero divisor (the
  IEEE result is then an infinity or a NaN, which is no rational).
* `std::vector<T>` is `List T`; a read at index `i` is `getD i default`, a
  write is `List.set` (both only meaningful for `i` below the length, the only
  case in which the C++ is defined).
* `std::map<K,V>` used through `operator[]` only is a total function with the
  default-constructed value off its keys; a map on which `find`/`end` is used
  is a function into `Option`.
* `size_t` is a 64-bit unsigned, `int` a 32-bit signed integer; they are `Nat`
  and `Int` with explicit wrap-around where the source can leave the range.
* The random engine is an explicit stream of uniform draws that is threaded
  through every call receiving the engine pointer.
* Collaborators whose code is in other files (charge sharing, noise adder,
  digital converter, zero suppression, calibration handles) are parameters.
-/

namespace SiStripDigitizerAlgorithm

/-! ## Data model -/

/-- The engine `CLHEP::HepRandomEngine`: a stream of uniform draws and the
position of the next draw. -/
structure HepRandomEngine where
  stream : Nat → ℚ
  pos : Nat

/-- `CLHEP::RandFlat::shoot(engine)`: the next uniform draw, and the advanced
engine. -/
def shoot (engine : HepRandomEngine) : ℚ × HepRandomEngine :=
  (engine.stream engine.pos, { engine with pos := engine.pos + 1 })

/-- A vector of three coordinates (`GlobalVector`, `Local3DPoint`). -/
abbrev Vector3 := ℚ × ℚ × ℚ

/-- The fields of `PSimHit` the algorithm reads. -/
structure PSimHit where
  detUnitId : Nat
  trackId : Nat
  eventId : Nat
  tof : ℚ
  energyLoss : ℚ
  localPosition : Vector3

/-- The part of `StripGeomDetUnit` the algorithm reads:
`geographicalId().rawId()`, `specificTopology().nstrips()`,
`DetId(detID).subdetId()` and `surface().toGlobal(p).mag()`. -/
structure StripGeomDetUnit where
  rawId : Nat
  nstrips : Nat
  subdetId : Nat
  globalMag : Vector3 → ℚ

/-- The record `AssociationInfo` (a Contribution of the TruthMap). -/
structure AssociationInfo where
  trackID : Nat
  eventID : Nat
  contributionToADC : ℚ
  simHitGlobalIndex : Nat
  tofBin : Nat
deriving DecidableEq

/-- The type `AssociationInfoForChannel`: `std::map<int, std::vector<AssociationInfo>>`,
channel to Contribution list; `none` is an absent key. -/
abbrev AssociationInfoForChannel := Nat → Option (List AssociationInfo)

/-- A suppressed digi `SiStripDigi`. -/
structure SiStripDigi where
  channel : Nat
  adc : Nat
deriving DecidableEq

/-- A raw digi `SiStripRawDigi`; its channel is its position in the vector. -/
structure SiStripRawDigi where
  adc : Nat
deriving DecidableEq

/-- IEEE division of two amplitudes held exactly: the rational quotient when the
divisor is nonzero; `none` when it is zero (an infinity or NaN, no rational). -/
def fdiv (x y : ℚ) : Option ℚ :=
  if y = 0 then none else some (x / y)

/-- A truth link `StripDigiSimLink(channel, trackId, simHitGlobalIndex, tofBin,
eventId, fraction)`. -/
structure StripDigiSimLink where
  channel : Nat
  SimTrackId : Nat
  CFposition : Nat
  TofBin : Nat
  eventId : Nat
  fraction : Option ℚ
deriving DecidableEq

/-- One decoded bad-strip range `SiStripBadStrip::data`. -/
structure BadStripData where
  firstStrip : Nat
  range : Nat

/-- The parts of `edm::EventSetup` read by `initializeDetUnit` and
`initializeEvent`: the decoded bad-strip ranges of each unit and the
Lorentz-angle handle (invalid: `none`). -/
structure EventSetup where
  badStripRange : Nat → List BadStripData
  lorentzAngle : Option (Nat → ℚ)

/-- The result of `SiHitDigitizer::processHit`, which updates the local
amplitudes, the two channel bounds and the engine it is handed by reference. -/
structure ProcessHitResult where
  locAmpl : List ℚ
  localFirstChannel : Nat
  localLastChannel : Nat
  engine : HepRandomEngine

/-- The result of a noise-adder call that draws from the engine. -/
structure NoiseResult where
  detAmpl : List ℚ
  engine : HepRandomEngine

/-- The result of `addNoise`, which also receives the unit's two stored channel
bounds by reference. -/
structure AddNoiseResult where
  detAmpl : List ℚ
  firstChannelWithSignal : Nat
  lastChannelWithSignal : Nat
  engine : HepRandomEngine

/-- The calibration handles handed to `digitize`: `getStripGain`, `getNoise`,
`getPed` per unit and strip, and the threshold record (only passed on). -/
structure Calibration where
  getStripGain : Nat → Nat → ℚ
  getNoise : Nat → Nat → ℚ
  getPed : Nat → Nat → ℚ
  threshold : Nat → Nat → ℚ

/-- The collaborators whose code is in other classes: `theSiHitDigitizer`,
`theSiNoiseAdder`, `theSiDigitalConverter` and `theSiZeroSuppress`.  The two
converters receive the gain handle (`convert(detAmpl, gainHandle, detID)`), the
zero suppression the noise and the threshold handle
(`suppress(in, out, detID, noiseHandle, thresholdHandle)`). -/
structure Collaborators where
  processHit : PSimHit → StripGeomDetUnit → Vector3 → ℚ → List ℚ → Nat → Nat →
    HepRandomEngine → ProcessHitResult
  addNoiseVR : List ℚ → List ℚ → HepRandomEngine → NoiseResult
  addNoise : List ℚ → Nat → Nat → Nat → ℚ → HepRandomEngine → AddNoiseResult
  addBaselineShift : List ℚ → List Bool → List ℚ
  addCMNoise : List ℚ → ℚ → List Bool → HepRandomEngine → NoiseResult
  addPedestals : List ℚ → List ℚ → List ℚ
  convert : List ℚ → (Nat → Nat → ℚ) → Nat → List SiStripDigi
  convertRaw : List ℚ → (Nat → Nat → ℚ) → Nat → List SiStripRawDigi
  suppress : List SiStripDigi → Nat → (Nat → Nat → ℚ) → (Nat → Nat → ℚ) → List SiStripDigi

/-- The configuration read by the constructor that the four operations use. -/
structure Config where
  cmnRMStib : ℚ
  cmnRMStob : ℚ
  cmnRMStid : ℚ
  cmnRMStec : ℚ
  APVSaturationProbScaling : ℚ
  makeDigiSimLinks_ : Bool
  noise : Bool
  RealPedestals : Bool
  SingleStripNoise : Bool
  CommonModeNoise : Bool
  BaselineShift : Bool
  APVSaturationFromHIP : Bool
  zeroSuppression : Bool
  theElectronPerADC : ℚ
  tofCut : ℚ
  cosmicShift : ℚ
  inefficiency : ℚ
  pedOffset : Nat
  mapOfAPVprobabilities : Nat → Option ℚ

/-- Modelled from the spec: the class `SiPileUpSignals` (the pile-up store,
`SiPileUpSignals.cc`, is not among the sources).  The spec describes it as the
unit's ChargeVector, "a dense per-channel floating amplitude buffer, one per
detector unit", into which each accumulation call adds its per-channel charge.
`none` is a unit that has no signal (`getSignal` returns a null pointer). -/
structure SiPileUpSignals where
  signal_ : Nat → Option (Nat → ℚ)

/-- Modelled from the spec: `SiPileUpSignals::reset`, every unit's ChargeVector
is dropped ("created empty at event start"). -/
def SiPileUpSignals.reset (_p : SiPileUpSignals) : SiPileUpSignals :=
  { signal_ := fun _ => none }

/-- Modelled from the spec: `SiPileUpSignals::getSignal(detID)`. -/
def SiPileUpSignals.getSignal (p : SiPileUpSignals) (detID : Nat) : Option (Nat → ℚ) :=
  p.signal_ detID

/-- Modelled from the spec: `SiPileUpSignals::add(detID, locAmpl, first, last)`,
"add the delta into the unit's ChargeVector": the call's local amplitude of
each channel is summed into the unit's stored amplitude of that channel.  The
two bounds are received and not used by the summation. -/
def SiPileUpSignals.add (p : SiPileUpSignals) (detID : Nat) (locAmpl : List ℚ)
    (_firstChannelWithSignal _lastChannelWithSignal : Nat) : SiPileUpSignals :=
  { signal_ := fun d =>
      if d = detID then
        some (fun c => ((p.signal_ detID).getD (fun _ => 0)) c + locAmpl.getD c 0)
      else p.signal_ d }

/-- The member variables of `SiStripDigitizerAlgorithm` that the operations
change. -/
structure State where
  allBadChannels : Nat → List Bool
  allHIPChannels : Nat → List Bool
  firstChannelsWithSignal : Nat → Nat
  lastChannelsWithSignal : Nat → Nat
  associationInfoForDetId_ : Nat → Option AssociationInfoForChannel
  theSiPileUpSignals : SiPileUpSignals
  lorentzAngleHandle : Option (Nat → ℚ)

/-- Assignment `m[k] = v` on a map held as a function. -/
def assign {β : Type} (m : Nat → β) (k : Nat) (v : β) : Nat → β :=
  fun j => if j = k then v else m j

/-! ## initializeDetUnit, initializeEvent -/

/-- The inner loop of `initializeDetUnit`:
`for (strip = first; strip < first + range; ++strip) v[strip] = true`. -/
def setStripRange (v : List Bool) (first range : Nat) : List Bool :=
  (List.range range).foldl (fun w i => w.set (first + i) true) v

/-- The outer loop of `initializeDetUnit` over the unit's bad-strip ranges. -/
def setBadStrips (v : List Bool) (ranges : List BadStripData) : List Bool :=
  ranges.foldl (fun w fs => setStripRange w fs.firstStrip fs.range) v

/-- `SiStripDigitizerAlgorithm::initializeDetUnit(det, iSetup)`. -/
def initializeDetUnit (s : State) (det : StripGeomDetUnit) (iSetup : EventSetup) : State :=
  let detId := det.rawId
  let numStrips := det.nstrips
  let detBadStripRange := iSetup.badStripRange detId
  let badChannels := setBadStrips (List.replicate numStrips false) detBadStripRange
  let hipChannels := setBadStrips (List.replicate numStrips false) detBadStripRange
  { s with
    allBadChannels := assign s.allBadChannels detId badChannels
    allHIPChannels := assign s.allHIPChannels detId hipChannels
    firstChannelsWithSignal := assign s.firstChannelsWithSignal detId numStrips
    lastChannelsWithSignal := assign s.lastChannelsWithSignal detId 0 }

/-- `SiStripDigitizerAlgorithm::initializeEvent(iSetup)`. -/
def initializeEvent (s : State) (iSetup : EventSetup) : State :=
  { s with
    theSiPileUpSignals := s.theSiPileUpSignals.reset
    associationInfoForDetId_ := fun _ => none
    lorentzAngleHandle := iSetup.lorentzAngle }

/-! ## accumulateSimHits -/

/-- Conversion of an unsigned value to the 32-bit `int` it is assigned to. -/
def toInt32 (x : Nat) : Int :=
  if x % 2 ^ 32 < 2 ^ 31 then ((x % 2 ^ 32 : Nat) : Int) else ((x % 2 ^ 32 : Nat) : Int) - 2 ^ 32

/-- The value `int FirstAPV = localFirstChannel/128`. -/
def FirstAPV (localFirstChannel : Nat) : Int :=
  toInt32 (localFirstChannel / 128)

/-- The value `int LastAPV = (localLastChannel-1)/128`, the subtraction being
done on a `size_t` (64-bit, wrapping at 0). -/
def LastAPV (localLastChannel : Nat) : Int :=
  toInt32 (((localLastChannel + 2 ^ 64 - 1) % 2 ^ 64) / 128)

/-- The indices written by `for (int strip = lo; strip < hi; ++strip)`. -/
def stripIndices (lo hi : Int) : List Int :=
  (List.range (hi - lo).toNat).map (fun (i : Nat) => lo + (i : Int))

/-- The write `hipChannels[strip] = true` for an `int` index. -/
def setStrip (hipChannels : List Bool) (strip : Int) : List Bool :=
  if strip < 0 then hipChannels else hipChannels.set strip.toNat true

/-- The APV-killer loop:
`for (int strip = FirstAPV*128; strip < LastAPV*128 + 128; ++strip) hipChannels[strip] = true`. -/
def markAPVs (hipChannels : List Bool) (localFirstChannel localLastChannel : Nat) : List Bool :=
  (stripIndices (FirstAPV localFirstChannel * 128) (LastAPV localLastChannel * 128 + 128)).foldl
    setStrip hipChannels

/-- The loop over `associationVector` with the `push_back` that follows it: the
first entry with the hit's `(trackID, eventID)` gets the signal added; when there
is none a new entry is appended. -/
def updateAssociationVector (associationVector : List AssociationInfo)
    (trackId eventId : Nat) (signalFromThisSimHit : ℚ) (simHitGlobalIndex tofBin : Nat) :
    List AssociationInfo :=
  match associationVector with
  | [] => [⟨trackId, eventId, signalFromThisSimHit, simHitGlobalIndex, tofBin⟩]
  | associationInfo :: rest =>
    if associationInfo.trackID = trackId ∧ associationInfo.eventID = eventId then
      { associationInfo with
        contributionToADC := associationInfo.contributionToADC + signalFromThisSimHit } :: rest
    else
      associationInfo ::
        updateAssociationVector rest trackId eventId signalFromThisSimHit simHitGlobalIndex tofBin

/-- The body of the loop over `locAmpl` strips for one strip index. -/
def recordStrip (locAmpl previousLocalAmplitude : List ℚ) (trackId eventId : Nat)
    (simHitGlobalIndex tofBin : Nat) (info : AssociationInfoForChannel) (stripIndex : Nat) :
    AssociationInfoForChannel :=
  let signalFromThisSimHit := locAmpl.getD stripIndex 0 - previousLocalAmplitude.getD stripIndex 0
  if signalFromThisSimHit ≠ 0 then
    assign info stripIndex
      (some (updateAssociationVector ((info stripIndex).getD []) trackId eventId
        signalFromThisSimHit simHitGlobalIndex tofBin))
  else info

/-- The loop `for (stripIndex = 0; stripIndex < locAmpl.size(); ++stripIndex)` of
the truth-association block. -/
def recordSimHit (locAmpl previousLocalAmplitude : List ℚ) (trackId eventId : Nat)
    (simHitGlobalIndex tofBin : Nat) (info : AssociationInfoForChannel) :
    AssociationInfoForChannel :=
  (List.range locAmpl.length).foldl
    (recordStrip locAmpl previousLocalAmplitude trackId eventId simHitGlobalIndex tofBin) info

/-- The variables the loop over the sim hits updates. -/
structure HitLoopState where
  locAmpl : List ℚ
  thisFirstChannelWithSignal : Nat
  thisLastChannelWithSignal : Nat
  hipChannels : List Bool
  associationInfo : AssociationInfoForChannel
  engine : HepRandomEngine

/-- The time-of-flight and energy-loss test of a hit. -/
def passesTOF (cfg : Config) (det : StripGeomDetUnit) (hit : PSimHit) : Prop :=
  |hit.tof - cfg.cosmicShift - det.globalMag hit.localPosition / 30| < cfg.tofCut ∧
    hit.energyLoss > 0

instance (cfg : Config) (det : StripGeomDetUnit) (hit : PSimHit) :
    Decidable (passesTOF cfg det hit) := by
  unfold passesTOF; infer_instance

/-- The APV killer for one processed hit: the mask and the engine after it. -/
def apvKiller (cfg : Config) (detId : Nat) (hipChannels : List Bool)
    (localFirstChannel localLastChannel : Nat) (engine : HepRandomEngine) :
    List Bool × HepRandomEngine :=
  if cfg.APVSaturationFromHIP then
    match cfg.mapOfAPVprobabilities detId with
    | some probability =>
      if (shoot engine).1 < probability * cfg.APVSaturationProbScaling then
        (markAPVs hipChannels localFirstChannel localLastChannel, (shoot engine).2)
      else (hipChannels, (shoot engine).2)
    | none => (hipChannels, engine)
  else (hipChannels, engine)

/-- The body of the loop over the sim hits for one hit. -/
def processSimHit (cfg : Config) (col : Collaborators) (det : StripGeomDetUnit)
    (bfield : Vector3) (langle : ℚ) (tofBin : Nat) (simHitGlobalIndex : Nat)
    (st : HitLoopState) (hit : PSimHit) : HitLoopState :=
  let detId := det.rawId
  let numStrips := det.nstrips
  if hit.detUnitId ≠ detId then st
  else if passesTOF cfg det hit then
    let previousLocalAmplitude := st.locAmpl
    let r := col.processHit hit det bfield langle st.locAmpl numStrips 0 st.engine
    let k := apvKiller cfg detId st.hipChannels r.localFirstChannel r.localLastChannel r.engine
    { locAmpl := r.locAmpl
      thisFirstChannelWithSignal :=
        if st.thisFirstChannelWithSignal > r.localFirstChannel then r.localFirstChannel
        else st.thisFirstChannelWithSignal
      thisLastChannelWithSignal :=
        if st.thisLastChannelWithSignal < r.localLastChannel then r.localLastChannel
        else st.thisLastChannelWithSignal
      hipChannels := k.1
      associationInfo :=
        if cfg.makeDigiSimLinks_ then
          recordSimHit r.locAmpl previousLocalAmplitude hit.trackId hit.eventId
            simHitGlobalIndex tofBin st.associationInfo
        else st.associationInfo
      engine := k.2 }
  else st

/-- The loop `for (simHitIter = inputBegin; simHitIter != inputEnd;
++simHitIter, ++simHitGlobalIndex)`. -/
def simHitLoop (cfg : Config) (col : Collaborators) (det : StripGeomDetUnit)
    (bfield : Vector3) (langle : ℚ) (tofBin : Nat) :
    List PSimHit → Nat → HitLoopState → HitLoopState
  | [], _, st => st
  | hit :: rest, simHitGlobalIndex, st =>
    simHitLoop cfg col det bfield langle tofBin rest (simHitGlobalIndex + 1)
      (processSimHit cfg col det bfield langle tofBin simHitGlobalIndex st hit)

/-- The value `langle = lorentzAngleHandle.isValid() ?
lorentzAngleHandle->getLorentzAngle(detID) : 0.`. -/
def lorentzAngle (s : State) (detID : Nat) : ℚ :=
  match s.lorentzAngleHandle with
  | some getLorentzAngle => getLorentzAngle detID
  | none => 0

/-- The local variables of `accumulateSimHits` when the loop over the sim hits
starts, after the one draw of the inefficiency test: zero local amplitudes, the
empty local range, the unit's HIP mask and TruthMap entry. -/
def hitLoopStart (s : State) (det : StripGeomDetUnit) (engine : HepRandomEngine) :
    HitLoopState :=
  { locAmpl := List.replicate det.nstrips 0
    thisFirstChannelWithSignal := det.nstrips
    thisLastChannelWithSignal := 0
    hipChannels := s.allHIPChannels det.rawId
    associationInfo := (s.associationInfoForDetId_ det.rawId).getD (fun _ => none)
    engine := (shoot engine).2 }

/-- The state and engine left by `accumulateSimHits`. -/
structure AccumulateResult where
  state : State
  engine : HepRandomEngine

/-- `SiStripDigitizerAlgorithm::accumulateSimHits(inputBegin, inputEnd,
inputBeginGlobalIndex, tofBin, det, bfield, tTopo, engine)`; the hit range is the
list `input`, and `tTopo` is only handed on to `processHit`, of which it is part. -/
def accumulateSimHits (cfg : Config) (col : Collaborators) (s : State) (input : List PSimHit)
    (inputBeginGlobalIndex tofBin : Nat) (det : StripGeomDetUnit) (bfield : Vector3)
    (engine : HepRandomEngine) : AccumulateResult :=
  let detID := det.rawId
  let langle : ℚ := lorentzAngle s detID
  let st0 : HitLoopState := hitLoopStart s det engine
  let accepted : Bool := decide ((shoot engine).1 > cfg.inefficiency)
  let st := if accepted then
      simHitLoop cfg col det bfield langle tofBin input inputBeginGlobalIndex st0
    else st0
  let thisFirstChannelWithSignal := st.thisFirstChannelWithSignal
  let thisLastChannelWithSignal := st.thisLastChannelWithSignal
  { state :=
      { s with
        allHIPChannels := assign s.allHIPChannels detID st.hipChannels
        associationInfoForDetId_ :=
          if accepted && cfg.makeDigiSimLinks_ then
            assign s.associationInfoForDetId_ detID (some st.associationInfo)
          else s.associationInfoForDetId_
        theSiPileUpSignals :=
          s.theSiPileUpSignals.add detID st.locAmpl thisFirstChannelWithSignal
            thisLastChannelWithSignal
        firstChannelsWithSignal :=
          if s.firstChannelsWithSignal detID > thisFirstChannelWithSignal then
            assign s.firstChannelsWithSignal detID thisFirstChannelWithSignal
          else s.firstChannelsWithSignal
        lastChannelsWithSignal :=
          if s.lastChannelsWithSignal detID < thisLastChannelWithSignal then
            assign s.lastChannelsWithSignal detID thisLastChannelWithSignal
          else s.lastChannelsWithSignal }
    engine := st.engine }

/-! ## digitize -/

/-- The body of the loop that removes the signal from dead and HIP-affected
strips, for one strip: the amplitudes and the engine after it. -/
def maskStrip (badChannels hipChannels : List Bool) (st : List ℚ × HepRandomEngine)
    (strip : Nat) : List ℚ × HepRandomEngine :=
  let detAmpl := if badChannels.getD strip false then st.1.set strip 0 else st.1
  let scalingValue : ℚ := (shoot st.2).1 * 10 / 7 - 3 / 7
  let detAmpl := if hipChannels.getD strip false then
      detAmpl.set strip (detAmpl.getD strip 0 * (if scalingValue > 0 then scalingValue else 0))
    else detAmpl
  (detAmpl, (shoot st.2).2)

/-- The loop `for (strip = 0; strip < numStrips; ++strip)` over `maskStrip`. -/
def maskStrips (badChannels hipChannels : List Bool) (numStrips : Nat)
    (detAmpl : List ℚ) (engine : HepRandomEngine) : List ℚ × HepRandomEngine :=
  (List.range numStrips).foldl (maskStrip badChannels hipChannels) (detAmpl, engine)

/-- The reference-strip search
`while (RefStrip < numStrips && badChannels[RefStrip]) RefStrip++`. -/
def refStripSearch (badChannels : List Bool) (numStrips : Nat) (RefStrip : Nat) : Nat :=
  if RefStrip < numStrips ∧ badChannels.getD RefStrip false = true then
    refStripSearch badChannels numStrips (RefStrip + 1)
  else RefStrip
termination_by numStrips - RefStrip
decreasing_by omega

/-- A per-strip vector that is 0 on the dead strips and `value strip` elsewhere:
`v.insert(v.begin(), numStrips, 0.)` followed by
`for (strip...) if (!badChannels[strip]) v[strip] = value(strip)`. -/
def nonBadVector (badChannels : List Bool) (numStrips : Nat) (value : Nat → ℚ) : List ℚ :=
  (List.range numStrips).foldl
    (fun v strip => if badChannels.getD strip false then v else v.set strip (value strip))
    (List.replicate numStrips 0)

/-- The loop `for (iAssociationInfo : associationInfo) totalSimADC += contributionToADC`. -/
def totalSimADC (associationInfo : List AssociationInfo) : ℚ :=
  associationInfo.foldl (fun total a => total + a.contributionToADC) 0

/-- The links pushed for one channel: one per entry of its association vector,
with the fraction `contributionToADC/totalSimADC`. -/
def makeLinks (channel : Nat) (associationInfo : List AssociationInfo) : List StripDigiSimLink :=
  associationInfo.map (fun a =>
    { channel := channel, SimTrackId := a.trackID, CFposition := a.simHitGlobalIndex,
      TofBin := a.tofBin, eventId := a.eventID,
      fraction := fdiv a.contributionToADC (totalSimADC associationInfo) })

/-- The link loop of the suppressed path, `for (iDigi : digis)`.  The lookup
`associationInfoByChannel[iDigi.channel()]` gives the empty vector for a channel
that is not a key (the key it inserts is in an entry erased before `digitize`
returns). -/
def suppressedLinks (associationInfoByChannel : AssociationInfoForChannel)
    (digis : List SiStripDigi) (outLink : List StripDigiSimLink) : List StripDigiSimLink :=
  digis.foldl
    (fun out iDigi =>
      out ++ makeLinks iDigi.channel ((associationInfoByChannel iDigi.channel).getD []))
    outLink

/-- The link loop of the raw path, `for (channel = 0; channel < rawdigis.size();
++channel)`, which skips a channel that is not a key. -/
def rawLinks (associationInfoByChannel : AssociationInfoForChannel)
    (numRawDigis : Nat) (outLink : List StripDigiSimLink) : List StripDigiSimLink :=
  (List.range numRawDigis).foldl
    (fun out channel =>
      match associationInfoByChannel channel with
      | none => out
      | some associationInfo => out ++ makeLinks channel associationInfo)
    outLink

/-- The common-mode RMS selected by the sub-detector, times `theElectronPerADC`. -/
def cmnRMS (cfg : Config) (SubDet : Nat) : ℚ :=
  (if SubDet = 3 then cfg.cmnRMStib
   else if SubDet = 4 then cfg.cmnRMStid
   else if SubDet = 5 then cfg.cmnRMStob
   else if SubDet = 6 then cfg.cmnRMStec
   else 0) * cfg.theElectronPerADC

/-- What `digitize` leaves: the three output collections, the members, the engine. -/
structure DigitizeResult where
  outdigi : List SiStripDigi
  outrawdigi : List SiStripRawDigi
  outLink : List StripDigiSimLink
  state : State
  engine : HepRandomEngine

/-- The noise stage of the suppressed path (`if (noise)` inside
`if (zeroSuppression)`); the quotient by a strip gain is the rational quotient
(the gain is a nonzero calibration value). -/
def suppressedNoise (cfg : Config) (col : Collaborators) (cal : Calibration) (detID numStrips : Nat)
    (badChannels : List Bool) (detAmpl : List ℚ) (firstChannelWithSignal lastChannelWithSignal : Nat)
    (engine : HepRandomEngine) : AddNoiseResult :=
  if cfg.noise then
    if cfg.SingleStripNoise then
      let noiseRMSv := nonBadVector badChannels numStrips (fun strip =>
        cal.getNoise detID strip * cfg.theElectronPerADC / cal.getStripGain detID strip)
      let r := col.addNoiseVR detAmpl noiseRMSv engine
      ⟨r.detAmpl, firstChannelWithSignal, lastChannelWithSignal, r.engine⟩
    else
      let RefStrip := refStripSearch badChannels numStrips (numStrips / 2)
      if RefStrip < numStrips then
        let RefgainValue := cal.getStripGain detID RefStrip
        let RefnoiseRMS := cal.getNoise detID RefStrip * cfg.theElectronPerADC / RefgainValue
        col.addNoise detAmpl firstChannelWithSignal lastChannelWithSignal numStrips RefnoiseRMS
          engine
      else ⟨detAmpl, firstChannelWithSignal, lastChannelWithSignal, engine⟩
  else ⟨detAmpl, firstChannelWithSignal, lastChannelWithSignal, engine⟩

/-- The vector `noiseRMSv` of the raw path. -/
def rawNoiseRMSv (cfg : Config) (cal : Calibration) (detID numStrips : Nat)
    (badChannels : List Bool) : List ℚ :=
  if cfg.SingleStripNoise then
    nonBadVector badChannels numStrips (fun strip =>
      cal.getNoise detID strip * cfg.theElectronPerADC)
  else
    let RefStrip := refStripSearch badChannels numStrips 0
    if RefStrip < numStrips then
      let noiseRMS := cal.getNoise detID RefStrip * cfg.theElectronPerADC
      nonBadVector badChannels numStrips (fun _ => noiseRMS)
    else List.replicate numStrips 0

/-- The vector `vPeds` of the raw path. -/
def vPeds (cfg : Config) (cal : Calibration) (detID numStrips : Nat)
    (badChannels : List Bool) : List ℚ :=
  if cfg.RealPedestals then
    nonBadVector badChannels numStrips (fun strip =>
      (cal.getPed detID strip + (cfg.pedOffset : ℚ)) * cfg.theElectronPerADC)
  else
    nonBadVector badChannels numStrips (fun _ => (cfg.pedOffset : ℚ) * cfg.theElectronPerADC)

/-- The analog stages of the raw path: baseline shift, strip noise, common-mode
noise, pedestals. -/
def rawAnalog (cfg : Config) (col : Collaborators) (cal : Calibration) (det : StripGeomDetUnit)
    (badChannels : List Bool) (detAmpl : List ℚ) (engine : HepRandomEngine) : NoiseResult :=
  let detID := det.rawId
  let numStrips := det.nstrips
  let detAmpl := if cfg.BaselineShift then col.addBaselineShift detAmpl badChannels else detAmpl
  let r1 : NoiseResult :=
    if cfg.noise then
      col.addNoiseVR detAmpl (rawNoiseRMSv cfg cal detID numStrips badChannels) engine
    else ⟨detAmpl, engine⟩
  let r2 : NoiseResult :=
    if cfg.CommonModeNoise then
      col.addCMNoise r1.detAmpl (cmnRMS cfg det.subdetId) badChannels r1.engine
    else r1
  ⟨col.addPedestals r2.detAmpl (vPeds cfg cal detID numStrips badChannels), r2.engine⟩

/-- `SiStripDigitizerAlgorithm::digitize(outdigi, outrawdigi, outLink, det,
gainHandle, thresholdHandle, noiseHandle, pedestalHandle, engine)`; the four
handles are `cal`, the three collections are received and returned. -/
def digitize (cfg : Config) (col : Collaborators) (s : State)
    (outdigi : List SiStripDigi) (outrawdigi : List SiStripRawDigi)
    (outLink : List StripDigiSimLink) (det : StripGeomDetUnit) (cal : Calibration)
    (engine : HepRandomEngine) : DigitizeResult :=
  let detID := det.rawId
  let numStrips := det.nstrips
  let detAmpl : List ℚ := match s.theSiPileUpSignals.getSignal detID with
    | some theSignal => (List.range numStrips).map theSignal
    | none => List.replicate numStrips 0
  let badChannels := s.allBadChannels detID
  let hipChannels := s.allHIPChannels detID
  let masked := maskStrips badChannels hipChannels numStrips detAmpl engine
  let iAssociationInfoByChannel := s.associationInfoForDetId_ detID
  let erased : Nat → Option AssociationInfoForChannel :=
    match iAssociationInfoByChannel with
    | some _ => assign s.associationInfoForDetId_ detID none
    | none => s.associationInfoForDetId_
  if cfg.zeroSuppression then
    let n := suppressedNoise cfg col cal detID numStrips badChannels masked.1
      (s.firstChannelsWithSignal detID) (s.lastChannelsWithSignal detID) masked.2
    let digis := col.suppress (col.convert n.detAmpl cal.getStripGain detID) detID cal.getNoise
      cal.threshold
    { outdigi := digis
      outrawdigi := outrawdigi
      outLink := match iAssociationInfoByChannel with
        | some associationInfoByChannel => suppressedLinks associationInfoByChannel digis outLink
        | none => outLink
      state :=
        { s with
          firstChannelsWithSignal := assign s.firstChannelsWithSignal detID n.firstChannelWithSignal
          lastChannelsWithSignal := assign s.lastChannelsWithSignal detID n.lastChannelWithSignal
          associationInfoForDetId_ := erased }
      engine := n.engine }
  else
    let r := rawAnalog cfg col cal det badChannels masked.1 masked.2
    let rawdigis := col.convertRaw r.detAmpl cal.getStripGain detID
    { outdigi := outdigi
      outrawdigi := rawdigis
      outLink := match iAssociationInfoByChannel with
        | some associationInfoByChannel => rawLinks associationInfoByChannel rawdigis.length outLink
        | none => outLink
      state := { s with associationInfoForDetId_ := erased }
      engine := r.engine }

/-! ## Quantities the properties are stated with -/

/-- The links of a link collection that carry a given channel. -/
def linksOfChannel (c : Nat) (links : List StripDigiSimLink) : List StripDigiSimLink :=
  links.filter (fun l => l.channel = c)

/-- The sum of the fractions of a list of links: a rational when every fraction
is one, `none` as soon as one fraction comes from a division by zero. -/
def sumFractions : List StripDigiSimLink → Option ℚ
  | [] => some 0
  | l :: rest =>
    match l.fraction, sumFractions rest with
    | some w, some t => some (w + t)
    | _, _ => none

/-- The number of times `digitize` reads a channel out for the truth links: the
number of suppressed digis carrying it (suppressed mode), or 1 when it is a
position of the raw digi vector and 0 when not (raw mode). -/
def readouts (zeroSuppression : Bool) (r : DigitizeResult) (c : Nat) : Nat :=
  if zeroSuppression then (r.outdigi.map (fun d => d.channel)).count c
  else if c < r.outrawdigi.length then 1 else 0

/-- The links the raw loop pushes for one channel. -/
def rawLinksOf (m : AssociationInfoForChannel) (c : Nat) : List StripDigiSimLink :=
  match m c with
  | none => []
  | some associationInfo => makeLinks c associationInfo

/-! ## Concrete inputs -/

/-- A unit with id 1 and two channels. -/
def exDet : StripGeomDetUnit :=
  { rawId := 1, nstrips := 2, subdetId := 3, globalMag := fun _ => 0 }

/-- A hit on unit 1 of a given track, with the signed charge it induces on
channel 0 held in its first local coordinate. -/
def exHit (track : Nat) (charge : ℚ) : PSimHit :=
  { detUnitId := 1, trackId := track, eventId := 0, tof := 0, energyLoss := 1,
    localPosition := (charge, 0, 0) }

/-- An engine whose every draw is 1/2. -/
def exEngine : HepRandomEngine := { stream := fun _ => 1 / 2, pos := 0 }

/-- Calibration with unit gain, no noise, no pedestal and threshold 0. -/
def exCal : Calibration :=
  { getStripGain := fun _ _ => 1, getNoise := fun _ _ => 0, getPed := fun _ _ => 0,
    threshold := fun _ _ => 0 }

/-- Collaborators: the charge sharing adds the hit's charge to channel 0 with
footprint [0,1); the noise adder adds nothing; the converters give one digi per
channel; the zero suppression keeps the digis of the channels `keep` accepts. -/
def exCol (keep : Nat → Bool) : Collaborators :=
  { processHit := fun hit _ _ _ locAmpl first last engine =>
      ⟨locAmpl.set 0 (locAmpl.getD 0 0 + hit.localPosition.1), min first 0, max last 1, engine⟩
    addNoiseVR := fun detAmpl _ engine => ⟨detAmpl, engine⟩
    addNoise := fun detAmpl first last _ _ engine => ⟨detAmpl, first, last, engine⟩
    addBaselineShift := fun detAmpl _ => detAmpl
    addCMNoise := fun detAmpl _ _ engine => ⟨detAmpl, engine⟩
    addPedestals := fun detAmpl _ => detAmpl
    convert := fun detAmpl _ _ => (List.range detAmpl.length).map (fun i => ⟨i, 1⟩)
    convertRaw := fun detAmpl _ _ => detAmpl.map (fun _ => ⟨1⟩)
    suppress := fun digis _ _ _ => digis.filter (fun d => keep d.channel) }

/-- A configuration: every noise stage and the saturation emulation off, every
pass accepted (inefficiency 0), with the truth association and the readout mode
as given. -/
def exCfg (makeDigiSimLinks zeroSuppression : Bool) : Config :=
  { cmnRMStib := 0, cmnRMStob := 0, cmnRMStid := 0, cmnRMStec := 0
    APVSaturationProbScaling := 1
    makeDigiSimLinks_ := makeDigiSimLinks
    noise := false, RealPedestals := false, SingleStripNoise := false
    CommonModeNoise := false, BaselineShift := false, APVSaturationFromHIP := false
    zeroSuppression := zeroSuppression
    theElectronPerADC := 1, tofCut := 1, cosmicShift := 0, inefficiency := 0
    pedOffset := 0
    mapOfAPVprobabilities := fun _ => none }

/-- The members before any unit is initialised. -/
def exState0 : State :=
  { allBadChannels := fun _ => []
    allHIPChannels := fun _ => []
    firstChannelsWithSignal := fun _ => 0
    lastChannelsWithSignal := fun _ => 0
    associationInfoForDetId_ := fun _ => none
    theSiPileUpSignals := { signal_ := fun _ => none }
    lorentzAngleHandle := none }

/-- An event setup without bad strips and without Lorentz angle. -/
def exSetup : EventSetup := { badStripRange := fun _ => [], lorentzAngle := none }

/-- The members after unit 1 is initialised and an event is started. -/
def exState : State := initializeEvent (initializeDetUnit exState0 exDet exSetup) exSetup

/-- The members after one accumulation call on unit 1 with truth association on:
a hit of track 7 and a hit of track 8 inducing the charges `q₁` and `q₂` on
channel 0. -/
def exAccumulated (keep : Nat → Bool) (zeroSuppression : Bool) (q₁ q₂ : ℚ) : State :=
  (accumulateSimHits (exCfg true zeroSuppression) (exCol keep) exState
    [exHit 7 q₁, exHit 8 q₂] 0 0 exDet (0, 0, 0) exEngine).state

/-- The result of `digitize` on unit 1 after `exAccumulated`, with empty output
collections handed in. -/
def exDigitized (keep : Nat → Bool) (zeroSuppression : Bool) (q₁ q₂ : ℚ) : DigitizeResult :=
  digitize (exCfg true zeroSuppression) (exCol keep)
    (exAccumulated keep zeroSuppression q₁ q₂) [] [] [] exDet exCal exEngine

/-- The Contribution list of a channel of a unit in the TruthMap; `none` when the
unit has no entry or the channel is not a key of it. -/
def contributions (s : State) (detID c : Nat) : Option (List AssociationInfo) :=
  (s.associationInfoForDetId_ detID).bind (fun info => info c)

/-! ## Sequences of calls, invariants -/

/-- One call of a public operation of the algorithm, with its arguments. -/
inductive Call where
  | initDetUnit (det : StripGeomDetUnit) (iSetup : EventSetup)
  | initEvent (iSetup : EventSetup)
  | accumulate (input : List PSimHit) (inputBeginGlobalIndex tofBin : Nat)
      (det : StripGeomDetUnit) (bfield : Vector3) (engine : HepRandomEngine)
  | digi (outdigi : List SiStripDigi) (outrawdigi : List SiStripRawDigi)
      (outLink : List StripDigiSimLink) (det : StripGeomDetUnit) (cal : Calibration)
      (engine : HepRandomEngine)

/-- The members after one call. -/
def runCall (cfg : Config) (col : Collaborators) (s : State) : Call → State
  | .initDetUnit det iSetup => initializeDetUnit s det iSetup
  | .initEvent iSetup => initializeEvent s iSetup
  | .accumulate input inputBeginGlobalIndex tofBin det bfield engine =>
    (accumulateSimHits cfg col s input inputBeginGlobalIndex tofBin det bfield engine).state
  | .digi outdigi outrawdigi outLink det cal engine =>
    (digitize cfg col s outdigi outrawdigi outLink det cal engine).state

/-- The members after a sequence of calls. -/
def runCalls (cfg : Config) (col : Collaborators) (s : State) (calls : List Call) : State :=
  calls.foldl (runCall cfg col) s

/-- The key `(trackID, eventID)` of a Contribution. -/
def pairOf (a : AssociationInfo) : Nat × Nat := (a.trackID, a.eventID)

/-- No two entries of a Contribution list share both `trackID` and `eventID`. -/
def NoDuplicatePairs (v : List AssociationInfo) : Prop := (v.map pairOf).Nodup

/-- Every Contribution list of the TruthMap is free of duplicate pairs. -/
def TruthMapDedup (s : State) : Prop :=
  ∀ d c v, contributions s d c = some v → NoDuplicatePairs v

/-- The result of the charge sharing for a hit that is the first accepted hit of
an accumulation call: it starts from zero local amplitudes and the engine left
by the inefficiency draw. -/
def firstHitResult (col : Collaborators) (s : State) (det : StripGeomDetUnit)
    (bfield : Vector3) (hit : PSimHit) (engine : HepRandomEngine) : ProcessHitResult :=
  col.processHit hit det bfield (lorentzAngle s det.rawId) (List.replicate det.nstrips 0)
    det.nstrips 0 (shoot engine).2

/-- The result of the charge sharing for a hit that directly follows the first
accepted hit `hit₁` in the same accumulation call: it starts from the local
amplitudes left by `hit₁` and the engine left by the APV killer of `hit₁`. -/
def secondHitResult (cfg : Config) (col : Collaborators) (s : State) (det : StripGeomDetUnit)
    (bfield : Vector3) (hit₁ hit₂ : PSimHit) (engine : HepRandomEngine) : ProcessHitResult :=
  col.processHit hit₂ det bfield (lorentzAngle s det.rawId)
    (firstHitResult col s det bfield hit₁ engine).locAmpl det.nstrips 0
    (apvKiller cfg det.rawId (s.allHIPChannels det.rawId)
      (firstHitResult col s det bfield hit₁ engine).localFirstChannel
      (firstHitResult col s det bfield hit₁ engine).localLastChannel
      (firstHitResult col s det bfield hit₁ engine).engine).2

/-- The amplitude of a channel in the unit's ChargeVector held by the pile-up
store; 0 when the unit has no signal. -/
def chargeVector (s : State) (detID c : Nat) : ℚ :=
  ((s.theSiPileUpSignals.getSignal detID).getD (fun _ => 0)) c

/-- The configuration `exCfg` with the inefficiency set to 1. -/
def exCfgInefficient : Config :=
  { exCfg true false with inefficiency := 1 }

/-- A unit with id 1 and 256 channels (two APVs). -/
def exDetWide : StripGeomDetUnit :=
  { rawId := 1, nstrips := 256, subdetId := 3, globalMag := fun _ => 0 }

/-- Collaborators whose charge sharing reports the footprint
`localFirstChannel = 0`, `localLastChannel = 128` for every hit. -/
def exColWide : Collaborators :=
  { exCol (fun _ => true) with
    processHit := fun _ _ _ _ locAmpl _ _ engine => ⟨locAmpl, 0, 128, engine⟩ }

/-- The configuration `exCfg` with the saturation emulation on and probability 1
for every unit. -/
def exCfgAPV : Config :=
  { exCfg false false with
    APVSaturationFromHIP := true
    mapOfAPVprobabilities := fun _ => some 1 }

/-- The members after the 256-channel unit 1 is initialised and an event is
started. -/
def exStateWide : State :=
  initializeEvent (initializeDetUnit exState0 exDetWide exSetup) exSetup

/-- The arguments of one `accumulateSimHits` call on a given unit and field. -/
structure AccumulateCall where
  input : List PSimHit
  inputBeginGlobalIndex : Nat
  tofBin : Nat
  engine : HepRandomEngine

/-- The members after a sequence of `accumulateSimHits` calls on one unit. -/
def accumulateAll (cfg : Config) (col : Collaborators) (s : State) (det : StripGeomDetUnit)
    (bfield : Vector3) (calls : List AccumulateCall) : State :=
  calls.foldl
    (fun st call =>
      (accumulateSimHits cfg col st call.input call.inputBeginGlobalIndex call.tofBin det bfield
        call.engine).state)
    s

/-- The hits of a range that the loop hands to the charge sharing: those of the
unit that pass the time-of-flight and energy-loss test. -/
def acceptedHits (cfg : Config) (det : StripGeomDetUnit) (input : List PSimHit) : List PSimHit :=
  input.filter (fun hit => decide (hit.detUnitId = det.rawId ∧ passesTOF cfg det hit))

/-- The least of a start value and the values of a list. -/
def lowest (start : Nat) (l : List Nat) : Nat := l.foldr min start

/-- The greatest of a start value and the values of a list. -/
def highest (start : Nat) (l : List Nat) : Nat := l.foldr max start

/-- The charge sharing adds, for each hit, a per-channel delta and reports a
footprint that depend on the hit only, not on the amplitudes or the engine it is
handed. -/
def AdditiveChargeSharing (col : Collaborators) (det : StripGeomDetUnit) (bfield : Vector3)
    (langle : ℚ) (delta : PSimHit → Nat → ℚ) (fc lc : PSimHit → Nat) : Prop :=
  ∀ (hit : PSimHit) (ampl : List ℚ) (engine : HepRandomEngine),
    (col.processHit hit det bfield langle ampl det.nstrips 0 engine).locAmpl.length
        = ampl.length ∧
    (∀ i, i < ampl.length →
      (col.processHit hit det bfield langle ampl det.nstrips 0 engine).locAmpl.getD i 0
        = ampl.getD i 0 + delta hit i) ∧
    (col.processHit hit det bfield langle ampl det.nstrips 0 engine).localFirstChannel
        = fc hit ∧
    (col.processHit hit det bfield langle ampl det.nstrips 0 engine).localLastChannel
        = lc hit

/-- A channel is covered by one of the decoded bad-strip ranges. -/
def coveredByBadStrips (ranges : List BadStripData) (k : Nat) : Prop :=
  ∃ fs ∈ ranges, fs.firstStrip ≤ k ∧ k < fs.firstStrip + fs.range

/-- An event setup whose bad-strip record holds, for every unit, the one range
that starts at strip 0 and has length 1. -/
def exSetupBad : EventSetup :=
  { badStripRange := fun _ => [⟨0, 1⟩], lorentzAngle := none }

/-- The call is an `initializeDetUnit`. -/
def Call.isInitDetUnit : Call → Bool
  | .initDetUnit _ _ => true
  | _ => false

/-- The links of one surviving digi as the suppressed path describes them: one
per Contribution of the digi's channel, in the order of the Contribution list,
with the fraction `contributionToADC / (sum of the channel's contributions)`. -/
def linksOfDigi (info : AssociationInfoForChannel) (d : SiStripDigi) : List StripDigiSimLink :=
  ((info d.channel).getD []).map (fun a =>
    { channel := d.channel, SimTrackId := a.trackID, CFposition := a.simHitGlobalIndex,
      TofBin := a.tofBin, eventId := a.eventID,
      fraction := fdiv a.contributionToADC
        (((info d.channel).getD []).map (fun a' => a'.contributionToADC)).sum })

/-- The multiplier applied to the amplitude of a saturated channel for the
uniform draw `u`: `scalingValue > 0 ? scalingValue : 0` with
`scalingValue = u*10/7 - 3/7`. -/
def saturationMultiplier (u : ℚ) : ℚ :=
  if u * 10 / 7 - 3 / 7 > 0 then u * 10 / 7 - 3 / 7 else 0

/-- The amplitude of channel `k` after its iteration of the masking loop, from
its amplitude `a` before and the draw `u` of the iteration: zero when the
channel is dead, then scaled when the channel is saturated. -/
def maskedAmplitude (badChannels hipChannels : List Bool) (a u : ℚ) (k : Nat) : ℚ :=
  if hipChannels.getD k false then
    (if badChannels.getD k false then 0 else a) * saturationMultiplier u
  else (if badChannels.getD k false then 0 else a)

/-- A configuration with other settings of the raw-path stages: common-mode
noise, real pedestals, baseline shift, pedestal offset and the four common-mode
RMS constants. -/
def withRawStageSettings (cfg : Config) (CommonModeNoise RealPedestals BaselineShift : Bool)
    (pedOffset : Nat) (cmnRMStib cmnRMStob cmnRMStid cmnRMStec : ℚ) : Config :=
  { cfg with
    CommonModeNoise := CommonModeNoise
    RealPedestals := RealPedestals
    BaselineShift := BaselineShift
    pedOffset := pedOffset
    cmnRMStib := cmnRMStib
    cmnRMStob := cmnRMStob
    cmnRMStid := cmnRMStid
    cmnRMStec := cmnRMStec }

/-- The sum of `contributionToADC` over a Contribution list; 0 for an absent
list. -/
def listTotal (o : Option (List AssociationInfo)) : ℚ :=
  ((o.getD []).map (fun a => a.contributionToADC)).sum

/-- The sum of `contributionToADC` over the Contributions of a channel of a unit
in the TruthMap; 0 when the channel has none. -/
def truthTotal (s : State) (detID c : Nat) : ℚ :=
  listTotal (contributions s detID c)

/-- The vector `locAmpl` that an `accumulateSimHits` call hands to
`theSiPileUpSignals->add`: what the loop over the sim hits leaves for an accepted
pass, the zero vector for a rejected one. -/
def localAmplitudes (cfg : Config) (col : Collaborators) (s : State) (input : List PSimHit)
    (inputBeginGlobalIndex tofBin : Nat) (det : StripGeomDetUnit) (bfield : Vector3)
    (engine : HepRandomEngine) : List ℚ :=
  (if decide ((shoot engine).1 > cfg.inefficiency) then
      simHitLoop cfg col det bfield (lorentzAngle s det.rawId) tofBin input
        inputBeginGlobalIndex (hitLoopStart s det engine)
    else hitLoopStart s det engine).locAmpl

/-- The sum, over a sequence of `accumulateSimHits` calls on one unit, of the
local amplitude of channel `c` that each call hands to the pile-up store. -/
def handedTotal (cfg : Config) (col : Collaborators) (det : StripGeomDetUnit)
    (bfield : Vector3) : State → List AccumulateCall → Nat → ℚ
  | _, [], _ => 0
  | s, call :: rest, c =>
    (localAmplitudes cfg col s call.input call.inputBeginGlobalIndex call.tofBin det bfield
        call.engine).getD c 0
      + handedTotal cfg col det bfield
          (accumulateSimHits cfg col s call.input call.inputBeginGlobalIndex call.tofBin det
            bfield call.engine).state rest c

/-- The vector `detAmpl` of `digitize` before the masking loop: the unit's
accumulated signal on its `numStrips` channels, zero when the unit has none. -/
def detAmplStart (s : State) (det : StripGeomDetUnit) : List ℚ :=
  match s.theSiPileUpSignals.getSignal det.rawId with
  | some theSignal => (List.range det.nstrips).map theSignal
  | none => List.replicate det.nstrips 0

/-- The amplitudes and the engine of `digitize` after the masking loop. -/
def maskedStart (s : State) (det : StripGeomDetUnit) (engine : HepRandomEngine) :
    List ℚ × HepRandomEngine :=
  maskStrips (s.allBadChannels det.rawId) (s.allHIPChannels det.rawId) det.nstrips
    (detAmplStart s det) engine

/-- The two-channel unit 1 with channel 0 dead: the members after the unit is
initialised with `exSetupBad` and an event is started. -/
def exStateBad : State := initializeEvent (initializeDetUnit exState0 exDet exSetupBad) exSetupBad

/-- A pile-up store that holds the charge 99 on channel 0 of every unit and no
charge elsewhere. -/
def exStoreDead : SiPileUpSignals :=
  { signal_ := fun _ => some (fun c => if c = 0 then 99 else 0) }

/-- Every channel of the unit from `start` on is dead. -/
def allDeadFrom (badChannels : List Bool) (numStrips start : Nat) : Prop :=
  ∀ k, start ≤ k → k < numStrips → badChannels.getD k false = true

/-- The configuration `exCfg` in suppressed mode with the strip noise on and the
single-strip noise off (reference-strip noise). -/
def exCfgRefNoise : Config :=
  { exCfg true true with noise := true, SingleStripNoise := false }

/-- Collaborators whose reference-strip noise adds 1 to every amplitude. -/
def exColNoisy : Collaborators :=
  { exCol (fun _ => true) with
    addNoise := fun detAmpl first last _ _ engine =>
      ⟨detAmpl.map (fun a => a + 1), first, last, engine⟩ }

/-- A Contribution list (absent: empty) has an entry with the given `trackID`,
`eventID`, `simHitGlobalIndex` and `tofBin`. -/
def HasEntry (o : Option (List AssociationInfo)) (t e i b : Nat) : Prop :=
  ∃ a ∈ o.getD [], a.trackID = t ∧ a.eventID = e ∧ a.simHitGlobalIndex = i ∧ a.tofBin = b

/-- A hit of unit 2, which the loop over the hits of unit 1 skips. -/
def exHitOther : PSimHit :=
  { detUnitId := 2, trackId := 9, eventId := 0, tof := 0, energyLoss := 1,
    localPosition := (1, 0, 0) }

/-- Modelled from the spec: `convertRaw(detAmpl, gainHandle, detID)` of the
digital converter (its code is not among the sources).  The spec gives the raw
value of a channel as "round(charge / electronPerADC)", one value per channel;
the raw digi holds an unsigned count.  The gain handle and the unit id are
received and not used by that formula. -/
def convertRawSpec (theElectronPerADC : ℚ) (detAmpl : List ℚ) (_gainHandle : Nat → Nat → ℚ)
    (_detID : Nat) : List SiStripRawDigi :=
  detAmpl.map (fun q => ⟨(round (q / theElectronPerADC)).toNat⟩)

/-- Modelled from the spec: `addPedestals(detAmpl, vPeds)` of the noise adder
(its code is not among the sources), "adds a per-channel baseline": every
amplitude gets the pedestal of its channel added. -/
def addPedestalsSpec (detAmpl vPeds : List ℚ) : List ℚ :=
  (List.range detAmpl.length).map (fun i => detAmpl.getD i 0 + vPeds.getD i 0)

/-- The members after a unit is initialised and an event is started. -/
def startOfEvent (s : State) (det : StripGeomDetUnit) (iSetup : EventSetup) : State :=
  initializeEvent (initializeDetUnit s det iSetup) iSetup

/-- The per-channel charges that the charge sharing deposits for a hit that is
the first one processed by an accumulation call on members `s`: the `locAmpl` it
returns when handed the zero vector, the empty range `(numStrips, 0)` and the
engine after the draw of the inefficiency test. -/
def depositedCharges (col : Collaborators) (s : State) (hit : PSimHit) (det : StripGeomDetUnit)
    (bfield : Vector3) (engine : HepRandomEngine) : List ℚ :=
  (col.processHit hit det bfield (lorentzAngle s det.rawId) (List.replicate det.nstrips 0)
    det.nstrips 0 (shoot engine).2).locAmpl

/-- The single-hit scenario: the unit is initialised, an event is started, one
accumulation call is made with the one hit, and the unit is digitised with empty
output collections handed in. -/
def singleHitScenario (cfg : Config) (col : Collaborators) (s : State) (iSetup : EventSetup)
    (det : StripGeomDetUnit) (hit : PSimHit) (inputBeginGlobalIndex tofBin : Nat)
    (bfield : Vector3) (cal : Calibration) (engine engine' : HepRandomEngine) : DigitizeResult :=
  digitize cfg col
    (accumulateSimHits cfg col (startOfEvent s det iSetup) [hit] inputBeginGlobalIndex tofBin
      det bfield engine).state
    [] [] [] det cal engine'

/-- The link of a channel to the one hit of the scenario, with weight 1. -/
def unitLink (hit : PSimHit) (inputBeginGlobalIndex tofBin : Nat) (c : Nat) : StripDigiSimLink :=
  { channel := c, SimTrackId := hit.trackId, CFposition := inputBeginGlobalIndex,
    TofBin := tofBin, eventId := hit.eventId, fraction := some 1 }

/-- A unit with id 1 and 768 channels. -/
def exDet768 : StripGeomDetUnit :=
  { rawId := 1, nstrips := 768, subdetId := 3, globalMag := fun _ => 0 }

/-- The charges 50, 120, 300, 280, 90, 40 on the channels 100 to 105, none
elsewhere. -/
def exCharge (c : Nat) : ℚ :=
  if c = 100 then 50 else if c = 101 then 120 else if c = 102 then 300
  else if c = 103 then 280 else if c = 104 then 90 else if c = 105 then 40 else 0

/-- Collaborators whose charge sharing adds `exCharge` to the amplitudes with
the footprint [100, 106), whose pedestal adder and raw converter are the ones
modelled from the spec with 40 electrons per ADC count, the others as in
`exCol`. -/
def exColRaw : Collaborators :=
  { exCol (fun _ => true) with
    processHit := fun _ _ _ _ locAmpl first last engine =>
      ⟨(List.range locAmpl.length).map (fun i => locAmpl.getD i 0 + exCharge i),
        min first 100, max last 106, engine⟩
    addPedestals := addPedestalsSpec
    convertRaw := convertRawSpec 40 }

/-- The configuration `exCfg` in raw mode with truth association on and 40
electrons per ADC count. -/
def exCfgRaw : Config :=
  { exCfg true false with theElectronPerADC := 40 }

/-! ## Lemmas on link emission -/

theorem foldl_add_contribution (v : List AssociationInfo) (t : ℚ) :
    v.foldl (fun total a => total + a.contributionToADC) t
      = t + (v.map (fun a => a.contributionToADC)).sum := by
  induction v generalizing t with
  | nil => simp
  | cons a rest ih => simp [ih, add_assoc]

theorem totalSimADC_eq_sum (v : List AssociationInfo) :
    totalSimADC v = (v.map (fun a => a.contributionToADC)).sum := by
  simp [totalSimADC, foldl_add_contribution]

theorem linksOfChannel_append (c : Nat) (l₁ l₂ : List StripDigiSimLink) :
    linksOfChannel c (l₁ ++ l₂) = linksOfChannel c l₁ ++ linksOfChannel c l₂ := by
  simp [linksOfChannel]

theorem linksOfChannel_makeLinks_self (c : Nat) (v : List AssociationInfo) :
    linksOfChannel c (makeLinks c v) = makeLinks c v := by
  simp [linksOfChannel, makeLinks]

theorem linksOfChannel_makeLinks_ne (c d : Nat) (v : List AssociationInfo) (h : d ≠ c) :
    linksOfChannel c (makeLinks d v) = [] := by
  simp [linksOfChannel, makeLinks, h]

theorem linksOfChannel_suppressedLinks (m : AssociationInfoForChannel) (digis : List SiStripDigi)
    (out : List StripDigiSimLink) (c : Nat) :
    linksOfChannel c (suppressedLinks m digis out)
      = linksOfChannel c out ++
        (List.replicate ((digis.map (fun d => d.channel)).count c)
          (makeLinks c ((m c).getD []))).flatten := by
  unfold suppressedLinks
  induction digis generalizing out with
  | nil => simp
  | cons d rest ih =>
    rw [List.foldl_cons, ih, linksOfChannel_append]
    by_cases h : d.channel = c
    · rw [h, linksOfChannel_makeLinks_self]
      simp only [List.map_cons, h, List.count_cons_self, List.replicate_succ, List.flatten_cons,
        List.append_assoc]
    · rw [linksOfChannel_makeLinks_ne c d.channel _ h]
      simp [List.count_cons, h]

theorem linksOfChannel_rawLinks (m : AssociationInfoForChannel) (n : Nat)
    (out : List StripDigiSimLink) (c : Nat) :
    linksOfChannel c (rawLinks m n out)
      = linksOfChannel c out ++ (if c < n then rawLinksOf m c else []) := by
  unfold rawLinks
  induction n with
  | zero => simp
  | succ k ih =>
    rw [List.range_succ, List.foldl_append, List.foldl_cons, List.foldl_nil]
    by_cases hk : c = k
    · subst hk
      cases hm : m c with
      | none => simp [ih, rawLinksOf, hm]
      | some v =>
        simp only [ih, linksOfChannel_append, linksOfChannel_makeLinks_self, rawLinksOf, hm]
        simp
    · have hne : k ≠ c := fun h => hk h.symm
      have hlt : (c < k + 1) = (c < k) := by
        apply propext; omega
      cases hm : m k with
      | none => simp only [ih, hlt]
      | some v =>
        simp only [linksOfChannel_append, ih, linksOfChannel_makeLinks_ne c k v hne, hlt,
          List.append_nil]

theorem sumFractions_cons_some (l : StripDigiSimLink) (rest : List StripDigiSimLink) (w t : ℚ)
    (hf : l.fraction = some w) (hr : sumFractions rest = some t) :
    sumFractions (l :: rest) = some (w + t) := by
  simp [sumFractions, hf, hr]

theorem sumFractions_append (l₁ l₂ : List StripDigiSimLink) (a b : ℚ)
    (h₁ : sumFractions l₁ = some a) (h₂ : sumFractions l₂ = some b) :
    sumFractions (l₁ ++ l₂) = some (a + b) := by
  induction l₁ generalizing a with
  | nil =>
    simp only [sumFractions, Option.some.injEq] at h₁
    simp [h₂, ← h₁]
  | cons l rest ih =>
    simp only [sumFractions] at h₁
    cases hf : l.fraction with
    | none => simp [hf] at h₁
    | some w =>
      cases hr : sumFractions rest with
      | none => simp [hf, hr] at h₁
      | some t =>
        simp only [hf, hr, Option.some.injEq] at h₁
        rw [List.cons_append, sumFractions_cons_some l (rest ++ l₂) w (t + b) hf (ih t hr),
          ← h₁, add_assoc]

theorem sumFractions_map_fdiv (c : Nat) (v : List AssociationInfo) (T : ℚ) (hT : T ≠ 0) :
    sumFractions (v.map (fun a =>
      ({ channel := c, SimTrackId := a.trackID, CFposition := a.simHitGlobalIndex,
         TofBin := a.tofBin, eventId := a.eventID,
         fraction := fdiv a.contributionToADC T } : StripDigiSimLink)))
      = some ((v.map (fun a => a.contributionToADC)).sum / T) := by
  induction v with
  | nil => simp [sumFractions]
  | cons a rest ih =>
    rw [List.map_cons, sumFractions_cons_some _ _ (a.contributionToADC / T) _ _ ih]
    · rw [List.map_cons, List.sum_cons, add_div]
    · simp [fdiv, hT]

theorem sumFractions_makeLinks (c : Nat) (v : List AssociationInfo)
    (h : (v.map (fun a => a.contributionToADC)).sum ≠ 0) :
    sumFractions (makeLinks c v) = some 1 := by
  have hT : totalSimADC v ≠ 0 := by rw [totalSimADC_eq_sum]; exact h
  unfold makeLinks
  rw [sumFractions_map_fdiv c v _ hT, totalSimADC_eq_sum, div_self h]

theorem sumFractions_replicate (l : List StripDigiSimLink) (h : sumFractions l = some 1) (k : Nat) :
    sumFractions (List.replicate k l).flatten = some (k : ℚ) := by
  induction k with
  | zero => simp [sumFractions]
  | succ k ih =>
    rw [List.replicate_succ, List.flatten_cons, sumFractions_append l _ 1 k h ih]
    push_cast
    rw [add_comm]

/-- The link collection `digitize` returns, in terms of the digis it returns. -/
theorem digitize_outLink (cfg : Config) (col : Collaborators) (s : State)
    (outdigi : List SiStripDigi) (outrawdigi : List SiStripRawDigi)
    (outLink : List StripDigiSimLink)
    (det : StripGeomDetUnit) (cal : Calibration) (engine : HepRandomEngine) :
    (digitize cfg col s outdigi outrawdigi outLink det cal engine).outLink
      = match s.associationInfoForDetId_ det.rawId with
        | some info =>
          if cfg.zeroSuppression then
            suppressedLinks info
              (digitize cfg col s outdigi outrawdigi outLink det cal engine).outdigi outLink
          else
            rawLinks info
              (digitize cfg col s outdigi outrawdigi outLink det cal engine).outrawdigi.length
              outLink
        | none => outLink := by
  cases hz : cfg.zeroSuppression <;> cases he : s.associationInfoForDetId_ det.rawId <;>
    simp [digitize, hz, he]

/-- The links of channel `c` that `digitize` appends to an empty collection, when
the unit has a TruthMap entry `info`. -/
theorem digitize_linksOfChannel (cfg : Config) (col : Collaborators) (s : State)
    (outdigi : List SiStripDigi) (outrawdigi : List SiStripRawDigi)
    (det : StripGeomDetUnit) (cal : Calibration) (engine : HepRandomEngine)
    (info : AssociationInfoForChannel) (c : Nat)
    (hentry : s.associationInfoForDetId_ det.rawId = some info) :
    linksOfChannel c (digitize cfg col s outdigi outrawdigi [] det cal engine).outLink
      = (List.replicate
          (readouts cfg.zeroSuppression
            (digitize cfg col s outdigi outrawdigi [] det cal engine) c)
          (rawLinksOf info c)).flatten := by
  rw [digitize_outLink, hentry]
  generalize digitize cfg col s outdigi outrawdigi [] det cal engine = r
  cases hz : cfg.zeroSuppression with
  | true =>
    simp only [if_true, readouts, linksOfChannel_suppressedLinks]
    cases hm : info c <;> simp [linksOfChannel, rawLinksOf, hm, makeLinks]
  | false =>
    simp only [readouts, linksOfChannel_rawLinks, Bool.false_eq_true, if_false]
    split_ifs with hc
    · simp [linksOfChannel]
    · simp [linksOfChannel]

theorem contributions_eq_some (s : State) (detID c : Nat) (v : List AssociationInfo)
    (h : contributions s detID c = some v) :
    ∃ info, s.associationInfoForDetId_ detID = some info ∧ info c = some v := by
  unfold contributions at h
  cases he : s.associationInfoForDetId_ detID with
  | none => simp [he] at h
  | some info => exact ⟨info, rfl, by simpa [he] using h⟩

theorem mem_flatten_replicate {α : Type} (k : Nat) (L : List α) (x : α)
    (h : x ∈ (List.replicate k L).flatten) : x ∈ L := by
  rw [List.mem_flatten] at h
  obtain ⟨l, hl, hx⟩ := h
  rw [List.mem_replicate] at hl
  rw [← hl.2]; exact hx

theorem digitize_erases (cfg : Config) (col : Collaborators) (s : State)
    (outdigi : List SiStripDigi) (outrawdigi : List SiStripRawDigi)
    (outLink : List StripDigiSimLink)
    (det : StripGeomDetUnit) (cal : Calibration) (engine : HepRandomEngine) :
    (digitize cfg col s outdigi outrawdigi outLink det cal engine).state.associationInfoForDetId_
      det.rawId = none := by
  cases hz : cfg.zeroSuppression <;> cases he : s.associationInfoForDetId_ det.rawId <;>
    simp [digitize, hz, he, assign]

/-- C1: for a channel that is a key of the unit's TruthMap entry and that
`digitize` reads out for the links (a position of the raw vector in raw mode, the
channel of one surviving digi in suppressed mode), when the Contributions of the
channel do not sum to zero the fractions of the links emitted for the channel
sum to exactly 1. -/
theorem link_weights_sum_to_one (cfg : Config) (col : Collaborators) (s : State)
    (outdigi : List SiStripDigi) (outrawdigi : List SiStripRawDigi)
    (det : StripGeomDetUnit) (cal : Calibration) (engine : HepRandomEngine)
    (c : Nat) (v : List AssociationInfo)
    (hv : contributions s det.rawId c = some v)
    (htotal : (v.map (fun a => a.contributionToADC)).sum ≠ 0)
    (hemit : readouts cfg.zeroSuppression
      (digitize cfg col s outdigi outrawdigi [] det cal engine) c = 1) :
    sumFractions (linksOfChannel c
      (digitize cfg col s outdigi outrawdigi [] det cal engine).outLink) = some 1 := by
  obtain ⟨info, hentry, hc⟩ := contributions_eq_some s det.rawId c v hv
  rw [digitize_linksOfChannel cfg col s outdigi outrawdigi det cal engine info c hentry, hemit]
  simp only [rawLinksOf, hc, List.replicate_one, List.flatten_cons, List.flatten_nil,
    List.append_nil]
  exact sumFractions_makeLinks c v htotal

/-- C1 at a concrete input: raw mode, two hits of different tracks inducing the
charges 3 and 1 on channel 0. -/
theorem link_weights_sum_to_one_witness :
    contributions (exAccumulated (fun _ => true) false 3 1) exDet.rawId 0
      = some [⟨7, 0, 3, 0, 0⟩, ⟨8, 0, 1, 1, 0⟩] ∧
    sumFractions (linksOfChannel 0
      (digitize (exCfg true false) (exCol fun _ => true)
        (exAccumulated (fun _ => true) false 3 1) [] [] [] exDet exCal exEngine).outLink)
      = some 1 := by
  have hv : contributions (exAccumulated (fun _ => true) false 3 1) exDet.rawId 0
      = some [⟨7, 0, 3, 0, 0⟩, ⟨8, 0, 1, 1, 0⟩] := by
    simp [contributions, exAccumulated, accumulateSimHits, exCfg, exCol, exState, exDet, exHit,
      exEngine, shoot, simHitLoop, processSimHit, passesTOF, apvKiller, recordSimHit,
      recordStrip, updateAssociationVector, assign, initializeEvent, initializeDetUnit, hitLoopStart,
      lorentzAngle, exSetup, exState0, List.range_succ]
  refine ⟨hv, link_weights_sum_to_one _ _ _ _ _ _ _ _ 0 _ hv (by norm_num) ?_⟩
  simp [readouts, digitize, rawAnalog, maskStrips, maskStrip, vPeds, nonBadVector,
    SiPileUpSignals.getSignal, SiPileUpSignals.add, SiPileUpSignals.reset,
    exAccumulated, accumulateSimHits, exCfg, exCol, exState, exDet, exHit,
    exEngine, shoot, simHitLoop, processSimHit, passesTOF, apvKiller, recordSimHit,
    recordStrip, updateAssociationVector, assign, initializeEvent, initializeDetUnit, hitLoopStart,
    lorentzAngle, exSetup, exState0, setBadStrips, List.range_succ]

/-- C2, amended: with a unit's TruthMap entry holding a channel whose
Contributions do not sum to zero, the fractions of the links emitted for the
channel sum to the number of times `digitize` reads the channel out: 1 for a
position of the raw vector or the channel of one surviving digi, 0 for a channel
that did not survive the zero suppression. -/
theorem link_weights_sum_to_readouts (cfg : Config) (col : Collaborators) (s : State)
    (outdigi : List SiStripDigi) (outrawdigi : List SiStripRawDigi)
    (det : StripGeomDetUnit) (cal : Calibration) (engine : HepRandomEngine)
    (c : Nat) (v : List AssociationInfo)
    (hv : contributions s det.rawId c = some v)
    (htotal : (v.map (fun a => a.contributionToADC)).sum ≠ 0) :
    sumFractions (linksOfChannel c
      (digitize cfg col s outdigi outrawdigi [] det cal engine).outLink)
      = some ((readouts cfg.zeroSuppression
          (digitize cfg col s outdigi outrawdigi [] det cal engine) c : Nat) : ℚ) := by
  obtain ⟨info, hentry, hc⟩ := contributions_eq_some s det.rawId c v hv
  rw [digitize_linksOfChannel cfg col s outdigi outrawdigi det cal engine info c hentry]
  simp only [rawLinksOf, hc]
  exact sumFractions_replicate _ (sumFractions_makeLinks c v htotal) _

/-- C2 fails as stated: in suppressed mode, channel 0 of unit 1 has two
Contributions (charges 3 and 1), the zero suppression keeps no digi, `digitize`
emits no link, and the fractions of the links of the channel do not sum to 1. -/
theorem weight_sum_not_one_when_suppressed :
    contributions (exAccumulated (fun _ => false) true 3 1) exDet.rawId 0
      = some [⟨7, 0, 3, 0, 0⟩, ⟨8, 0, 1, 1, 0⟩] ∧
    (exDigitized (fun _ => false) true 3 1).outdigi = [] ∧
    (exDigitized (fun _ => false) true 3 1).outLink = [] ∧
    sumFractions (linksOfChannel 0 (exDigitized (fun _ => false) true 3 1).outLink)
      ≠ some 1 := by
  have hout : (exDigitized (fun _ => false) true 3 1).outLink = [] := by
    simp [exDigitized, digitize, suppressedLinks, suppressedNoise, exCfg, exCol]
    split <;> rfl
  refine ⟨?_, ?_, hout, ?_⟩
  · simp [contributions, exAccumulated, accumulateSimHits, exCfg, exCol, exState, exDet, exHit,
      exEngine, shoot, simHitLoop, processSimHit, passesTOF, apvKiller, recordSimHit,
      recordStrip, updateAssociationVector, assign, initializeEvent, initializeDetUnit, hitLoopStart,
      lorentzAngle, exSetup, exState0, List.range_succ]
  · simp [exDigitized, digitize, suppressedLinks, suppressedNoise, exCfg, exCol]
  · rw [hout]
    simp [linksOfChannel, sumFractions]

/-- C2, amended, at the input of the counterexample: the fractions sum to the
number of readouts of channel 0, which is 0. -/
theorem link_weights_sum_to_readouts_witness :
    contributions (exAccumulated (fun _ => false) true 3 1) exDet.rawId 0
      = some [⟨7, 0, 3, 0, 0⟩, ⟨8, 0, 1, 1, 0⟩] ∧
    readouts true (exDigitized (fun _ => false) true 3 1) 0 = 0 ∧
    sumFractions (linksOfChannel 0 (exDigitized (fun _ => false) true 3 1).outLink)
      = some ((readouts (exCfg true true).zeroSuppression
          (exDigitized (fun _ => false) true 3 1) 0 : Nat) : ℚ) := by
  have hv : contributions (exAccumulated (fun _ => false) true 3 1) exDet.rawId 0
      = some [⟨7, 0, 3, 0, 0⟩, ⟨8, 0, 1, 1, 0⟩] := by
    simp [contributions, exAccumulated, accumulateSimHits, exCfg, exCol, exState, exDet, exHit,
      exEngine, shoot, simHitLoop, processSimHit, passesTOF, apvKiller, recordSimHit,
      recordStrip, updateAssociationVector, assign, initializeEvent, initializeDetUnit, hitLoopStart,
      lorentzAngle, exSetup, exState0, List.range_succ]
  refine ⟨hv, ?_, ?_⟩
  · simp [readouts, exDigitized, digitize, suppressedLinks, suppressedNoise, exCfg, exCol]
  · exact link_weights_sum_to_readouts (exCfg true true) (exCol fun _ => false)
      (exAccumulated (fun _ => false) true 3 1) [] [] exDet exCal exEngine 0 _ hv (by norm_num)

/-- C3, amended: `digitize` has no test of the total.  For a channel that is a
key of the unit's TruthMap entry, that is read out once and whose Contributions
sum to zero, it emits one link per Contribution, each with the fraction of a
division by the zero total. -/
theorem zero_total_links_emitted (cfg : Config) (col : Collaborators) (s : State)
    (outdigi : List SiStripDigi) (outrawdigi : List SiStripRawDigi)
    (det : StripGeomDetUnit) (cal : Calibration) (engine : HepRandomEngine)
    (c : Nat) (v : List AssociationInfo)
    (hv : contributions s det.rawId c = some v)
    (htotal : (v.map (fun a => a.contributionToADC)).sum = 0)
    (hemit : readouts cfg.zeroSuppression
      (digitize cfg col s outdigi outrawdigi [] det cal engine) c = 1) :
    linksOfChannel c (digitize cfg col s outdigi outrawdigi [] det cal engine).outLink
      = v.map (fun a =>
          ({ channel := c, SimTrackId := a.trackID, CFposition := a.simHitGlobalIndex,
             TofBin := a.tofBin, eventId := a.eventID, fraction := none } : StripDigiSimLink)) := by
  obtain ⟨info, hentry, hc⟩ := contributions_eq_some s det.rawId c v hv
  rw [digitize_linksOfChannel cfg col s outdigi outrawdigi det cal engine info c hentry, hemit]
  simp only [rawLinksOf, hc, List.replicate_one, List.flatten_cons, List.flatten_nil,
    List.append_nil, makeLinks, totalSimADC_eq_sum, htotal, fdiv, if_true]

/-- C3 fails as stated: in raw mode, channel 0 of unit 1 has the Contributions 1
and -1 of two tracks, which sum to zero, and `digitize` emits a link for each,
with the fraction of a division by zero. -/
theorem zero_total_not_skipped :
    contributions (exAccumulated (fun _ => true) false 1 (-1)) exDet.rawId 0
      = some [⟨7, 0, 1, 0, 0⟩, ⟨8, 0, -1, 1, 0⟩] ∧
    (1 : ℚ) + -1 = 0 ∧
    (exDigitized (fun _ => true) false 1 (-1)).outLink
      = [⟨0, 7, 0, 0, 0, none⟩, ⟨0, 8, 1, 0, 0, none⟩] := by
  refine ⟨?_, by norm_num, ?_⟩
  · simp [contributions, exAccumulated, accumulateSimHits, exCfg, exCol, exState, exDet, exHit,
      exEngine, shoot, simHitLoop, processSimHit, passesTOF, apvKiller, recordSimHit,
      recordStrip, updateAssociationVector, assign, initializeEvent, initializeDetUnit, hitLoopStart,
      lorentzAngle, exSetup, exState0, List.range_succ]
  · simp [exDigitized, digitize, rawLinks, makeLinks, totalSimADC, fdiv, rawAnalog, maskStrips,
      maskStrip, vPeds, nonBadVector,
      SiPileUpSignals.getSignal, SiPileUpSignals.add, SiPileUpSignals.reset,
      exAccumulated, accumulateSimHits, exCfg, exCol, exState, exDet, exHit,
      exEngine, shoot, simHitLoop, processSimHit, passesTOF, apvKiller, recordSimHit,
      recordStrip, updateAssociationVector, assign, initializeEvent, initializeDetUnit, hitLoopStart,
      lorentzAngle, exSetup, exState0, setBadStrips, List.range_succ]

/-- C3, amended, at the input of the counterexample. -/
theorem zero_total_links_emitted_witness :
    readouts false (exDigitized (fun _ => true) false 1 (-1)) 0 = 1 ∧
    linksOfChannel 0 (exDigitized (fun _ => true) false 1 (-1)).outLink
      = [⟨0, 7, 0, 0, 0, none⟩, ⟨0, 8, 1, 0, 0, none⟩] := by
  have hv : contributions (exAccumulated (fun _ => true) false 1 (-1)) exDet.rawId 0
      = some [⟨7, 0, 1, 0, 0⟩, ⟨8, 0, -1, 1, 0⟩] := by
    simp [contributions, exAccumulated, accumulateSimHits, exCfg, exCol, exState, exDet, exHit,
      exEngine, shoot, simHitLoop, processSimHit, passesTOF, apvKiller, recordSimHit,
      recordStrip, updateAssociationVector, assign, initializeEvent, initializeDetUnit, hitLoopStart,
      lorentzAngle, exSetup, exState0, List.range_succ]
  have hr : readouts (exCfg true false).zeroSuppression
      (digitize (exCfg true false) (exCol fun _ => true)
        (exAccumulated (fun _ => true) false 1 (-1)) [] [] [] exDet exCal exEngine) 0 = 1 := by
    simp [readouts, digitize, rawAnalog, maskStrips, maskStrip, vPeds, nonBadVector,
      SiPileUpSignals.getSignal, SiPileUpSignals.add, SiPileUpSignals.reset,
      exAccumulated, accumulateSimHits, exCfg, exCol, exState, exDet, exHit,
      exEngine, shoot, simHitLoop, processSimHit, passesTOF, apvKiller, recordSimHit,
      recordStrip, updateAssociationVector, assign, initializeEvent, initializeDetUnit, hitLoopStart,
      lorentzAngle, exSetup, exState0, setBadStrips, List.range_succ]
  exact ⟨hr, zero_total_links_emitted (exCfg true false) (exCol fun _ => true)
    (exAccumulated (fun _ => true) false 1 (-1)) [] [] exDet exCal exEngine 0 _ hv
    (by norm_num) hr⟩

theorem mem_makeLinks_pos (c : Nat) (v : List AssociationInfo) (l : StripDigiSimLink)
    (hpos : ∀ a ∈ v, 0 < a.contributionToADC) (hl : l ∈ makeLinks c v) :
    (∃ w, l.fraction = some w ∧ 0 < w ∧ w ≤ 1) ∧
      0 < (v.map (fun a => a.contributionToADC)).sum := by
  unfold makeLinks at hl
  rw [List.mem_map] at hl
  obtain ⟨a, ha, rfl⟩ := hl
  have hle : a.contributionToADC ≤ (v.map (fun a => a.contributionToADC)).sum := by
    apply List.single_le_sum
    · intro x hx
      rw [List.mem_map] at hx
      obtain ⟨b, hb, rfl⟩ := hx
      exact le_of_lt (hpos b hb)
    · exact List.mem_map.mpr ⟨a, ha, rfl⟩
  have hapos := hpos a ha
  have hT : 0 < (v.map (fun a => a.contributionToADC)).sum := lt_of_lt_of_le hapos hle
  refine ⟨⟨a.contributionToADC / (v.map (fun a => a.contributionToADC)).sum, ?_, ?_, ?_⟩, hT⟩
  · simp [fdiv, totalSimADC_eq_sum, ne_of_gt hT]
  · exact div_pos hapos hT
  · rw [div_le_one hT]; exact hle

/-- C4, amended: for a channel all of whose Contributions are positive (as they
are when the charge sharing only deposits charge), every link `digitize` emits
for the channel comes from a Contribution list of the channel in the TruthMap,
has a fraction `w` with `0 < w ≤ 1`, and the channel's total is positive. -/
theorem link_weight_in_unit_interval (cfg : Config) (col : Collaborators) (s : State)
    (outdigi : List SiStripDigi) (outrawdigi : List SiStripRawDigi)
    (det : StripGeomDetUnit) (cal : Calibration) (engine : HepRandomEngine) (c : Nat)
    (hpos : ∀ v, contributions s det.rawId c = some v → ∀ a ∈ v, 0 < a.contributionToADC)
    (l : StripDigiSimLink)
    (hl : l ∈ (digitize cfg col s outdigi outrawdigi [] det cal engine).outLink)
    (hc : l.channel = c) :
    ∃ v w, contributions s det.rawId c = some v ∧ l.fraction = some w ∧ 0 < w ∧ w ≤ 1 ∧
      0 < (v.map (fun a => a.contributionToADC)).sum := by
  have hmem : l ∈ linksOfChannel c
      (digitize cfg col s outdigi outrawdigi [] det cal engine).outLink := by
    simp [linksOfChannel, hl, hc]
  cases hentry : s.associationInfoForDetId_ det.rawId with
  | none =>
    rw [digitize_outLink, hentry] at hl
    simp at hl
  | some info =>
    rw [digitize_linksOfChannel cfg col s outdigi outrawdigi det cal engine info c hentry] at hmem
    have hraw := mem_flatten_replicate _ _ _ hmem
    unfold rawLinksOf at hraw
    cases hm : info c with
    | none => simp [hm] at hraw
    | some v =>
      simp only [hm] at hraw
      have hv : contributions s det.rawId c = some v := by
        simp [contributions, hentry, hm]
      obtain ⟨⟨w, hw, h0, h1⟩, hT⟩ := mem_makeLinks_pos c v l (hpos v hv) hraw
      exact ⟨v, w, hv, hw, h0, h1, hT⟩

/-- C4 fails as stated: in raw mode, with the Contributions 3 and -1 of two
tracks on channel 0 of unit 1, `digitize` emits a link of fraction 3/2 and a
link of fraction -1/2, neither of which is in (0,1]. -/
theorem link_weight_outside_unit_interval :
    contributions (exAccumulated (fun _ => true) false 3 (-1)) exDet.rawId 0
      = some [⟨7, 0, 3, 0, 0⟩, ⟨8, 0, -1, 1, 0⟩] ∧
    (exDigitized (fun _ => true) false 3 (-1)).outLink
      = [⟨0, 7, 0, 0, 0, some (3 / 2)⟩, ⟨0, 8, 1, 0, 0, some (-1 / 2)⟩] ∧
    ¬ ((3 / 2 : ℚ) ≤ 1) ∧ ¬ (0 < (-1 / 2 : ℚ)) := by
  refine ⟨?_, ?_, by norm_num, by norm_num⟩
  · simp [contributions, exAccumulated, accumulateSimHits, exCfg, exCol, exState, exDet, exHit,
      exEngine, shoot, simHitLoop, processSimHit, passesTOF, apvKiller, recordSimHit,
      recordStrip, updateAssociationVector, assign, initializeEvent, initializeDetUnit, hitLoopStart,
      lorentzAngle, exSetup, exState0, List.range_succ]
  · simp [exDigitized, digitize, rawLinks, makeLinks, totalSimADC, fdiv, rawAnalog, maskStrips,
      maskStrip, vPeds, nonBadVector,
      SiPileUpSignals.getSignal, SiPileUpSignals.add, SiPileUpSignals.reset,
      exAccumulated, accumulateSimHits, exCfg, exCol, exState, exDet, exHit,
      exEngine, shoot, simHitLoop, processSimHit, passesTOF, apvKiller, recordSimHit,
      recordStrip, updateAssociationVector, assign, initializeEvent, initializeDetUnit, hitLoopStart,
      lorentzAngle, exSetup, exState0, setBadStrips, List.range_succ]
    norm_num

/-- C4, amended, at a concrete input: raw mode, Contributions 3 and 1 on channel
0 of unit 1, and the first link emitted, of fraction 3/4. -/
theorem link_weight_in_unit_interval_witness :
    (⟨0, 7, 0, 0, 0, some (3 / 4)⟩ : StripDigiSimLink)
      ∈ (exDigitized (fun _ => true) false 3 1).outLink ∧
    ∃ v w, contributions (exAccumulated (fun _ => true) false 3 1) exDet.rawId 0 = some v ∧
      (⟨0, 7, 0, 0, 0, some (3 / 4)⟩ : StripDigiSimLink).fraction = some w ∧ 0 < w ∧ w ≤ 1 ∧
      0 < (v.map (fun a => a.contributionToADC)).sum := by
  have hv : contributions (exAccumulated (fun _ => true) false 3 1) exDet.rawId 0
      = some [⟨7, 0, 3, 0, 0⟩, ⟨8, 0, 1, 1, 0⟩] := by
    simp [contributions, exAccumulated, accumulateSimHits, exCfg, exCol, exState, exDet, exHit,
      exEngine, shoot, simHitLoop, processSimHit, passesTOF, apvKiller, recordSimHit,
      recordStrip, updateAssociationVector, assign, initializeEvent, initializeDetUnit, hitLoopStart,
      lorentzAngle, exSetup, exState0, List.range_succ]
  have hout : (exDigitized (fun _ => true) false 3 1).outLink
      = [⟨0, 7, 0, 0, 0, some (3 / 4)⟩, ⟨0, 8, 1, 0, 0, some (1 / 4)⟩] := by
    simp [exDigitized, digitize, rawLinks, makeLinks, totalSimADC, fdiv, rawAnalog, maskStrips,
      maskStrip, vPeds, nonBadVector,
      SiPileUpSignals.getSignal, SiPileUpSignals.add, SiPileUpSignals.reset,
      exAccumulated, accumulateSimHits, exCfg, exCol, exState, exDet, exHit,
      exEngine, shoot, simHitLoop, processSimHit, passesTOF, apvKiller, recordSimHit,
      recordStrip, updateAssociationVector, assign, initializeEvent, initializeDetUnit, hitLoopStart,
      lorentzAngle, exSetup, exState0, setBadStrips, List.range_succ]
    norm_num
  have hmem : (⟨0, 7, 0, 0, 0, some (3 / 4)⟩ : StripDigiSimLink)
      ∈ (exDigitized (fun _ => true) false 3 1).outLink := by
    rw [hout]; exact List.mem_cons_self _ _
  refine ⟨hmem, link_weight_in_unit_interval (exCfg true false) (exCol fun _ => true)
    (exAccumulated (fun _ => true) false 3 1) [] [] exDet exCal exEngine 0 ?_ _ hmem rfl⟩
  intro v hv' a ha
  rw [hv] at hv'
  cases hv'
  simp at ha
  rcases ha with rfl | rfl <;> norm_num

/-- C7: after `digitize` has run for a unit, the unit's TruthMap entry is erased,
and a second `digitize` of the unit on the state left by the first (no
accumulation in between, any collections, calibration and engine) returns the
link collection it was handed: it emits no link.  Both readout modes. -/
theorem second_digitize_emits_no_link (cfg : Config) (col : Collaborators) (s : State)
    (outdigi outdigi₂ : List SiStripDigi) (outrawdigi outrawdigi₂ : List SiStripRawDigi)
    (outLink outLink₂ : List StripDigiSimLink) (det : StripGeomDetUnit)
    (cal cal₂ : Calibration) (engine engine₂ : HepRandomEngine) :
    (digitize cfg col s outdigi outrawdigi outLink det cal engine).state.associationInfoForDetId_
        det.rawId = none ∧
    (digitize cfg col (digitize cfg col s outdigi outrawdigi outLink det cal engine).state
        outdigi₂ outrawdigi₂ outLink₂ det cal₂ engine₂).outLink = outLink₂ := by
  refine ⟨digitize_erases _ _ _ _ _ _ _ _ _, ?_⟩
  rw [digitize_outLink, digitize_erases]

/-! ## Lemmas on the truth association of `accumulateSimHits` -/

theorem updateAssociationVector_pairs (v : List AssociationInfo) (t e : Nat) (x : ℚ)
    (i b : Nat) :
    (updateAssociationVector v t e x i b).map pairOf
      = if (t, e) ∈ v.map pairOf then v.map pairOf else v.map pairOf ++ [(t, e)] := by
  induction v with
  | nil => simp [updateAssociationVector, pairOf]
  | cons a rest ih =>
    unfold updateAssociationVector
    by_cases h : a.trackID = t ∧ a.eventID = e
    · have hp : pairOf a = (t, e) := by simp [pairOf, h.1, h.2]
      simp [h, pairOf] at hp ⊢
    · have hp : ¬ ((t, e) = pairOf a) := by
        intro hq
        apply h
        simp only [pairOf, Prod.mk.injEq] at hq
        exact ⟨hq.1.symm, hq.2.symm⟩
      rw [if_neg h, List.map_cons, ih]
      by_cases hm : (t, e) ∈ rest.map pairOf
      · simp [hm]
      · simp [hm, hp]

theorem updateAssociationVector_nodup (v : List AssociationInfo) (t e : Nat) (x : ℚ)
    (i b : Nat) (h : NoDuplicatePairs v) :
    NoDuplicatePairs (updateAssociationVector v t e x i b) := by
  unfold NoDuplicatePairs at *
  rw [updateAssociationVector_pairs]
  by_cases hm : (t, e) ∈ v.map pairOf
  · rw [if_pos hm]; exact h
  · rw [if_neg hm]
    rw [List.nodup_append]
    refine ⟨h, List.nodup_singleton _, ?_⟩
    intro p hp hq
    rw [List.mem_singleton] at hq
    exact hm (hq ▸ hp)

theorem recordStrip_apply (loc prev : List ℚ) (t e i b : Nat)
    (info : AssociationInfoForChannel) (k c : Nat) :
    recordStrip loc prev t e i b info k c
      = if c = k ∧ loc.getD k 0 - prev.getD k 0 ≠ 0 then
          some (updateAssociationVector ((info k).getD []) t e
            (loc.getD k 0 - prev.getD k 0) i b)
        else info c := by
  unfold recordStrip
  generalize loc.getD k 0 - prev.getD k 0 = x
  by_cases hx : x = 0
  · simp [hx]
  · by_cases hck : c = k
    · simp [hx, hck, assign]
    · simp [hx, hck, assign]

theorem foldl_recordStrip_apply (loc prev : List ℚ) (t e i b : Nat)
    (info : AssociationInfoForChannel) (n c : Nat) :
    ((List.range n).foldl (recordStrip loc prev t e i b) info) c
      = if c < n ∧ loc.getD c 0 - prev.getD c 0 ≠ 0 then
          some (updateAssociationVector ((info c).getD []) t e
            (loc.getD c 0 - prev.getD c 0) i b)
        else info c := by
  induction n generalizing c with
  | zero => simp
  | succ k ih =>
    rw [List.range_succ, List.foldl_append, List.foldl_cons, List.foldl_nil, recordStrip_apply]
    have hself := ih k
    simp only [lt_irrefl, false_and, if_false] at hself
    rw [hself, ih c]
    by_cases hck : c = k
    · subst hck
      generalize loc.getD c 0 - prev.getD c 0 = x
      by_cases hx : x = 0
      · simp [hx]
      · simp [hx]
    · have hlt : (c < k + 1) = (c < k) := by apply propext; omega
      simp only [hck, false_and, if_false, hlt]

theorem recordSimHit_apply (loc prev : List ℚ) (t e i b : Nat)
    (info : AssociationInfoForChannel) (c : Nat) :
    (recordSimHit loc prev t e i b info) c
      = if c < loc.length ∧ loc.getD c 0 - prev.getD c 0 ≠ 0 then
          some (updateAssociationVector ((info c).getD []) t e
            (loc.getD c 0 - prev.getD c 0) i b)
        else info c :=
  foldl_recordStrip_apply loc prev t e i b info loc.length c

/-- Every Contribution list of one unit's channel map is free of duplicate pairs. -/
theorem recordSimHit_dedup (loc prev : List ℚ) (t e i b : Nat)
    (info : AssociationInfoForChannel)
    (h : ∀ c v, info c = some v → NoDuplicatePairs v) :
    ∀ c v, recordSimHit loc prev t e i b info c = some v → NoDuplicatePairs v := by
  intro c v hv
  rw [recordSimHit_apply] at hv
  split_ifs at hv with hc
  · cases hv
    apply updateAssociationVector_nodup
    cases hi : info c with
    | none => simp [NoDuplicatePairs]
    | some w => simpa using h c w hi
  · exact h c v hv

theorem processSimHit_dedup (cfg : Config) (col : Collaborators) (det : StripGeomDetUnit)
    (bfield : Vector3) (langle : ℚ) (tofBin idx : Nat) (st : HitLoopState) (hit : PSimHit)
    (h : ∀ c v, st.associationInfo c = some v → NoDuplicatePairs v) :
    ∀ c v, (processSimHit cfg col det bfield langle tofBin idx st hit).associationInfo c = some v →
      NoDuplicatePairs v := by
  unfold processSimHit
  by_cases hd : hit.detUnitId ≠ det.rawId
  · simpa [hd] using h
  · by_cases ht : passesTOF cfg det hit
    · simp only [hd, ht, if_true, if_false]
      cases hm : cfg.makeDigiSimLinks_ with
      | true => simpa using recordSimHit_dedup _ _ _ _ _ _ _ h
      | false => simpa using h
    · simpa [hd, ht] using h

theorem simHitLoop_dedup (cfg : Config) (col : Collaborators) (det : StripGeomDetUnit)
    (bfield : Vector3) (langle : ℚ) (tofBin : Nat) (input : List PSimHit) (idx : Nat)
    (st : HitLoopState)
    (h : ∀ c v, st.associationInfo c = some v → NoDuplicatePairs v) :
    ∀ c v, (simHitLoop cfg col det bfield langle tofBin input idx st).associationInfo c = some v →
      NoDuplicatePairs v := by
  induction input generalizing idx st with
  | nil => simpa [simHitLoop] using h
  | cons hit rest ih =>
    rw [simHitLoop]
    exact ih _ _ (processSimHit_dedup cfg col det bfield langle tofBin idx st hit h)

theorem accumulateSimHits_dedup (cfg : Config) (col : Collaborators) (s : State)
    (input : List PSimHit) (idx tofBin : Nat) (det : StripGeomDetUnit) (bfield : Vector3)
    (engine : HepRandomEngine) (h : TruthMapDedup s) :
    TruthMapDedup (accumulateSimHits cfg col s input idx tofBin det bfield engine).state := by
  intro d c v hv
  have h0 : ∀ c v, (hitLoopStart s det engine).associationInfo c = some v →
      NoDuplicatePairs v := by
    intro c v hcv
    apply h det.rawId c v
    unfold hitLoopStart at hcv
    unfold contributions
    cases hs : s.associationInfoForDetId_ det.rawId with
    | none => simp [hs] at hcv
    | some info => simpa [hs] using hcv
  unfold contributions accumulateSimHits at hv
  simp only at hv
  by_cases hacc : (shoot engine).1 > cfg.inefficiency ∧ cfg.makeDigiSimLinks_ = true
  · simp only [hacc.1, hacc.2, decide_True, Bool.and_self, if_true, assign] at hv
    by_cases hd : d = det.rawId
    · simp only [hd, if_true, Option.bind_some] at hv
      exact simHitLoop_dedup cfg col det bfield _ tofBin input idx _ h0 c v hv
    · simp only [hd, if_false] at hv
      exact h d c v hv
  · have hf : (decide ((shoot engine).1 > cfg.inefficiency) && cfg.makeDigiSimLinks_) = false := by
      cases hm : cfg.makeDigiSimLinks_ <;> simp_all
    simp only [hf] at hv
    exact h d c v hv

theorem digitize_contributions (cfg : Config) (col : Collaborators) (s : State)
    (outdigi : List SiStripDigi) (outrawdigi : List SiStripRawDigi)
    (outLink : List StripDigiSimLink)
    (det : StripGeomDetUnit) (cal : Calibration) (engine : HepRandomEngine) (d c : Nat) :
    contributions (digitize cfg col s outdigi outrawdigi outLink det cal engine).state d c
      = if d = det.rawId then none else contributions s d c := by
  by_cases hd : d = det.rawId
  · subst hd
    simp [contributions, digitize_erases]
  · cases hz : cfg.zeroSuppression <;> cases he : s.associationInfoForDetId_ det.rawId <;>
      simp [contributions, digitize, hz, he, assign, hd]

theorem runCall_dedup (cfg : Config) (col : Collaborators) (s : State) (call : Call)
    (h : TruthMapDedup s) : TruthMapDedup (runCall cfg col s call) := by
  cases call with
  | initDetUnit det iSetup => exact h
  | initEvent iSetup =>
    intro d c v hv
    simp [runCall, initializeEvent, contributions] at hv
  | accumulate input idx tofBin det bfield engine =>
    exact accumulateSimHits_dedup cfg col s input idx tofBin det bfield engine h
  | digi outdigi outrawdigi outLink det cal engine =>
    intro d c v hv
    simp only [runCall, digitize_contributions] at hv
    split_ifs at hv
    exact h d c v hv

theorem runCalls_dedup (cfg : Config) (col : Collaborators) (s : State) (calls : List Call)
    (h : TruthMapDedup s) : TruthMapDedup (runCalls cfg col s calls) := by
  unfold runCalls
  induction calls generalizing s with
  | nil => exact h
  | cons call rest ih => exact ih _ (runCall_dedup cfg col s call h)

/-- C5: starting from the empty TruthMap left by `initializeEvent`, after any
sequence of calls of the operations (`accumulateSimHits` and `digitize`, and also
the two initialisations), no Contribution list of any unit and channel has two
entries, at different positions, with the same `trackID` and the same `eventID`. -/
theorem truthmap_dedup_invariant (cfg : Config) (col : Collaborators) (s : State)
    (iSetup : EventSetup) (calls : List Call) (d c : Nat) :
    ∀ v, contributions (runCalls cfg col (initializeEvent s iSetup) calls) d c = some v →
      ∀ i j : Fin v.length, (v.get i).trackID = (v.get j).trackID →
        (v.get i).eventID = (v.get j).eventID → i = j := by
  intro v hv i j ht he
  have h0 : TruthMapDedup (initializeEvent s iSetup) := by
    intro d c v hv
    simp [initializeEvent, contributions] at hv
  have hnd : (v.map pairOf).Nodup := runCalls_dedup cfg col _ calls h0 d c v hv
  have hinj := List.nodup_iff_injective_get.mp hnd
  have hi : i.1 < (v.map pairOf).length := by simp
  have hj : j.1 < (v.map pairOf).length := by simp
  have hij := @hinj ⟨i.1, hi⟩ ⟨j.1, hj⟩
    (by simp only [List.get_eq_getElem, List.getElem_map, pairOf, Prod.mk.injEq]
        exact ⟨by simpa using ht, by simpa using he⟩)
  exact Fin.ext (by simpa using hij)

/-- C5 at a concrete input: two accumulation calls on unit 1, each with one hit
of track 7 on channel 0, leave one Contribution on the channel. -/
theorem truthmap_dedup_invariant_witness :
    contributions (runCalls (exCfg true false) (exCol fun _ => true)
        (initializeEvent (initializeDetUnit exState0 exDet exSetup) exSetup)
        [Call.accumulate [exHit 7 3] 0 0 exDet (0, 0, 0) exEngine,
         Call.accumulate [exHit 7 1] 1 0 exDet (0, 0, 0) exEngine]) 1 0
      = some [⟨7, 0, 4, 0, 0⟩] ∧
    (⟨0, by simp⟩ : Fin [(⟨7, 0, 4, 0, 0⟩ : AssociationInfo)].length) = ⟨0, by simp⟩ := by
  have hv : contributions (runCalls (exCfg true false) (exCol fun _ => true)
        (initializeEvent (initializeDetUnit exState0 exDet exSetup) exSetup)
        [Call.accumulate [exHit 7 3] 0 0 exDet (0, 0, 0) exEngine,
         Call.accumulate [exHit 7 1] 1 0 exDet (0, 0, 0) exEngine]) 1 0
      = some [⟨7, 0, 4, 0, 0⟩] := by
    simp [contributions, runCalls, runCall, accumulateSimHits, exCfg, exCol, exDet, exHit,
      exEngine, shoot, simHitLoop, processSimHit, passesTOF, apvKiller, recordSimHit,
      recordStrip, updateAssociationVector, assign, initializeEvent, initializeDetUnit, hitLoopStart,
      lorentzAngle, exSetup, exState0, List.range_succ]
    norm_num
  exact ⟨hv, truthmap_dedup_invariant (exCfg true false) (exCol fun _ => true)
    (initializeDetUnit exState0 exDet exSetup) exSetup _ 1 0 _ hv ⟨0, by simp⟩ ⟨0, by simp⟩
    rfl rfl⟩

theorem updateAssociationVector_absent (v : List AssociationInfo) (t e : Nat) (x : ℚ)
    (i b : Nat) (h : ∀ a ∈ v, ¬ (a.trackID = t ∧ a.eventID = e)) :
    updateAssociationVector v t e x i b = v ++ [⟨t, e, x, i, b⟩] := by
  induction v with
  | nil => simp [updateAssociationVector]
  | cons a rest ih =>
    unfold updateAssociationVector
    rw [if_neg (h a (List.mem_cons_self _ _)),
      ih (fun a' ha' => h a' (List.mem_cons_of_mem _ ha'))]
    rfl

theorem updateAssociationVector_present (pre post : List AssociationInfo) (a : AssociationInfo)
    (t e : Nat) (x : ℚ) (i b : Nat) (h : ∀ a' ∈ pre, ¬ (a'.trackID = t ∧ a'.eventID = e))
    (ha : a.trackID = t ∧ a.eventID = e) :
    updateAssociationVector (pre ++ a :: post) t e x i b
      = pre ++ { a with contributionToADC := a.contributionToADC + x } :: post := by
  induction pre with
  | nil =>
    rw [List.nil_append, updateAssociationVector, if_pos ha]
    rfl
  | cons p rest ih =>
    rw [List.cons_append, updateAssociationVector, if_neg (h p (List.mem_cons_self _ _)),
      ih (fun a' ha' => h a' (List.mem_cons_of_mem _ ha'))]
    rfl

/-- The Contribution list of a channel of the unit after an accepted accumulation
call with truth association on: the list left by the loop over the sim hits. -/
theorem accumulateSimHits_contributions (cfg : Config) (col : Collaborators) (s : State)
    (input : List PSimHit) (idx tofBin : Nat) (det : StripGeomDetUnit) (bfield : Vector3)
    (engine : HepRandomEngine) (c : Nat)
    (hacc : (shoot engine).1 > cfg.inefficiency) (hmk : cfg.makeDigiSimLinks_ = true) :
    contributions (accumulateSimHits cfg col s input idx tofBin det bfield engine).state
        det.rawId c
      = (simHitLoop cfg col det bfield (lorentzAngle s det.rawId) tofBin input idx
          (hitLoopStart s det engine)).associationInfo c := by
  simp [contributions, accumulateSimHits, hacc, hmk, assign]

theorem hitLoopStart_associationInfo (s : State) (det : StripGeomDetUnit)
    (engine : HepRandomEngine) (c : Nat) :
    (hitLoopStart s det engine).associationInfo c = contributions s det.rawId c := by
  unfold hitLoopStart contributions
  cases s.associationInfoForDetId_ det.rawId <;> simp

theorem accumulateSimHits_lorentzAngle (cfg : Config) (col : Collaborators) (s : State)
    (input : List PSimHit) (idx tofBin : Nat) (det : StripGeomDetUnit) (bfield : Vector3)
    (engine : HepRandomEngine) (d : Nat) :
    lorentzAngle (accumulateSimHits cfg col s input idx tofBin det bfield engine).state d
      = lorentzAngle s d := by
  simp [lorentzAngle, accumulateSimHits]

/-- The Contribution list of a channel after the loop body has run for an
accepted hit of the unit, with truth association on. -/
theorem processSimHit_associationInfo (cfg : Config) (col : Collaborators)
    (det : StripGeomDetUnit) (bfield : Vector3) (langle : ℚ) (tofBin idx : Nat)
    (st : HitLoopState) (hit : PSimHit) (c : Nat)
    (hd : hit.detUnitId = det.rawId) (ht : passesTOF cfg det hit)
    (hmk : cfg.makeDigiSimLinks_ = true) :
    (processSimHit cfg col det bfield langle tofBin idx st hit).associationInfo c
      = recordSimHit (col.processHit hit det bfield langle st.locAmpl det.nstrips 0
            st.engine).locAmpl st.locAmpl hit.trackId hit.eventId idx tofBin
          st.associationInfo c := by
  simp [processSimHit, hd, ht, hmk]

/-- C6: with truth association on, let two accepted hits of the unit carry the
same `(trackId, eventId)`, a pair no Contribution of channel `c` has yet, and let
each change the amplitude of channel `c` by a nonzero delta.  Whether the hits
come in two separate accepted calls or one after the other in one accepted call,
the Contribution list of the channel is then the old list followed by exactly one
entry for the pair, whose `contributionToADC` is the sum of the two deltas (and
whose hit index and time bin are those of the first hit). -/
theorem same_particle_contributions_merge (cfg : Config) (col : Collaborators) (s : State)
    (det : StripGeomDetUnit) (bfield : Vector3) (hit₁ hit₂ : PSimHit)
    (idx₁ idx₂ tofBin₁ tofBin₂ : Nat) (engine₁ engine₂ : HepRandomEngine) (c : Nat)
    (hmk : cfg.makeDigiSimLinks_ = true)
    (hd₁ : hit₁.detUnitId = det.rawId) (hd₂ : hit₂.detUnitId = det.rawId)
    (ht₁ : passesTOF cfg det hit₁) (ht₂ : passesTOF cfg det hit₂)
    (htrack : hit₂.trackId = hit₁.trackId) (hevent : hit₂.eventId = hit₁.eventId)
    (hacc₁ : (shoot engine₁).1 > cfg.inefficiency)
    (hacc₂ : (shoot engine₂).1 > cfg.inefficiency)
    (hfresh : ∀ a ∈ (contributions s det.rawId c).getD [],
      ¬ (a.trackID = hit₁.trackId ∧ a.eventID = hit₁.eventId))
    (hc₁ : c < (firstHitResult col s det bfield hit₁ engine₁).locAmpl.length)
    (hδ₁ : (firstHitResult col s det bfield hit₁ engine₁).locAmpl.getD c 0
      - (List.replicate det.nstrips (0 : ℚ)).getD c 0 ≠ 0)
    (hc₂ : c < (firstHitResult col s det bfield hit₂ engine₂).locAmpl.length)
    (hδ₂ : (firstHitResult col s det bfield hit₂ engine₂).locAmpl.getD c 0
      - (List.replicate det.nstrips (0 : ℚ)).getD c 0 ≠ 0)
    (hc₂' : c < (secondHitResult cfg col s det bfield hit₁ hit₂ engine₁).locAmpl.length)
    (hδ₂' : (secondHitResult cfg col s det bfield hit₁ hit₂ engine₁).locAmpl.getD c 0
      - (firstHitResult col s det bfield hit₁ engine₁).locAmpl.getD c 0 ≠ 0) :
    contributions
        (accumulateSimHits cfg col
          (accumulateSimHits cfg col s [hit₁] idx₁ tofBin₁ det bfield engine₁).state
          [hit₂] idx₂ tofBin₂ det bfield engine₂).state det.rawId c
      = some ((contributions s det.rawId c).getD [] ++
          [⟨hit₁.trackId, hit₁.eventId,
            ((firstHitResult col s det bfield hit₁ engine₁).locAmpl.getD c 0
              - (List.replicate det.nstrips (0 : ℚ)).getD c 0)
            + ((firstHitResult col s det bfield hit₂ engine₂).locAmpl.getD c 0
              - (List.replicate det.nstrips (0 : ℚ)).getD c 0),
            idx₁, tofBin₁⟩]) ∧
    contributions
        (accumulateSimHits cfg col s [hit₁, hit₂] idx₁ tofBin₁ det bfield engine₁).state
        det.rawId c
      = some ((contributions s det.rawId c).getD [] ++
          [⟨hit₁.trackId, hit₁.eventId,
            ((firstHitResult col s det bfield hit₁ engine₁).locAmpl.getD c 0
              - (List.replicate det.nstrips (0 : ℚ)).getD c 0)
            + ((secondHitResult cfg col s det bfield hit₁ hit₂ engine₁).locAmpl.getD c 0
              - (firstHitResult col s det bfield hit₁ engine₁).locAmpl.getD c 0),
            idx₁, tofBin₁⟩]) := by
  -- the list after the first hit
  have h1 : (processSimHit cfg col det bfield (lorentzAngle s det.rawId) tofBin₁ idx₁
      (hitLoopStart s det engine₁) hit₁).associationInfo c
      = some ((contributions s det.rawId c).getD [] ++
          [⟨hit₁.trackId, hit₁.eventId,
            (firstHitResult col s det bfield hit₁ engine₁).locAmpl.getD c 0
              - (List.replicate det.nstrips (0 : ℚ)).getD c 0, idx₁, tofBin₁⟩]) := by
    rw [processSimHit_associationInfo _ _ _ _ _ _ _ _ _ _ hd₁ ht₁ hmk, recordSimHit_apply]
    have hc : c < (col.processHit hit₁ det bfield (lorentzAngle s det.rawId)
        (hitLoopStart s det engine₁).locAmpl det.nstrips 0
        (hitLoopStart s det engine₁).engine).locAmpl.length := hc₁
    have hδ : (col.processHit hit₁ det bfield (lorentzAngle s det.rawId)
        (hitLoopStart s det engine₁).locAmpl det.nstrips 0
        (hitLoopStart s det engine₁).engine).locAmpl.getD c 0
        - (hitLoopStart s det engine₁).locAmpl.getD c 0 ≠ 0 := hδ₁
    rw [if_pos ⟨hc, hδ⟩, hitLoopStart_associationInfo,
      updateAssociationVector_absent _ _ _ _ _ _ hfresh]
    rfl
  have hpair : hit₁.trackId = hit₂.trackId ∧ hit₁.eventId = hit₂.eventId :=
    ⟨htrack.symm, hevent.symm⟩
  have hfresh₂ : ∀ a ∈ (contributions s det.rawId c).getD [],
      ¬ (a.trackID = hit₂.trackId ∧ a.eventID = hit₂.eventId) := by
    rw [htrack, hevent]; exact hfresh
  constructor
  · rw [accumulateSimHits_contributions _ _ _ _ _ _ _ _ _ _ hacc₂ hmk]
    simp only [simHitLoop, accumulateSimHits_lorentzAngle]
    rw [processSimHit_associationInfo _ _ _ _ _ _ _ _ _ _ hd₂ ht₂ hmk, recordSimHit_apply]
    have hc : c < (col.processHit hit₂ det bfield (lorentzAngle s det.rawId)
        (hitLoopStart (accumulateSimHits cfg col s [hit₁] idx₁ tofBin₁ det bfield engine₁).state
          det engine₂).locAmpl det.nstrips 0
        (hitLoopStart (accumulateSimHits cfg col s [hit₁] idx₁ tofBin₁ det bfield engine₁).state
          det engine₂).engine).locAmpl.length := hc₂
    have hδ : (col.processHit hit₂ det bfield (lorentzAngle s det.rawId)
        (hitLoopStart (accumulateSimHits cfg col s [hit₁] idx₁ tofBin₁ det bfield engine₁).state
          det engine₂).locAmpl det.nstrips 0
        (hitLoopStart (accumulateSimHits cfg col s [hit₁] idx₁ tofBin₁ det bfield engine₁).state
          det engine₂).engine).locAmpl.getD c 0
        - (hitLoopStart (accumulateSimHits cfg col s [hit₁] idx₁ tofBin₁ det bfield
            engine₁).state det engine₂).locAmpl.getD c 0 ≠ 0 := hδ₂
    rw [if_pos ⟨hc, hδ⟩, hitLoopStart_associationInfo,
      accumulateSimHits_contributions _ _ _ _ _ _ _ _ _ _ hacc₁ hmk]
    simp only [simHitLoop]
    rw [h1, Option.getD_some,
      updateAssociationVector_present _ [] _ _ _ _ _ _ hfresh₂ hpair]
    rfl
  · rw [accumulateSimHits_contributions _ _ _ _ _ _ _ _ _ _ hacc₁ hmk]
    simp only [simHitLoop]
    rw [processSimHit_associationInfo _ _ _ _ _ _ _ _ _ _ hd₂ ht₂ hmk, recordSimHit_apply]
    have hloc : (processSimHit cfg col det bfield (lorentzAngle s det.rawId) tofBin₁ idx₁
        (hitLoopStart s det engine₁) hit₁).locAmpl
        = (firstHitResult col s det bfield hit₁ engine₁).locAmpl := by
      simp [processSimHit, hd₁, ht₁, firstHitResult, hitLoopStart]
    have hres : col.processHit hit₂ det bfield (lorentzAngle s det.rawId)
        (processSimHit cfg col det bfield (lorentzAngle s det.rawId) tofBin₁ idx₁
          (hitLoopStart s det engine₁) hit₁).locAmpl det.nstrips 0
        (processSimHit cfg col det bfield (lorentzAngle s det.rawId) tofBin₁ idx₁
          (hitLoopStart s det engine₁) hit₁).engine
        = secondHitResult cfg col s det bfield hit₁ hit₂ engine₁ := by
      simp [processSimHit, hd₁, ht₁, secondHitResult, firstHitResult, hitLoopStart]
    rw [hres, hloc, if_pos ⟨hc₂', hδ₂'⟩, h1, Option.getD_some,
      updateAssociationVector_present _ [] _ _ _ _ _ _ hfresh₂ hpair]

/-- C6 at a concrete input: two hits of track 7 inducing the charges 3 and 1 on
channel 0 of unit 1, in two calls and in one call: one Contribution of charge 4. -/
theorem same_particle_contributions_merge_witness :
    contributions
        (accumulateSimHits (exCfg true false) (exCol fun _ => true)
          (accumulateSimHits (exCfg true false) (exCol fun _ => true) exState
            [exHit 7 3] 0 0 exDet (0, 0, 0) exEngine).state
          [exHit 7 1] 1 1 exDet (0, 0, 0) exEngine).state 1 0
      = some [⟨7, 0, 4, 0, 0⟩] ∧
    contributions
        (accumulateSimHits (exCfg true false) (exCol fun _ => true) exState
          [exHit 7 3, exHit 7 1] 0 0 exDet (0, 0, 0) exEngine).state 1 0
      = some [⟨7, 0, 4, 0, 0⟩] := by
  have h := same_particle_contributions_merge (exCfg true false) (exCol fun _ => true) exState
    exDet (0, 0, 0) (exHit 7 3) (exHit 7 1) 0 1 0 1 exEngine exEngine 0 rfl rfl rfl
    (by simp [passesTOF, exCfg, exDet, exHit]) (by simp [passesTOF, exCfg, exDet, exHit])
    rfl rfl (by simp [shoot, exEngine, exCfg]) (by simp [shoot, exEngine, exCfg])
    (by simp [contributions, exState, initializeEvent])
    (by simp [firstHitResult, exCol, exDet])
    (by simp [firstHitResult, exCol, exDet, exHit])
    (by simp [firstHitResult, exCol, exDet])
    (by simp [firstHitResult, exCol, exDet, exHit])
    (by simp [secondHitResult, firstHitResult, exCol, exDet])
    (by simp [secondHitResult, firstHitResult, exCol, exDet, exHit])
  have hv0 : contributions exState exDet.rawId 0 = none := by
    simp [contributions, exState, initializeEvent]
  have e0 : (List.replicate exDet.nstrips (0 : ℚ)).getD 0 0 = 0 := by simp [exDet]
  have e1 : (firstHitResult (exCol fun _ => true) exState exDet (0, 0, 0) (exHit 7 3)
      exEngine).locAmpl.getD 0 0 = 3 := by simp [firstHitResult, exCol, exDet, exHit]
  have e2 : (firstHitResult (exCol fun _ => true) exState exDet (0, 0, 0) (exHit 7 1)
      exEngine).locAmpl.getD 0 0 = 1 := by simp [firstHitResult, exCol, exDet, exHit]
  have e3 : (secondHitResult (exCfg true false) (exCol fun _ => true) exState exDet (0, 0, 0)
      (exHit 7 3) (exHit 7 1) exEngine).locAmpl.getD 0 0 = 4 := by
    simp [secondHitResult, firstHitResult, exCol, exDet, exHit]
    norm_num
  have e4 : (exHit 7 3).trackId = 7 ∧ (exHit 7 3).eventId = 0 := ⟨rfl, rfl⟩
  have e5 : exDet.rawId = 1 := rfl
  rw [hv0, e0, e1, e2, e3, e4.1, e4.2, e5] at h
  simp only [Option.getD_none, List.nil_append] at h
  have e6 : (3 : ℚ) - 0 + (1 - 0) = 4 := by norm_num
  have e7 : (3 : ℚ) - 0 + (4 - 3) = 4 := by norm_num
  rw [e6, e7] at h
  exact h

theorem getD_replicate_zero (n c : Nat) : (List.replicate n (0 : ℚ)).getD c 0 = 0 := by
  by_cases h : c < n
  · simp [List.getD_eq_getElem?_getD, List.getElem?_replicate, h]
  · simp [List.getD_eq_getElem?_getD, List.getElem?_replicate, h]

theorem chargeVector_accumulateSimHits (cfg : Config) (col : Collaborators) (s : State)
    (input : List PSimHit) (idx tofBin : Nat) (det : StripGeomDetUnit) (bfield : Vector3)
    (engine : HepRandomEngine) (c : Nat) :
    chargeVector (accumulateSimHits cfg col s input idx tofBin det bfield engine).state
        det.rawId c
      = chargeVector s det.rawId c +
        (if (shoot engine).1 > cfg.inefficiency then
          (simHitLoop cfg col det bfield (lorentzAngle s det.rawId) tofBin input idx
            (hitLoopStart s det engine)).locAmpl.getD c 0
         else 0) := by
  by_cases hacc : (shoot engine).1 > cfg.inefficiency
  · simp [chargeVector, accumulateSimHits, SiPileUpSignals.add, SiPileUpSignals.getSignal, hacc]
  · simp only [chargeVector, accumulateSimHits, SiPileUpSignals.add, SiPileUpSignals.getSignal,
      hacc, decide_False, if_false, if_true, Option.getD_some, Bool.false_eq_true]
    simp only [hitLoopStart, getD_replicate_zero]

/-- C8, amended: `accumulateSimHits` draws one uniform value before any hit.  If
the draw does not exceed the configured inefficiency, the pass contributes
nothing: the result is the same for every hit range and every collaborator (no
hit is handed to the charge sharing), the engine has advanced by the one draw,
the ChargeVector, the TruthMap, every saturation mask and the stored last
channel are unchanged, and so is the stored first channel when it is at most the
channel count.  If the draw exceeds the inefficiency the hits are processed: the
ChargeVector gains the local amplitudes left by the loop over the hits and the
engine is the one the loop leaves. -/
theorem inefficiency_draw_gates_pass (cfg : Config) (col : Collaborators) (s : State)
    (input : List PSimHit) (idx tofBin : Nat) (det : StripGeomDetUnit) (bfield : Vector3)
    (engine : HepRandomEngine) :
    ((shoot engine).1 ≤ cfg.inefficiency →
      (∀ (col' : Collaborators) (input' : List PSimHit) (idx' : Nat),
        accumulateSimHits cfg col' s input' idx' tofBin det bfield engine
          = accumulateSimHits cfg col s input idx tofBin det bfield engine) ∧
      (accumulateSimHits cfg col s input idx tofBin det bfield engine).engine
        = (shoot engine).2 ∧
      (∀ d c, chargeVector (accumulateSimHits cfg col s input idx tofBin det bfield
          engine).state d c = chargeVector s d c) ∧
      (accumulateSimHits cfg col s input idx tofBin det bfield
          engine).state.associationInfoForDetId_ = s.associationInfoForDetId_ ∧
      (∀ d, (accumulateSimHits cfg col s input idx tofBin det bfield
          engine).state.allHIPChannels d = s.allHIPChannels d) ∧
      (accumulateSimHits cfg col s input idx tofBin det bfield
          engine).state.lastChannelsWithSignal = s.lastChannelsWithSignal ∧
      (s.firstChannelsWithSignal det.rawId ≤ det.nstrips →
        (accumulateSimHits cfg col s input idx tofBin det bfield
          engine).state.firstChannelsWithSignal = s.firstChannelsWithSignal)) ∧
    ((shoot engine).1 > cfg.inefficiency →
      (accumulateSimHits cfg col s input idx tofBin det bfield engine).engine
        = (simHitLoop cfg col det bfield (lorentzAngle s det.rawId) tofBin input idx
            (hitLoopStart s det engine)).engine ∧
      ∀ c, chargeVector (accumulateSimHits cfg col s input idx tofBin det bfield
          engine).state det.rawId c
        = chargeVector s det.rawId c +
          (simHitLoop cfg col det bfield (lorentzAngle s det.rawId) tofBin input idx
            (hitLoopStart s det engine)).locAmpl.getD c 0) := by
  constructor
  · intro hrej
    have hnot : ¬ (shoot engine).1 > cfg.inefficiency := not_lt.mpr hrej
    refine ⟨?_, ?_, ?_, ?_, ?_, ?_, ?_⟩
    · intro col' input' idx'
      simp [accumulateSimHits, hnot]
    · simp [accumulateSimHits, hnot, hitLoopStart]
    · intro d c
      by_cases hd : d = det.rawId
      · subst hd
        rw [chargeVector_accumulateSimHits, if_neg hnot, add_zero]
      · simp [chargeVector, accumulateSimHits, SiPileUpSignals.add, SiPileUpSignals.getSignal, hd]
    · simp [accumulateSimHits, hnot]
    · intro d
      by_cases hd : d = det.rawId
      · subst hd
        simp [accumulateSimHits, hnot, assign, hitLoopStart]
      · simp [accumulateSimHits, hnot, assign, hd]
    · simp [accumulateSimHits, hnot, hitLoopStart]
    · intro hfirst
      have : ¬ s.firstChannelsWithSignal det.rawId > det.nstrips := not_lt.mpr hfirst
      simp [accumulateSimHits, hnot, hitLoopStart, this]
  · intro hacc
    refine ⟨?_, ?_⟩
    · simp [accumulateSimHits, hacc]
    · intro c
      rw [chargeVector_accumulateSimHits, if_pos hacc]

/-- C8 fails as stated: the test is `shoot > inefficiency` for processing.  With
inefficiency 0 the draw 1/2 exceeds the threshold and the hit is processed
(channel 0 of unit 1 gains the charge 3 and a Contribution is recorded); with
inefficiency 1 the draw 1/2 does not exceed it and the hit is not processed. -/
theorem draw_above_threshold_processes_hits :
    (shoot exEngine).1 > (exCfg true false).inefficiency ∧
    chargeVector exState 1 0 = 0 ∧
    chargeVector (accumulateSimHits (exCfg true false) (exCol fun _ => true) exState
      [exHit 7 3] 0 0 exDet (0, 0, 0) exEngine).state 1 0 = 3 ∧
    contributions (accumulateSimHits (exCfg true false) (exCol fun _ => true) exState
      [exHit 7 3] 0 0 exDet (0, 0, 0) exEngine).state 1 0 = some [⟨7, 0, 3, 0, 0⟩] ∧
    ¬ (shoot exEngine).1 > exCfgInefficient.inefficiency ∧
    chargeVector (accumulateSimHits exCfgInefficient (exCol fun _ => true) exState
      [exHit 7 3] 0 0 exDet (0, 0, 0) exEngine).state 1 0 = 0 ∧
    contributions (accumulateSimHits exCfgInefficient (exCol fun _ => true) exState
      [exHit 7 3] 0 0 exDet (0, 0, 0) exEngine).state 1 0 = none := by
  refine ⟨?_, ?_, ?_, ?_, ?_, ?_, ?_⟩
  · simp [shoot, exEngine, exCfg]
  · simp [chargeVector, exState, initializeEvent, SiPileUpSignals.getSignal,
      SiPileUpSignals.reset]
  · simp [chargeVector, SiPileUpSignals.getSignal, SiPileUpSignals.add, SiPileUpSignals.reset,
      accumulateSimHits, exCfg, exCol, exState, exDet, exHit,
      exEngine, shoot, simHitLoop, processSimHit, passesTOF, apvKiller, recordSimHit,
      recordStrip, updateAssociationVector, assign, initializeEvent, initializeDetUnit,
      hitLoopStart, lorentzAngle, exSetup, exState0, List.range_succ]
  · simp [contributions, accumulateSimHits, exCfg, exCol, exState, exDet, exHit,
      exEngine, shoot, simHitLoop, processSimHit, passesTOF, apvKiller, recordSimHit,
      recordStrip, updateAssociationVector, assign, initializeEvent, initializeDetUnit,
      hitLoopStart, lorentzAngle, exSetup, exState0, List.range_succ]
  · simp [shoot, exEngine, exCfgInefficient, exCfg]
    norm_num
  · simp [chargeVector, SiPileUpSignals.getSignal, SiPileUpSignals.add, SiPileUpSignals.reset,
      accumulateSimHits, exCfgInefficient, exCfg, exCol, exState, exDet, exHit,
      exEngine, shoot, assign, initializeEvent, initializeDetUnit,
      hitLoopStart, lorentzAngle, exSetup, exState0]
    norm_num
  · simp [contributions, accumulateSimHits, exCfgInefficient, exCfg, exCol, exState, exDet,
      exHit, exEngine, shoot, assign, initializeEvent, initializeDetUnit,
      hitLoopStart, lorentzAngle, exSetup, exState0]
    norm_num
    intro a h
    cases h

/-- C8, amended, at a concrete input: with inefficiency 1 and the draw 1/2 the
pass leaves the ChargeVector of unit 1 unchanged and takes one draw. -/
theorem inefficiency_draw_gates_pass_witness :
    (shoot exEngine).1 ≤ exCfgInefficient.inefficiency ∧
    (accumulateSimHits exCfgInefficient (exCol fun _ => true) exState
      [exHit 7 3] 0 0 exDet (0, 0, 0) exEngine).engine = (shoot exEngine).2 ∧
    chargeVector (accumulateSimHits exCfgInefficient (exCol fun _ => true) exState
      [exHit 7 3] 0 0 exDet (0, 0, 0) exEngine).state 1 0 = chargeVector exState 1 0 := by
  have hrej : (shoot exEngine).1 ≤ exCfgInefficient.inefficiency := by
    simp [shoot, exEngine, exCfgInefficient, exCfg]
    norm_num
  have h := (inefficiency_draw_gates_pass exCfgInefficient (exCol fun _ => true) exState
    [exHit 7 3] 0 0 exDet (0, 0, 0) exEngine).1 hrej
  exact ⟨hrej, h.2.1, h.2.2.1 1 0⟩

/-! ## Lemmas on the APV killer -/

theorem setStrip_length (hip : List Bool) (z : Int) : (setStrip hip z).length = hip.length := by
  unfold setStrip
  split_ifs <;> simp

theorem setStrip_getD (hip : List Bool) (z : Int) (k : Nat) :
    (setStrip hip z).getD k false = true
      ↔ hip.getD k false = true ∨ (k < hip.length ∧ z = (k : Int)) := by
  unfold setStrip
  by_cases hz : z < 0
  · rw [if_pos hz]
    constructor
    · intro h; exact Or.inl h
    · rintro (h | ⟨_, h⟩)
      · exact h
      · omega
  · rw [if_neg hz]
    simp only [List.getD_eq_getElem?_getD, List.getElem?_set]
    by_cases hk : z.toNat = k
    · have hzk : z = (k : Int) := by omega
      by_cases hlt : k < hip.length
      · simp [hk, hlt, hzk]
      · simp [hk, hlt, hzk, List.getElem?_eq_none (not_lt.mp hlt)]
    · have hzk : ¬ z = (k : Int) := by omega
      simp [hk, hzk]

theorem foldl_setStrip_length (l : List Int) (hip : List Bool) :
    (l.foldl setStrip hip).length = hip.length := by
  induction l generalizing hip with
  | nil => rfl
  | cons z rest ih => rw [List.foldl_cons, ih, setStrip_length]

theorem foldl_setStrip_getD (l : List Int) (hip : List Bool) (k : Nat) :
    (l.foldl setStrip hip).getD k false = true
      ↔ hip.getD k false = true ∨ (k < hip.length ∧ (k : Int) ∈ l) := by
  induction l generalizing hip with
  | nil => simp
  | cons z rest ih =>
    rw [List.foldl_cons, ih, setStrip_getD, setStrip_length, List.mem_cons]
    constructor
    · rintro ((h | ⟨hk, hz⟩) | ⟨hk, hm⟩)
      · exact Or.inl h
      · exact Or.inr ⟨hk, Or.inl hz.symm⟩
      · exact Or.inr ⟨hk, Or.inr hm⟩
    · rintro (h | ⟨hk, hz | hm⟩)
      · exact Or.inl (Or.inl h)
      · exact Or.inl (Or.inr ⟨hk, hz.symm⟩)
      · exact Or.inr ⟨hk, hm⟩

theorem mem_stripIndices (lo hi : Int) (k : Nat) :
    (k : Int) ∈ stripIndices lo hi ↔ lo ≤ (k : Int) ∧ (k : Int) < hi := by
  unfold stripIndices
  rw [List.mem_map]
  constructor
  · rintro ⟨i, hi', hik⟩
    rw [List.mem_range] at hi'
    omega
  · rintro ⟨h1, h2⟩
    refine ⟨((k : Int) - lo).toNat, ?_, ?_⟩
    · rw [List.mem_range]; omega
    · omega

theorem toInt32_of_lt (x : Nat) (h : x < 2 ^ 31) : toInt32 x = (x : Int) := by
  unfold toInt32
  have h1 : x % 2 ^ 32 = x := Nat.mod_eq_of_lt (by omega)
  rw [h1, if_pos h]

theorem LastAPV_zero : LastAPV 0 = -1 := by
  unfold LastAPV toInt32
  norm_num

theorem LastAPV_of_pos (l : Nat) (h1 : 1 ≤ l) (h2 : l ≤ 2 ^ 31) :
    LastAPV l = (((l - 1) / 128 : Nat) : Int) := by
  unfold LastAPV
  have h : (l + 2 ^ 64 - 1) % 2 ^ 64 = l - 1 := by omega
  rw [h, toInt32_of_lt _ (by omega)]

/-- The mask after the APV-killer loop, channel by channel, and its length. -/
theorem markAPVs_getD (hip : List Bool) (f l k : Nat) (hf : f ≤ 2 ^ 31) (hl : l ≤ 2 ^ 31) :
    (markAPVs hip f l).length = hip.length ∧
    ((markAPVs hip f l).getD k false = true
      ↔ hip.getD k false = true ∨
        (k < hip.length ∧ 1 ≤ l ∧ f / 128 ≤ k / 128 ∧ k / 128 ≤ (l - 1) / 128)) := by
  unfold markAPVs
  refine ⟨foldl_setStrip_length _ _, ?_⟩
  rw [foldl_setStrip_getD, mem_stripIndices]
  have hF : FirstAPV f = ((f / 128 : Nat) : Int) := by
    unfold FirstAPV; exact toInt32_of_lt _ (by omega)
  rw [hF]
  by_cases h0 : l = 0
  · subst h0
    rw [LastAPV_zero]
    constructor
    · rintro (h | ⟨_, _, h⟩)
      · exact Or.inl h
      · omega
    · rintro (h | ⟨_, h, _⟩)
      · exact Or.inl h
      · omega
  · rw [LastAPV_of_pos l (by omega) hl]
    constructor
    · rintro (h | ⟨hk, h1, h2⟩)
      · exact Or.inl h
      · exact Or.inr ⟨hk, by omega, by omega, by omega⟩
    · rintro (h | ⟨hk, _, h1, h2⟩)
      · exact Or.inl h
      · exact Or.inr ⟨hk, by omega, by omega⟩

/-- C10, amended: for an accepted hit of the unit whose footprint bounds are in
the range of `int`, with the saturation emulation on, a table entry for the unit
and the draw below probability times scaling, the mask keeps its length and a
channel is saturated afterwards exactly when it was before or it lies in one of
the 128-channel groups `localFirstChannel/128` through `(localLastChannel-1)/128`
(none when `localLastChannel` is 0); when the emulation is off, the unit has no
table entry or the draw is not below the product, the mask is unchanged. -/
theorem apv_saturation_marking (cfg : Config) (col : Collaborators) (det : StripGeomDetUnit)
    (bfield : Vector3) (langle : ℚ) (tofBin idx : Nat) (st : HitLoopState) (hit : PSimHit)
    (hd : hit.detUnitId = det.rawId) (ht : passesTOF cfg det hit)
    (hfirst : (col.processHit hit det bfield langle st.locAmpl det.nstrips 0
      st.engine).localFirstChannel ≤ 2 ^ 31)
    (hlast : (col.processHit hit det bfield langle st.locAmpl det.nstrips 0
      st.engine).localLastChannel ≤ 2 ^ 31) :
    (cfg.APVSaturationFromHIP = true →
      ∀ p, cfg.mapOfAPVprobabilities det.rawId = some p →
        (shoot (col.processHit hit det bfield langle st.locAmpl det.nstrips 0
          st.engine).engine).1 < p * cfg.APVSaturationProbScaling →
        (processSimHit cfg col det bfield langle tofBin idx st hit).hipChannels.length
          = st.hipChannels.length ∧
        ∀ k, (processSimHit cfg col det bfield langle tofBin idx st hit).hipChannels.getD k false
            = true
          ↔ st.hipChannels.getD k false = true ∨
            (k < st.hipChannels.length ∧
              1 ≤ (col.processHit hit det bfield langle st.locAmpl det.nstrips 0
                st.engine).localLastChannel ∧
              (col.processHit hit det bfield langle st.locAmpl det.nstrips 0
                st.engine).localFirstChannel / 128 ≤ k / 128 ∧
              k / 128 ≤ ((col.processHit hit det bfield langle st.locAmpl det.nstrips 0
                st.engine).localLastChannel - 1) / 128)) ∧
    ((cfg.APVSaturationFromHIP = false ∨ cfg.mapOfAPVprobabilities det.rawId = none ∨
        ∃ p, cfg.mapOfAPVprobabilities det.rawId = some p ∧
          ¬ (shoot (col.processHit hit det bfield langle st.locAmpl det.nstrips 0
            st.engine).engine).1 < p * cfg.APVSaturationProbScaling) →
      (processSimHit cfg col det bfield langle tofBin idx st hit).hipChannels
        = st.hipChannels) := by
  have hmask : (processSimHit cfg col det bfield langle tofBin idx st hit).hipChannels
      = (apvKiller cfg det.rawId st.hipChannels
          (col.processHit hit det bfield langle st.locAmpl det.nstrips 0
            st.engine).localFirstChannel
          (col.processHit hit det bfield langle st.locAmpl det.nstrips 0
            st.engine).localLastChannel
          (col.processHit hit det bfield langle st.locAmpl det.nstrips 0
            st.engine).engine).1 := by
    simp [processSimHit, hd, ht]
  rw [hmask]
  constructor
  · intro hon p hp hdraw
    simp only [apvKiller, hon, if_true, hp, hdraw]
    exact ⟨(markAPVs_getD _ _ _ 0 hfirst hlast).1,
      fun k => (markAPVs_getD _ _ _ k hfirst hlast).2⟩
  · rintro (hoff | hnone | ⟨p, hp, hdraw⟩)
    · simp [apvKiller, hoff]
    · cases hon : cfg.APVSaturationFromHIP <;> simp [apvKiller, hon, hnone]
    · cases hon : cfg.APVSaturationFromHIP <;> simp [apvKiller, hon, hp, hdraw]

/-- C10 fails as stated: on the 256-channel unit 1, for a hit of footprint
`[0,128]` with the draw 1/2 below the product 1, the groups `0/128` through
`128/128` are the groups 0 and 1, yet channel 128 (group 1) is not marked:
the loop stops at group `(128-1)/128 = 0`, whose last channel 127 is marked. -/
theorem apv_group_of_last_channel_not_marked :
    (exColWide.processHit (exHit 7 3) exDetWide (0, 0, 0) 0 (List.replicate 256 0) 256 0
      (shoot exEngine).2).localFirstChannel = 0 ∧
    (exColWide.processHit (exHit 7 3) exDetWide (0, 0, 0) 0 (List.replicate 256 0) 256 0
      (shoot exEngine).2).localLastChannel = 128 ∧
    (shoot (shoot exEngine).2).1 < 1 * exCfgAPV.APVSaturationProbScaling ∧
    (0 / 128 ≤ 128 / 128 ∧ 128 / 128 ≤ 128 / 128) ∧
    ((accumulateSimHits exCfgAPV exColWide exStateWide [exHit 7 3] 0 0 exDetWide (0, 0, 0)
      exEngine).state.allHIPChannels 1).getD 127 false = true ∧
    ((accumulateSimHits exCfgAPV exColWide exStateWide [exHit 7 3] 0 0 exDetWide (0, 0, 0)
      exEngine).state.allHIPChannels 1).getD 128 false = false := by
  have hmask : (accumulateSimHits exCfgAPV exColWide exStateWide [exHit 7 3] 0 0 exDetWide
      (0, 0, 0) exEngine).state.allHIPChannels 1
      = markAPVs (List.replicate 256 false) 0 128 := by
    simp [accumulateSimHits, exCfgAPV, exCfg, exColWide, exCol, exStateWide, exDetWide, exHit,
      exEngine, shoot, simHitLoop, processSimHit, passesTOF, apvKiller, assign,
      initializeEvent, initializeDetUnit, hitLoopStart, lorentzAngle, exSetup, exState0,
      setBadStrips, -List.reduceReplicate]
    norm_num
  have h127 := (markAPVs_getD (List.replicate 256 false) 0 128 127 (by norm_num)
    (by norm_num)).2
  have h128 := (markAPVs_getD (List.replicate 256 false) 0 128 128 (by norm_num)
    (by norm_num)).2
  refine ⟨rfl, rfl, ?_, by decide, ?_, ?_⟩
  · simp [shoot, exEngine, exCfgAPV, exCfg]
    norm_num
  · rw [hmask, h127]
    right
    rw [List.length_replicate]
    omega
  · rw [hmask]
    cases hb : (markAPVs (List.replicate 256 false) 0 128).getD 128 false with
    | false => rfl
    | true =>
      rw [h128] at hb
      rcases hb with hb | ⟨_, _, _, hb⟩
      · rw [List.getD_eq_getElem?_getD, List.getElem?_replicate] at hb
        simp at hb
      · omega

/-- C10, amended, at a concrete input: on the 256-channel unit 1 the hit of
footprint `localFirstChannel = 0`, `localLastChannel = 128` marks channel 5 and
leaves channel 200 of the second group as it was. -/
theorem apv_saturation_marking_witness :
    (processSimHit exCfgAPV exColWide exDetWide (0, 0, 0) 0 0 0
      (hitLoopStart exStateWide exDetWide exEngine) (exHit 7 3)).hipChannels.getD 5 false
        = true ∧
    ((processSimHit exCfgAPV exColWide exDetWide (0, 0, 0) 0 0 0
      (hitLoopStart exStateWide exDetWide exEngine) (exHit 7 3)).hipChannels.getD 200 false
        = true
      ↔ (hitLoopStart exStateWide exDetWide exEngine).hipChannels.getD 200 false = true) := by
  have h := (apv_saturation_marking exCfgAPV exColWide exDetWide (0, 0, 0) 0 0 0
    (hitLoopStart exStateWide exDetWide exEngine) (exHit 7 3) rfl
    (by simp [passesTOF, exCfgAPV, exCfg, exDetWide, exHit])
    (by simp [exColWide]) (by simp [exColWide])).1 rfl 1 rfl
    (by simp [shoot, exEngine, exCfgAPV, exCfg, exColWide, hitLoopStart]; norm_num)
  have hlen : (hitLoopStart exStateWide exDetWide exEngine).hipChannels.length = 256 := by
    simp [hitLoopStart, exStateWide, exDetWide, initializeEvent, initializeDetUnit, assign,
      exSetup, setBadStrips, -List.reduceReplicate]
  have hfoot : (exColWide.processHit (exHit 7 3) exDetWide (0, 0, 0) 0
      (hitLoopStart exStateWide exDetWide exEngine).locAmpl exDetWide.nstrips 0
      (hitLoopStart exStateWide exDetWide exEngine).engine).localFirstChannel = 0 ∧
      (exColWide.processHit (exHit 7 3) exDetWide (0, 0, 0) 0
      (hitLoopStart exStateWide exDetWide exEngine).locAmpl exDetWide.nstrips 0
      (hitLoopStart exStateWide exDetWide exEngine).engine).localLastChannel = 128 :=
    ⟨rfl, rfl⟩
  constructor
  · rw [h.2 5, hfoot.1, hfoot.2, hlen]
    right
    omega
  · rw [h.2 200, hfoot.1, hfoot.2, hlen]
    constructor
    · rintro (h1 | h2)
      · exact h1
      · omega
    · intro h1
      exact Or.inl h1

/-! ## Lemmas on the accumulated charge and the active range -/

theorem lowest_min (a x : Nat) (l : List Nat) : lowest (min a x) l = min x (lowest a l) := by
  induction l with
  | nil => simp [lowest, Nat.min_comm]
  | cons y rest ih =>
    simp only [lowest, List.foldr_cons] at ih ⊢
    rw [ih]; omega

theorem highest_max (a x : Nat) (l : List Nat) : highest (max a x) l = max x (highest a l) := by
  induction l with
  | nil => simp [highest, Nat.max_comm]
  | cons y rest ih =>
    simp only [highest, List.foldr_cons] at ih ⊢
    rw [ih]; omega

theorem lowest_le (a : Nat) (l : List Nat) : lowest a l ≤ a := by
  induction l with
  | nil => simp [lowest]
  | cons y rest ih =>
    simp only [lowest, List.foldr_cons] at ih ⊢
    omega

theorem lowest_append (a : Nat) (l₁ l₂ : List Nat) :
    lowest a (l₁ ++ l₂) = min (lowest a l₁) (lowest a l₂) := by
  induction l₁ with
  | nil =>
    have := lowest_le a l₂
    simp only [List.nil_append, lowest, List.foldr_nil] at this ⊢
    omega
  | cons y rest ih =>
    simp only [lowest, List.cons_append, List.foldr_cons] at ih ⊢
    rw [ih]; omega

theorem highest_ge (a : Nat) (l : List Nat) : a ≤ highest a l := by
  induction l with
  | nil => simp [highest]
  | cons y rest ih =>
    simp only [highest, List.foldr_cons] at ih ⊢
    omega

theorem highest_append (a : Nat) (l₁ l₂ : List Nat) :
    highest a (l₁ ++ l₂) = max (highest a l₁) (highest a l₂) := by
  induction l₁ with
  | nil =>
    have := highest_ge a l₂
    simp only [List.nil_append, highest, List.foldr_nil] at this ⊢
    omega
  | cons y rest ih =>
    simp only [highest, List.cons_append, List.foldr_cons] at ih ⊢
    rw [ih]; omega

theorem lowest_perm (a : Nat) (l₁ l₂ : List Nat) (h : l₁.Perm l₂) :
    lowest a l₁ = lowest a l₂ := by
  induction h with
  | nil => rfl
  | cons x _ ih =>
    simp only [lowest, List.foldr_cons] at ih ⊢
    rw [ih]
  | swap x y l =>
    simp only [lowest, List.foldr_cons]
    omega
  | trans _ _ ih₁ ih₂ => rw [ih₁, ih₂]

theorem highest_perm (a : Nat) (l₁ l₂ : List Nat) (h : l₁.Perm l₂) :
    highest a l₁ = highest a l₂ := by
  induction h with
  | nil => rfl
  | cons x _ ih =>
    simp only [highest, List.foldr_cons] at ih ⊢
    rw [ih]
  | swap x y l =>
    simp only [highest, List.foldr_cons]
    omega
  | trans _ _ ih₁ ih₂ => rw [ih₁, ih₂]

/-- What the loop over the sim hits leaves in the local amplitudes and the
local range, for an additive charge sharing. -/
theorem simHitLoop_additive (cfg : Config) (col : Collaborators) (det : StripGeomDetUnit)
    (bfield : Vector3) (langle : ℚ) (delta : PSimHit → Nat → ℚ) (fc lc : PSimHit → Nat)
    (hcol : AdditiveChargeSharing col det bfield langle delta fc lc)
    (tofBin : Nat) (input : List PSimHit) (idx : Nat) (st : HitLoopState) :
    (simHitLoop cfg col det bfield langle tofBin input idx st).locAmpl.length
        = st.locAmpl.length ∧
    (∀ i, i < st.locAmpl.length →
      (simHitLoop cfg col det bfield langle tofBin input idx st).locAmpl.getD i 0
        = st.locAmpl.getD i 0 + ((acceptedHits cfg det input).map (fun h => delta h i)).sum) ∧
    (simHitLoop cfg col det bfield langle tofBin input idx st).thisFirstChannelWithSignal
        = lowest st.thisFirstChannelWithSignal ((acceptedHits cfg det input).map fc) ∧
    (simHitLoop cfg col det bfield langle tofBin input idx st).thisLastChannelWithSignal
        = highest st.thisLastChannelWithSignal ((acceptedHits cfg det input).map lc) := by
  induction input generalizing idx st with
  | nil => simp [simHitLoop, acceptedHits, lowest, highest]
  | cons hit rest ih =>
    rw [simHitLoop]
    by_cases hacc : hit.detUnitId = det.rawId ∧ passesTOF cfg det hit
    · obtain ⟨ih1, ih2, ih3, ih4⟩ :=
        ih (idx + 1) (processSimHit cfg col det bfield langle tofBin idx st hit)
      obtain ⟨hc1, hc2, hc3, hc4⟩ := hcol hit st.locAmpl st.engine
      have hloc : (processSimHit cfg col det bfield langle tofBin idx st hit).locAmpl
          = (col.processHit hit det bfield langle st.locAmpl det.nstrips 0 st.engine).locAmpl := by
        simp [processSimHit, hacc.1, hacc.2]
      have hfirst : (processSimHit cfg col det bfield langle tofBin idx st
          hit).thisFirstChannelWithSignal = min st.thisFirstChannelWithSignal (fc hit) := by
        simp only [processSimHit, hacc.1, hacc.2, ne_eq, not_true_eq_false, if_false, if_true,
          hc3]
        split_ifs <;> omega
      have hlast : (processSimHit cfg col det bfield langle tofBin idx st
          hit).thisLastChannelWithSignal = max st.thisLastChannelWithSignal (lc hit) := by
        simp only [processSimHit, hacc.1, hacc.2, ne_eq, not_true_eq_false, if_false, if_true,
          hc4]
        split_ifs <;> omega
      have hfilter : acceptedHits cfg det (hit :: rest) = hit :: acceptedHits cfg det rest := by
        simp [acceptedHits, hacc.1, hacc.2]
      rw [hfilter]
      refine ⟨?_, ?_, ?_, ?_⟩
      · rw [ih1, hloc, hc1]
      · intro i hi
        rw [ih2 i (by rw [hloc, hc1]; exact hi), hloc, hc2 i hi, List.map_cons, List.sum_cons,
          add_assoc]
      · rw [ih3, hfirst, lowest_min]
        simp [lowest]
      · rw [ih4, hlast, highest_max]
        simp [highest]
    · have hst : processSimHit cfg col det bfield langle tofBin idx st hit = st := by
        unfold processSimHit
        by_cases hd : hit.detUnitId = det.rawId
        · have ht : ¬ passesTOF cfg det hit := fun ht => hacc ⟨hd, ht⟩
          simp [hd, ht]
        · simp [hd]
      have hfilter : acceptedHits cfg det (hit :: rest) = acceptedHits cfg det rest := by
        simp [acceptedHits, hacc]
      rw [hfilter, hst]
      exact ih (idx + 1) st

theorem acceptedHits_append (cfg : Config) (det : StripGeomDetUnit) (l₁ l₂ : List PSimHit) :
    acceptedHits cfg det (l₁ ++ l₂) = acceptedHits cfg det l₁ ++ acceptedHits cfg det l₂ := by
  simp [acceptedHits]

/-- The ChargeVector and the stored range of the unit after one accepted call,
for an additive charge sharing. -/
theorem accumulateSimHits_additive (cfg : Config) (col : Collaborators) (s : State)
    (det : StripGeomDetUnit) (bfield : Vector3) (delta : PSimHit → Nat → ℚ)
    (fc lc : PSimHit → Nat)
    (hcol : AdditiveChargeSharing col det bfield (lorentzAngle s det.rawId) delta fc lc)
    (input : List PSimHit) (idx tofBin : Nat) (engine : HepRandomEngine)
    (hacc : (shoot engine).1 > cfg.inefficiency) :
    (∀ c, chargeVector (accumulateSimHits cfg col s input idx tofBin det bfield engine).state
        det.rawId c
      = chargeVector s det.rawId c +
        (if c < det.nstrips then ((acceptedHits cfg det input).map (fun h => delta h c)).sum
         else 0)) ∧
    (accumulateSimHits cfg col s input idx tofBin det bfield
        engine).state.firstChannelsWithSignal det.rawId
      = min (s.firstChannelsWithSignal det.rawId)
          (lowest det.nstrips ((acceptedHits cfg det input).map fc)) ∧
    (accumulateSimHits cfg col s input idx tofBin det bfield
        engine).state.lastChannelsWithSignal det.rawId
      = max (s.lastChannelsWithSignal det.rawId)
          (highest 0 ((acceptedHits cfg det input).map lc)) := by
  obtain ⟨h1, h2, h3, h4⟩ := simHitLoop_additive cfg col det bfield (lorentzAngle s det.rawId)
    delta fc lc hcol tofBin input idx (hitLoopStart s det engine)
  have hlen : (hitLoopStart s det engine).locAmpl.length = det.nstrips := by
    simp [hitLoopStart]
  refine ⟨?_, ?_, ?_⟩
  · intro c
    rw [chargeVector_accumulateSimHits, if_pos hacc]
    congr 1
    by_cases hc : c < det.nstrips
    · rw [if_pos hc, h2 c (by rw [hlen]; exact hc)]
      simp [hitLoopStart, getD_replicate_zero]
    · rw [if_neg hc, List.getD_eq_getElem?_getD,
        List.getElem?_eq_none (by rw [h1, hlen]; omega)]
      rfl
  · have hfirst : (accumulateSimHits cfg col s input idx tofBin det bfield
        engine).state.firstChannelsWithSignal det.rawId
        = if s.firstChannelsWithSignal det.rawId >
            (simHitLoop cfg col det bfield (lorentzAngle s det.rawId) tofBin input idx
              (hitLoopStart s det engine)).thisFirstChannelWithSignal
          then (simHitLoop cfg col det bfield (lorentzAngle s det.rawId) tofBin input idx
              (hitLoopStart s det engine)).thisFirstChannelWithSignal
          else s.firstChannelsWithSignal det.rawId := by
      simp only [accumulateSimHits, hacc, decide_True, if_true]
      split_ifs <;> simp [assign]
    rw [hfirst, h3]
    have : (hitLoopStart s det engine).thisFirstChannelWithSignal = det.nstrips := rfl
    rw [this]
    split_ifs <;> omega
  · have hlast : (accumulateSimHits cfg col s input idx tofBin det bfield
        engine).state.lastChannelsWithSignal det.rawId
        = if s.lastChannelsWithSignal det.rawId <
            (simHitLoop cfg col det bfield (lorentzAngle s det.rawId) tofBin input idx
              (hitLoopStart s det engine)).thisLastChannelWithSignal
          then (simHitLoop cfg col det bfield (lorentzAngle s det.rawId) tofBin input idx
              (hitLoopStart s det engine)).thisLastChannelWithSignal
          else s.lastChannelsWithSignal det.rawId := by
      simp only [accumulateSimHits, hacc, decide_True, if_true]
      split_ifs <;> simp [assign]
    rw [hlast, h4]
    have : (hitLoopStart s det engine).thisLastChannelWithSignal = 0 := rfl
    rw [this]
    split_ifs <;> omega

/-- The ChargeVector and the stored range of the unit after a sequence of
accepted calls, for an additive charge sharing. -/
theorem accumulateAll_additive (cfg : Config) (col : Collaborators) (det : StripGeomDetUnit)
    (bfield : Vector3) (delta : PSimHit → Nat → ℚ) (fc lc : PSimHit → Nat)
    (calls : List AccumulateCall) (s : State)
    (hcol : AdditiveChargeSharing col det bfield (lorentzAngle s det.rawId) delta fc lc)
    (haccs : ∀ call ∈ calls, (shoot call.engine).1 > cfg.inefficiency) :
    (∀ c, chargeVector (accumulateAll cfg col s det bfield calls) det.rawId c
      = chargeVector s det.rawId c +
        (if c < det.nstrips then
          ((acceptedHits cfg det (calls.map (fun call => call.input)).flatten).map
            (fun h => delta h c)).sum
         else 0)) ∧
    min ((accumulateAll cfg col s det bfield calls).firstChannelsWithSignal det.rawId)
        det.nstrips
      = min (s.firstChannelsWithSignal det.rawId)
          (lowest det.nstrips
            ((acceptedHits cfg det (calls.map (fun call => call.input)).flatten).map fc)) ∧
    (calls ≠ [] →
      (accumulateAll cfg col s det bfield calls).firstChannelsWithSignal det.rawId
        ≤ det.nstrips) ∧
    (s.firstChannelsWithSignal det.rawId ≤ det.nstrips →
      (accumulateAll cfg col s det bfield calls).firstChannelsWithSignal det.rawId
        ≤ det.nstrips) ∧
    (accumulateAll cfg col s det bfield calls).lastChannelsWithSignal det.rawId
      = max (s.lastChannelsWithSignal det.rawId)
          (highest 0
            ((acceptedHits cfg det (calls.map (fun call => call.input)).flatten).map lc)) := by
  induction calls generalizing s with
  | nil =>
    refine ⟨?_, ?_, ?_, ?_, ?_⟩
    · intro c
      simp [accumulateAll, acceptedHits]
    · simp only [accumulateAll, List.foldl_nil, List.map_nil, List.flatten_nil, acceptedHits,
        List.filter_nil, lowest, List.foldr_nil]
    · intro h; exact absurd rfl h
    · intro h; exact h
    · simp [accumulateAll, acceptedHits, highest]
  | cons call rest ih =>
    obtain ⟨a1, a2, a3⟩ := accumulateSimHits_additive cfg col s det bfield delta fc lc hcol
      call.input call.inputBeginGlobalIndex call.tofBin call.engine
      (haccs call (List.mem_cons_self _ _))
    have hcol' : AdditiveChargeSharing col det bfield
        (lorentzAngle (accumulateSimHits cfg col s call.input call.inputBeginGlobalIndex
          call.tofBin det bfield call.engine).state det.rawId) delta fc lc := by
      rw [accumulateSimHits_lorentzAngle]; exact hcol
    obtain ⟨b1, b2, b3, b4, b5⟩ := ih _ hcol'
      (fun c hc => haccs c (List.mem_cons_of_mem _ hc))
    have hfold : accumulateAll cfg col s det bfield (call :: rest)
        = accumulateAll cfg col (accumulateSimHits cfg col s call.input
            call.inputBeginGlobalIndex call.tofBin det bfield call.engine).state det bfield
            rest := rfl
    have hle := lowest_le det.nstrips ((acceptedHits cfg det call.input).map fc)
    have hfirst1 : (accumulateSimHits cfg col s call.input call.inputBeginGlobalIndex
        call.tofBin det bfield call.engine).state.firstChannelsWithSignal det.rawId
        ≤ det.nstrips := by
      rw [a2]; omega
    rw [hfold]
    simp only [List.map_cons, List.flatten_cons, acceptedHits_append, List.map_append,
      List.sum_append, lowest_append, highest_append]
    refine ⟨?_, ?_, ?_, ?_, ?_⟩
    · intro c
      rw [b1 c, a1 c]
      split_ifs <;> ring
    · rw [b2, a2]
      have hle2 := lowest_le det.nstrips
        ((acceptedHits cfg det (rest.map (fun call => call.input)).flatten).map fc)
      omega
    · intro _
      exact b4 hfirst1
    · intro _
      exact b4 hfirst1
    · rw [b5, a3]
      omega

/-- C9: for an additive charge sharing (a per-hit delta and footprint that do not
depend on the amplitudes or the engine handed over) and the per-channel summing
pile-up store, let a hit list be split in any way into `N ≥ 1` accumulation
calls, made in any order (the concatenated inputs are a permutation of the
list), every pass being accepted by its inefficiency draw.  The unit's
ChargeVector and its stored first and last channel with signal are then the same
as after one accepted call over the whole list. -/
theorem accumulation_order_independent (cfg : Config) (col : Collaborators) (s : State)
    (det : StripGeomDetUnit) (bfield : Vector3) (delta : PSimHit → Nat → ℚ)
    (fc lc : PSimHit → Nat)
    (hcol : AdditiveChargeSharing col det bfield (lorentzAngle s det.rawId) delta fc lc)
    (hits : List PSimHit) (idx tofBin : Nat) (engine : HepRandomEngine)
    (calls : List AccumulateCall)
    (hne : calls ≠ [])
    (hperm : (calls.map (fun call => call.input)).flatten.Perm hits)
    (hacc : (shoot engine).1 > cfg.inefficiency)
    (haccs : ∀ call ∈ calls, (shoot call.engine).1 > cfg.inefficiency) :
    (∀ c, chargeVector (accumulateAll cfg col s det bfield calls) det.rawId c
      = chargeVector (accumulateSimHits cfg col s hits idx tofBin det bfield engine).state
          det.rawId c) ∧
    (accumulateAll cfg col s det bfield calls).firstChannelsWithSignal det.rawId
      = (accumulateSimHits cfg col s hits idx tofBin det bfield
          engine).state.firstChannelsWithSignal det.rawId ∧
    (accumulateAll cfg col s det bfield calls).lastChannelsWithSignal det.rawId
      = (accumulateSimHits cfg col s hits idx tofBin det bfield
          engine).state.lastChannelsWithSignal det.rawId := by
  obtain ⟨a1, a2, a3⟩ := accumulateSimHits_additive cfg col s det bfield delta fc lc hcol
    hits idx tofBin engine hacc
  obtain ⟨b1, b2, b3, _, b5⟩ := accumulateAll_additive cfg col det bfield delta fc lc calls s
    hcol haccs
  have hp : (acceptedHits cfg det (calls.map (fun call => call.input)).flatten).Perm
      (acceptedHits cfg det hits) := List.Perm.filter _ hperm
  refine ⟨?_, ?_, ?_⟩
  · intro c
    rw [a1 c, b1 c, List.Perm.sum_eq (List.Perm.map (fun h => delta h c) hp)]
  · rw [a2, ← lowest_perm det.nstrips _ _ (List.Perm.map fc hp), ← b2]
    have := b3 hne
    omega
  · rw [a3, b5, highest_perm 0 _ _ (List.Perm.map lc hp)]

/-- C9 at a concrete input: the hits of tracks 7 and 8 on unit 1, accumulated in
two calls in reverse order, and in one call. -/
theorem accumulation_order_independent_witness :
    (∀ c, chargeVector (accumulateAll (exCfg true false) (exCol fun _ => true) exState exDet
        (0, 0, 0) [⟨[exHit 8 1], 1, 0, exEngine⟩, ⟨[exHit 7 3], 0, 0, exEngine⟩]) exDet.rawId c
      = chargeVector (accumulateSimHits (exCfg true false) (exCol fun _ => true) exState
          [exHit 7 3, exHit 8 1] 0 0 exDet (0, 0, 0) exEngine).state exDet.rawId c) ∧
    (accumulateAll (exCfg true false) (exCol fun _ => true) exState exDet
        (0, 0, 0) [⟨[exHit 8 1], 1, 0, exEngine⟩,
          ⟨[exHit 7 3], 0, 0, exEngine⟩]).firstChannelsWithSignal exDet.rawId
      = (accumulateSimHits (exCfg true false) (exCol fun _ => true) exState
          [exHit 7 3, exHit 8 1] 0 0 exDet (0, 0, 0)
          exEngine).state.firstChannelsWithSignal exDet.rawId ∧
    (accumulateAll (exCfg true false) (exCol fun _ => true) exState exDet
        (0, 0, 0) [⟨[exHit 8 1], 1, 0, exEngine⟩,
          ⟨[exHit 7 3], 0, 0, exEngine⟩]).lastChannelsWithSignal exDet.rawId
      = (accumulateSimHits (exCfg true false) (exCol fun _ => true) exState
          [exHit 7 3, exHit 8 1] 0 0 exDet (0, 0, 0)
          exEngine).state.lastChannelsWithSignal exDet.rawId := by
  have hcol : AdditiveChargeSharing (exCol fun _ => true) exDet (0, 0, 0)
      (lorentzAngle exState exDet.rawId)
      (fun hit i => if i = 0 then hit.localPosition.1 else 0) (fun _ => 0) (fun _ => 1) := by
    intro hit ampl engine
    refine ⟨by simp [exCol], ?_, by simp [exCol, exDet], by simp [exCol]⟩
    intro i hi
    by_cases h0 : i = 0
    · subst h0
      simp [exCol, List.getD_eq_getElem?_getD, List.getElem?_set, hi]
    · have h0' : ¬ 0 = i := fun h => h0 h.symm
      simp [exCol, List.getD_eq_getElem?_getD, List.getElem?_set, h0, h0']
  exact accumulation_order_independent (exCfg true false) (exCol fun _ => true) exState exDet
    (0, 0, 0) _ _ _ hcol [exHit 7 3, exHit 8 1] 0 0 exEngine
    [⟨[exHit 8 1], 1, 0, exEngine⟩, ⟨[exHit 7 3], 0, 0, exEngine⟩]
    (by simp) (List.Perm.swap _ _ _)
    (by simp [shoot, exEngine, exCfg])
    (by intro call hc; simp at hc; rcases hc with rfl | rfl <;> simp [shoot, exEngine, exCfg])

/-! ## Lemmas on the masks -/

theorem setStripRange_length (v : List Bool) (first range : Nat) :
    (setStripRange v first range).length = v.length := by
  unfold setStripRange
  induction range with
  | zero => simp
  | succ r ih => rw [List.range_succ, List.foldl_append, List.foldl_cons, List.foldl_nil,
      List.length_set, ih]

theorem setStripRange_getD (v : List Bool) (first range k : Nat) :
    (setStripRange v first range).getD k false = true
      ↔ v.getD k false = true ∨ (k < v.length ∧ first ≤ k ∧ k < first + range) := by
  unfold setStripRange
  induction range with
  | zero => simp
  | succ r ih =>
    rw [List.range_succ, List.foldl_append, List.foldl_cons, List.foldl_nil]
    have hlen := setStripRange_length v first r
    unfold setStripRange at hlen
    rw [List.getD_eq_getElem?_getD, List.getElem?_set, hlen]
    rw [List.getD_eq_getElem?_getD] at ih
    by_cases hk : first + r = k
    · subst hk
      by_cases hlt : first + r < v.length
      · simp only [hlt, if_true, Option.getD_some, true_iff]
        right
        exact ⟨trivial, by omega, by omega⟩
      · simp only [hlt, if_true, if_false, Option.getD_none, Bool.false_eq_true, false_iff]
        rintro (h | h)
        · rw [List.getD_eq_getElem?_getD, List.getElem?_eq_none (by omega)] at h
          simp at h
        · exact h.1
    · rw [if_neg hk, ih]
      constructor
      · rintro (h | ⟨h1, h2, h3⟩)
        · exact Or.inl h
        · exact Or.inr ⟨h1, h2, by omega⟩
      · rintro (h | ⟨h1, h2, h3⟩)
        · exact Or.inl h
        · exact Or.inr ⟨h1, h2, by omega⟩

theorem setBadStrips_length (v : List Bool) (ranges : List BadStripData) :
    (setBadStrips v ranges).length = v.length := by
  unfold setBadStrips
  induction ranges generalizing v with
  | nil => rfl
  | cons fs rest ih => rw [List.foldl_cons, ih, setStripRange_length]

theorem setBadStrips_getD (v : List Bool) (ranges : List BadStripData) (k : Nat) :
    (setBadStrips v ranges).getD k false = true
      ↔ v.getD k false = true ∨ (k < v.length ∧ coveredByBadStrips ranges k) := by
  unfold setBadStrips coveredByBadStrips
  induction ranges generalizing v with
  | nil => simp
  | cons fs rest ih =>
    rw [List.foldl_cons, ih, setStripRange_getD, setStripRange_length]
    constructor
    · rintro ((h | ⟨h1, h2, h3⟩) | ⟨h1, gs, hg, h2⟩)
      · exact Or.inl h
      · exact Or.inr ⟨h1, fs, List.mem_cons_self _ _, h2, h3⟩
      · exact Or.inr ⟨h1, gs, List.mem_cons_of_mem _ hg, h2⟩
    · rintro (h | ⟨h1, gs, hg, h2⟩)
      · exact Or.inl (Or.inl h)
      · rcases List.mem_cons.mp hg with rfl | hg'
        · exact Or.inl (Or.inr ⟨h1, h2.1, h2.2⟩)
        · exact Or.inr ⟨h1, gs, hg', h2⟩

theorem getD_replicate_false (n k : Nat) : (List.replicate n false).getD k false = false := by
  by_cases h : k < n
  · simp [List.getD_eq_getElem?_getD, List.getElem?_replicate, h]
  · simp [List.getD_eq_getElem?_getD, List.getElem?_replicate, h]

/-- C11, amended: after `initializeDetUnit` for a unit with `n` channels the dead
mask and the saturated mask both have length `n`, the dead mask is true exactly
on the channels below `n` covered by the calibration bad-strip ranges, and the
saturated mask is equal to the dead mask: it is set on the bad strips as well,
and is all false only when no bad-strip range covers a channel. -/
theorem initializeDetUnit_masks (s : State) (det : StripGeomDetUnit) (iSetup : EventSetup) :
    ((initializeDetUnit s det iSetup).allBadChannels det.rawId).length = det.nstrips ∧
    ((initializeDetUnit s det iSetup).allHIPChannels det.rawId).length = det.nstrips ∧
    (∀ k, ((initializeDetUnit s det iSetup).allBadChannels det.rawId).getD k false = true
      ↔ k < det.nstrips ∧ coveredByBadStrips (iSetup.badStripRange det.rawId) k) ∧
    (initializeDetUnit s det iSetup).allHIPChannels det.rawId
      = (initializeDetUnit s det iSetup).allBadChannels det.rawId ∧
    (iSetup.badStripRange det.rawId = [] →
      (initializeDetUnit s det iSetup).allHIPChannels det.rawId
        = List.replicate det.nstrips false) := by
  have hbad : (initializeDetUnit s det iSetup).allBadChannels det.rawId
      = setBadStrips (List.replicate det.nstrips false) (iSetup.badStripRange det.rawId) := by
    simp [initializeDetUnit, assign]
  have hhip : (initializeDetUnit s det iSetup).allHIPChannels det.rawId
      = setBadStrips (List.replicate det.nstrips false) (iSetup.badStripRange det.rawId) := by
    simp [initializeDetUnit, assign]
  rw [hbad, hhip]
  refine ⟨?_, ?_, ?_, rfl, ?_⟩
  · rw [setBadStrips_length, List.length_replicate]
  · rw [setBadStrips_length, List.length_replicate]
  · intro k
    rw [setBadStrips_getD, List.length_replicate, getD_replicate_false]
    simp
  · intro h
    rw [h]
    rfl

/-- C11 fails as stated: for the two-channel unit 1 with the bad-strip range
that covers strip 0, `initializeDetUnit` leaves the saturated mask set on
channel 0. -/
theorem saturated_mask_set_on_bad_strips :
    (initializeDetUnit exState0 exDet exSetupBad).allBadChannels 1 = [true, false] ∧
    (initializeDetUnit exState0 exDet exSetupBad).allHIPChannels 1 = [true, false] := by
  constructor <;>
    simp [initializeDetUnit, assign, exDet, exSetupBad, setBadStrips, setStripRange,
      List.range_succ]

theorem markAPVs_mono (hip : List Bool) (f l k : Nat) (h : hip.getD k false = true) :
    (markAPVs hip f l).getD k false = true := by
  unfold markAPVs
  rw [foldl_setStrip_getD]
  exact Or.inl h

theorem apvKiller_mono (cfg : Config) (detId : Nat) (hip : List Bool) (f l : Nat)
    (engine : HepRandomEngine) (k : Nat) (h : hip.getD k false = true) :
    (apvKiller cfg detId hip f l engine).1.getD k false = true := by
  unfold apvKiller
  split_ifs
  · split
    · split_ifs
      · exact markAPVs_mono hip f l k h
      · exact h
    · exact h
  · exact h

theorem processSimHit_hip_mono (cfg : Config) (col : Collaborators) (det : StripGeomDetUnit)
    (bfield : Vector3) (langle : ℚ) (tofBin idx : Nat) (st : HitLoopState) (hit : PSimHit)
    (k : Nat) (h : st.hipChannels.getD k false = true) :
    (processSimHit cfg col det bfield langle tofBin idx st hit).hipChannels.getD k false
      = true := by
  unfold processSimHit
  by_cases hd : hit.detUnitId ≠ det.rawId
  · simpa [hd] using h
  · by_cases ht : passesTOF cfg det hit
    · simp only [hd, ht, if_true, if_false]
      exact apvKiller_mono _ _ _ _ _ _ k h
    · simpa [hd, ht] using h

theorem simHitLoop_hip_mono (cfg : Config) (col : Collaborators) (det : StripGeomDetUnit)
    (bfield : Vector3) (langle : ℚ) (tofBin : Nat) (input : List PSimHit) (idx : Nat)
    (st : HitLoopState) (k : Nat) (h : st.hipChannels.getD k false = true) :
    (simHitLoop cfg col det bfield langle tofBin input idx st).hipChannels.getD k false
      = true := by
  induction input generalizing idx st with
  | nil => exact h
  | cons hit rest ih =>
    rw [simHitLoop]
    exact ih _ _ (processSimHit_hip_mono cfg col det bfield langle tofBin idx st hit k h)

theorem accumulateSimHits_hip_mono (cfg : Config) (col : Collaborators) (s : State)
    (input : List PSimHit) (idx tofBin : Nat) (det : StripGeomDetUnit) (bfield : Vector3)
    (engine : HepRandomEngine) (d k : Nat) (h : (s.allHIPChannels d).getD k false = true) :
    ((accumulateSimHits cfg col s input idx tofBin det bfield engine).state.allHIPChannels
      d).getD k false = true := by
  by_cases hd : d = det.rawId
  · subst hd
    by_cases hacc : (shoot engine).1 > cfg.inefficiency
    · simp only [accumulateSimHits, assign, hacc, decide_True, if_true]
      exact simHitLoop_hip_mono _ _ _ _ _ _ _ _ _ k h
    · simp only [accumulateSimHits, assign, hacc, decide_False, if_true]
      exact h
  · simp only [accumulateSimHits, assign, hd, if_false]
    exact h

theorem runCall_masks (cfg : Config) (col : Collaborators) (s : State) (call : Call)
    (hcall : call.isInitDetUnit = false) :
    (runCall cfg col s call).allBadChannels = s.allBadChannels ∧
    ∀ d k, (s.allHIPChannels d).getD k false = true →
      ((runCall cfg col s call).allHIPChannels d).getD k false = true := by
  cases call with
  | initDetUnit det iSetup => simp [Call.isInitDetUnit] at hcall
  | initEvent iSetup => exact ⟨rfl, fun _ _ h => h⟩
  | accumulate input idx tofBin det bfield engine =>
    exact ⟨rfl, fun d k h => accumulateSimHits_hip_mono _ _ _ _ _ _ _ _ _ d k h⟩
  | digi outdigi outrawdigi outLink det cal engine =>
    refine ⟨?_, ?_⟩
    · cases hz : cfg.zeroSuppression <;> simp [runCall, digitize, hz]
    · intro d k h
      cases hz : cfg.zeroSuppression <;> simpa [runCall, digitize, hz] using h

/-- C12: `initializeEvent` and `digitize` leave the dead mask and the saturated
mask of every unit unchanged; `accumulateSimHits` leaves every dead mask unchanged
and never turns a saturated flag from true to false; hence over any sequence of
calls in which `initializeDetUnit` does not occur the dead masks are unchanged and
no saturated flag is reset. -/
theorem masks_persist (cfg : Config) (col : Collaborators) (s : State) :
    (∀ iSetup, (initializeEvent s iSetup).allBadChannels = s.allBadChannels ∧
      (initializeEvent s iSetup).allHIPChannels = s.allHIPChannels) ∧
    (∀ outdigi outrawdigi outLink det cal engine,
      (digitize cfg col s outdigi outrawdigi outLink det cal engine).state.allBadChannels
        = s.allBadChannels ∧
      (digitize cfg col s outdigi outrawdigi outLink det cal engine).state.allHIPChannels
        = s.allHIPChannels) ∧
    (∀ input idx tofBin det bfield engine,
      (accumulateSimHits cfg col s input idx tofBin det bfield engine).state.allBadChannels
        = s.allBadChannels ∧
      ∀ d k, (s.allHIPChannels d).getD k false = true →
        ((accumulateSimHits cfg col s input idx tofBin det bfield
          engine).state.allHIPChannels d).getD k false = true) ∧
    (∀ calls : List Call, (∀ call ∈ calls, call.isInitDetUnit = false) →
      (runCalls cfg col s calls).allBadChannels = s.allBadChannels ∧
      ∀ d k, (s.allHIPChannels d).getD k false = true →
        ((runCalls cfg col s calls).allHIPChannels d).getD k false = true) := by
  refine ⟨fun _ => ⟨rfl, rfl⟩, ?_, ?_, ?_⟩
  · intro outdigi outrawdigi outLink det cal engine
    cases hz : cfg.zeroSuppression <;> simp [digitize, hz]
  · intro input idx tofBin det bfield engine
    exact ⟨rfl, fun d k h => accumulateSimHits_hip_mono _ _ _ _ _ _ _ _ _ d k h⟩
  · intro calls
    unfold runCalls
    induction calls generalizing s with
    | nil => intro _; exact ⟨rfl, fun _ _ h => h⟩
    | cons call rest ih =>
      intro hcalls
      obtain ⟨h1, h2⟩ := runCall_masks cfg col s call (hcalls call (List.mem_cons_self _ _))
      obtain ⟨h3, h4⟩ := ih (runCall cfg col s call)
        (fun c hc => hcalls c (List.mem_cons_of_mem _ hc))
      rw [List.foldl_cons]
      exact ⟨h3.trans h1, fun d k h => h4 d k (h2 d k h)⟩

theorem runCall_truthmap_empty (cfg : Config) (col : Collaborators) (s : State) (call : Call)
    (hoff : cfg.makeDigiSimLinks_ = false)
    (hempty : ∀ d, s.associationInfoForDetId_ d = none) :
    ∀ d, (runCall cfg col s call).associationInfoForDetId_ d = none := by
  intro d
  cases call with
  | initDetUnit det iSetup => exact hempty d
  | initEvent iSetup => rfl
  | accumulate input idx tofBin det bfield engine =>
    simp [runCall, accumulateSimHits, hoff, hempty]
  | digi outdigi outrawdigi outLink det cal engine =>
    cases hz : cfg.zeroSuppression <;>
      simp [runCall, digitize, hz, hempty]

theorem runCalls_truthmap_empty (cfg : Config) (col : Collaborators) (s : State)
    (calls : List Call) (hoff : cfg.makeDigiSimLinks_ = false)
    (hempty : ∀ d, s.associationInfoForDetId_ d = none) :
    ∀ d, (runCalls cfg col s calls).associationInfoForDetId_ d = none := by
  unfold runCalls
  induction calls generalizing s with
  | nil => exact hempty
  | cons call rest ih =>
    rw [List.foldl_cons]
    exact ih _ (runCall_truthmap_empty cfg col s call hoff hempty)

/-- C14: with truth association off (`makeDigiSimLinks_` false) and an empty
TruthMap to start with, the TruthMap is empty after every sequence of calls of
the operations, and a `digitize` after any such sequence returns the link
collection it was handed: it emits no link, in suppressed and in raw mode. -/
theorem truthmap_stays_empty (cfg : Config) (col : Collaborators) (s : State)
    (calls : List Call) (hoff : cfg.makeDigiSimLinks_ = false)
    (hempty : ∀ d, s.associationInfoForDetId_ d = none) :
    (∀ d, (runCalls cfg col s calls).associationInfoForDetId_ d = none) ∧
    ∀ outdigi outrawdigi outLink det cal engine,
      (digitize cfg col (runCalls cfg col s calls) outdigi outrawdigi outLink det cal
        engine).outLink = outLink := by
  have h := runCalls_truthmap_empty cfg col s calls hoff hempty
  refine ⟨h, ?_⟩
  intro outdigi outrawdigi outLink det cal engine
  rw [digitize_outLink, h det.rawId]

/-- C14 at a concrete input: truth association off, suppressed mode, an
accumulation call with a hit on unit 1 followed by a `digitize` of the unit. -/
theorem truthmap_stays_empty_witness :
    (∀ d, (runCalls (exCfg false true) (exCol fun _ => true) exState0
      [Call.initDetUnit exDet exSetup, Call.initEvent exSetup,
       Call.accumulate [exHit 7 3] 0 0 exDet (0, 0, 0) exEngine]).associationInfoForDetId_ d
      = none) ∧
    (digitize (exCfg false true) (exCol fun _ => true)
      (runCalls (exCfg false true) (exCol fun _ => true) exState0
        [Call.initDetUnit exDet exSetup, Call.initEvent exSetup,
         Call.accumulate [exHit 7 3] 0 0 exDet (0, 0, 0) exEngine])
      [] [] [] exDet exCal exEngine).outLink = [] := by
  have h := truthmap_stays_empty (exCfg false true) (exCol fun _ => true) exState0
    [Call.initDetUnit exDet exSetup, Call.initEvent exSetup,
     Call.accumulate [exHit 7 3] 0 0 exDet (0, 0, 0) exEngine] rfl (fun _ => rfl)
  exact ⟨h.1, h.2 [] [] [] exDet exCal exEngine⟩

theorem suppressedLinks_eq_flatMap (info : AssociationInfoForChannel) (digis : List SiStripDigi)
    (out : List StripDigiSimLink) :
    suppressedLinks info digis out = out ++ digis.flatMap (linksOfDigi info) := by
  unfold suppressedLinks
  induction digis generalizing out with
  | nil => simp
  | cons d rest ih =>
    rw [List.foldl_cons, ih, List.flatMap_cons, List.append_assoc]
    congr 2
    simp [makeLinks, linksOfDigi, totalSimADC_eq_sum]

/-- C15: in suppressed mode the link collection `digitize` returns is the one
it was handed followed, for each surviving digi in digi order, by one link per
Contribution of the digi's channel in the order of the Contribution list, with
the channel and the Contribution's `trackID`, `simHitGlobalIndex`, `tofBin`,
`eventID`, and the fraction `contributionToADC / (sum of the channel's
contributions)`.  A surviving channel that is no key of the TruthMap entry gets
no link, a unit without entry gets none, and a channel that carries no surviving
digi gets none. -/
theorem suppressed_links_exact (cfg : Config) (col : Collaborators) (s : State)
    (outdigi : List SiStripDigi) (outrawdigi : List SiStripRawDigi)
    (outLink : List StripDigiSimLink) (det : StripGeomDetUnit) (cal : Calibration)
    (engine : HepRandomEngine) (hz : cfg.zeroSuppression = true) :
    (digitize cfg col s outdigi outrawdigi outLink det cal engine).outLink
      = outLink ++
        (match s.associationInfoForDetId_ det.rawId with
         | some info =>
           (digitize cfg col s outdigi outrawdigi outLink det cal engine).outdigi.flatMap
             (linksOfDigi info)
         | none => []) ∧
    (∀ info d, info d.channel = none → linksOfDigi info d = []) ∧
    (∀ c, c ∉ (digitize cfg col s outdigi outrawdigi outLink det cal engine).outdigi.map
        (fun d => d.channel) →
      linksOfChannel c (digitize cfg col s outdigi outrawdigi outLink det cal engine).outLink
        = linksOfChannel c outLink) := by
  have hout := digitize_outLink cfg col s outdigi outrawdigi outLink det cal engine
  refine ⟨?_, ?_, ?_⟩
  · rw [hout]
    cases he : s.associationInfoForDetId_ det.rawId with
    | none => simp
    | some info => simp only [hz, if_true, suppressedLinks_eq_flatMap]
  · intro info d hd
    simp [linksOfDigi, hd]
  · intro c hc
    rw [hout]
    cases he : s.associationInfoForDetId_ det.rawId with
    | none => rfl
    | some info =>
      simp only [hz, if_true, linksOfChannel_suppressedLinks]
      rw [List.count_eq_zero_of_not_mem hc]
      simp

/-- C15 at a concrete input: suppressed mode, the Contributions 3 and 1 of two
tracks on channel 0 of unit 1, every digi surviving. -/
theorem suppressed_links_exact_witness :
    (exDigitized (fun _ => true) true 3 1).outdigi = [⟨0, 1⟩, ⟨1, 1⟩] ∧
    (exDigitized (fun _ => true) true 3 1).outLink
      = [⟨0, 7, 0, 0, 0, some (3 / 4)⟩, ⟨0, 8, 1, 0, 0, some (1 / 4)⟩] := by
  have h := (suppressed_links_exact (exCfg true true) (exCol fun _ => true)
    (exAccumulated (fun _ => true) true 3 1) [] [] [] exDet exCal exEngine rfl).1
  have hd : (exDigitized (fun _ => true) true 3 1).outdigi = [⟨0, 1⟩, ⟨1, 1⟩] := by
    simp [exDigitized, digitize, suppressedNoise, maskStrips, maskStrip,
      SiPileUpSignals.getSignal, SiPileUpSignals.add, SiPileUpSignals.reset,
      exAccumulated, accumulateSimHits, exCfg, exCol, exState, exDet, exHit,
      exEngine, shoot, simHitLoop, processSimHit, passesTOF, apvKiller, recordSimHit,
      recordStrip, updateAssociationVector, assign, initializeEvent, initializeDetUnit,
      hitLoopStart, lorentzAngle, exSetup, exState0, setBadStrips, List.range_succ]
  have hinfo : (exAccumulated (fun _ => true) true 3 1).associationInfoForDetId_ exDet.rawId
      = some (fun c => if c = 0 then some [⟨7, 0, 3, 0, 0⟩, ⟨8, 0, 1, 1, 0⟩] else none) := by
    simp [exAccumulated, accumulateSimHits, exCfg, exCol, exState, exDet, exHit,
      exEngine, shoot, simHitLoop, processSimHit, passesTOF, apvKiller, recordSimHit,
      recordStrip, updateAssociationVector, assign, initializeEvent, initializeDetUnit,
      hitLoopStart, lorentzAngle, exSetup, exState0, List.range_succ]
    funext c
    by_cases hc : c = 0
    · simp [hc, assign]
    · simp [hc, assign]
  refine ⟨hd, ?_⟩
  have hd' : (digitize (exCfg true true) (exCol fun _ => true)
      (exAccumulated (fun _ => true) true 3 1) [] [] [] exDet exCal exEngine).outdigi
      = [⟨0, 1⟩, ⟨1, 1⟩] := hd
  rw [hinfo, hd'] at h
  rw [show (exDigitized (fun _ => true) true 3 1).outLink = _ from h]
  simp [linksOfDigi, fdiv]
  norm_num

/-! ## Lemmas on the masking loop of `digitize` -/

theorem getD_set_rat (l : List ℚ) (i k : Nat) (a : ℚ) :
    (l.set i a).getD k 0 = if i = k ∧ k < l.length then a else l.getD k 0 := by
  rw [List.getD_eq_getElem?_getD, List.getElem?_set, List.getD_eq_getElem?_getD]
  by_cases hik : i = k
  · by_cases hlt : k < l.length
    · simp [hik, hlt]
    · simp [hik, hlt, List.getElem?_eq_none (not_lt.mp hlt)]
  · simp [hik]

theorem list_ext_getD (l₁ l₂ : List ℚ) (hlen : l₁.length = l₂.length)
    (h : ∀ k, k < l₁.length → l₁.getD k 0 = l₂.getD k 0) : l₁ = l₂ := by
  apply List.ext_getElem hlen
  intro i h1 h2
  have := h i h1
  rw [List.getD_eq_getElem _ _ h1, List.getD_eq_getElem _ _ h2] at this
  exact this

theorem maskStrip_spec (bad hip : List Bool) (ampl : List ℚ) (e : HepRandomEngine)
    (strip : Nat) :
    (maskStrip bad hip (ampl, e) strip).1.length = ampl.length ∧
    (maskStrip bad hip (ampl, e) strip).2 = ⟨e.stream, e.pos + 1⟩ ∧
    ∀ k, (maskStrip bad hip (ampl, e) strip).1.getD k 0
      = if k = strip ∧ k < ampl.length then
          maskedAmplitude bad hip (ampl.getD k 0) (e.stream e.pos) k
        else ampl.getD k 0 := by
  unfold maskStrip maskedAmplitude saturationMultiplier shoot
  refine ⟨?_, rfl, ?_⟩
  · cases bad.getD strip false <;> cases hip.getD strip false <;> simp
  · intro k
    by_cases hk : k = strip
    · subst hk
      by_cases hlt : k < ampl.length
      · cases hb : bad.getD k false <;> cases hh : hip.getD k false <;>
          simp only [getD_set_rat, List.length_set, hlt, and_self, if_true, if_false,
            Bool.false_eq_true, gt_iff_lt]
      · cases hb : bad.getD k false <;> cases hh : hip.getD k false <;>
          simp only [getD_set_rat, List.length_set, hlt, and_false, if_true, if_false,
            Bool.false_eq_true, gt_iff_lt]
    · have hk' : ¬ strip = k := fun h => hk h.symm
      cases hb : bad.getD strip false <;> cases hh : hip.getD strip false <;>
        simp only [getD_set_rat, List.length_set, hk, hk', false_and, if_true, if_false,
          Bool.false_eq_true]

/-- The masking loop of `digitize`: the length of the amplitudes is kept, the
engine has advanced by one draw per strip, and channel `k` holds its masked
amplitude for the draw number `k` of the loop. -/
theorem maskStrips_spec (bad hip : List Bool) (n : Nat) (ampl : List ℚ) (e : HepRandomEngine) :
    (maskStrips bad hip n ampl e).1.length = ampl.length ∧
    (maskStrips bad hip n ampl e).2 = ⟨e.stream, e.pos + n⟩ ∧
    ∀ k, (maskStrips bad hip n ampl e).1.getD k 0
      = if k < n ∧ k < ampl.length then
          maskedAmplitude bad hip (ampl.getD k 0) (e.stream (e.pos + k)) k
        else ampl.getD k 0 := by
  unfold maskStrips
  induction n with
  | zero => exact ⟨rfl, rfl, fun k => by simp⟩
  | succ m ih =>
    obtain ⟨ih1, ih2, ih3⟩ := ih
    rw [List.range_succ, List.foldl_append, List.foldl_cons, List.foldl_nil]
    have hpair : (List.range m).foldl (maskStrip bad hip) (ampl, e)
        = (((List.range m).foldl (maskStrip bad hip) (ampl, e)).1,
            (⟨e.stream, e.pos + m⟩ : HepRandomEngine)) := by
      rw [← ih2]
    rw [hpair]
    obtain ⟨s1, s2, s3⟩ := maskStrip_spec bad hip
      ((List.range m).foldl (maskStrip bad hip) (ampl, e)).1 ⟨e.stream, e.pos + m⟩ m
    refine ⟨by rw [s1, ih1], s2.trans rfl, ?_⟩
    intro k
    rw [s3 k, ih1]
    by_cases hk : k = m
    · subst hk
      have hself := ih3 k
      simp only [lt_irrefl, false_and, if_false] at hself
      rw [hself]
      by_cases hlt : k < ampl.length
      · simp only [hlt, and_self, if_true, Nat.lt_succ_self]
      · simp only [hlt, and_false, if_false]
    · rw [ih3 k]
      have h1 : (k < m + 1) = (k < m) := by apply propext; omega
      simp only [hk, false_and, if_false, h1]

/-- Two amplitude vectors of the unit's length that agree on the channels that
are not dead are the same after the masking loop. -/
theorem maskStrips_congr (bad hip : List Bool) (n : Nat) (D₁ D₂ : List ℚ) (e : HepRandomEngine)
    (h₁ : D₁.length = n) (h₂ : D₂.length = n)
    (h : ∀ c, c < n → bad.getD c false = false → D₁.getD c 0 = D₂.getD c 0) :
    maskStrips bad hip n D₁ e = maskStrips bad hip n D₂ e := by
  obtain ⟨a1, a2, a3⟩ := maskStrips_spec bad hip n D₁ e
  obtain ⟨b1, b2, b3⟩ := maskStrips_spec bad hip n D₂ e
  apply Prod.ext
  · apply list_ext_getD _ _ (by rw [a1, b1, h₁, h₂])
    intro k hk
    rw [a1, h₁] at hk
    rw [a3 k, b3 k, h₁, h₂]
    simp only [hk, and_self, if_true]
    unfold maskedAmplitude
    cases hb : bad.getD k false with
    | true => simp
    | false => rw [h k hk hb]
  · rw [a2, b2]

/-- C22: in suppressed mode (`zeroSuppression` on) the whole result of `digitize`
(digis, links, raw digis kept as handed, members, engine) is the same for every
setting of `CommonModeNoise`, `RealPedestals`, `BaselineShift`, `pedOffset` and
the four common-mode RMS constants and for every pedestal calibration. -/
theorem suppressed_output_ignores_raw_stages (cfg : Config) (col : Collaborators) (s : State)
    (outdigi : List SiStripDigi) (outrawdigi : List SiStripRawDigi)
    (outLink : List StripDigiSimLink) (det : StripGeomDetUnit) (cal : Calibration)
    (engine : HepRandomEngine) (hz : cfg.zeroSuppression = true)
    (CommonModeNoise RealPedestals BaselineShift : Bool) (pedOffset : Nat)
    (cmnRMStib cmnRMStob cmnRMStid cmnRMStec : ℚ) (getPed : Nat → Nat → ℚ) :
    digitize
        (withRawStageSettings cfg CommonModeNoise RealPedestals BaselineShift pedOffset
          cmnRMStib cmnRMStob cmnRMStid cmnRMStec)
        col s outdigi outrawdigi outLink det { cal with getPed := getPed } engine
      = digitize cfg col s outdigi outrawdigi outLink det cal engine := by
  simp [digitize, withRawStageSettings, hz, suppressedNoise]

/-- C22 at a concrete input: suppressed mode on unit 1, with common-mode noise,
real pedestals and baseline shift switched on, offset 128 and pedestal 100. -/
theorem suppressed_output_ignores_raw_stages_witness :
    digitize
        (withRawStageSettings (exCfg true true) true true true 128 4 5 6 7)
        (exCol fun _ => true) (exAccumulated (fun _ => true) true 3 1) [] [] [] exDet
        { exCal with getPed := fun _ _ => 100 } exEngine
      = exDigitized (fun _ => true) true 3 1 :=
  suppressed_output_ignores_raw_stages (exCfg true true) (exCol fun _ => true)
    (exAccumulated (fun _ => true) true 3 1) [] [] [] exDet exCal exEngine rfl
    true true true 128 4 5 6 7 (fun _ _ => 100)

theorem mem_stripIndices_int (lo hi z : Int) :
    z ∈ stripIndices lo hi ↔ lo ≤ z ∧ z < hi := by
  unfold stripIndices
  rw [List.mem_map]
  constructor
  · rintro ⟨i, hi', hik⟩
    rw [List.mem_range] at hi'
    omega
  · rintro ⟨h1, h2⟩
    refine ⟨(z - lo).toNat, ?_, ?_⟩
    · rw [List.mem_range]; omega
    · omega

/-- C23: the saturation loop writes the indices `FirstAPV*128` up to
`LastAPV*128 + 127`.  For a unit whose channel count `n` is a positive multiple of
128 and a footprint with `localFirstChannel < localLastChannel ≤ n`, every index
written is at least 0 and below `n`, the length of the mask; for a channel count
that is not a multiple of 128 there is such a footprint for which the loop
writes an index that is `n` or more. -/
theorem saturation_loop_index_safety (n : Nat) (hn : n < 2 ^ 31) :
    (n % 128 = 0 → 0 < n →
      ∀ f l, f < l → l ≤ n →
        ∀ z ∈ stripIndices (FirstAPV f * 128) (LastAPV l * 128 + 128), 0 ≤ z ∧ z < (n : Int)) ∧
    (n % 128 ≠ 0 →
      ∃ f l, f < l ∧ l ≤ n ∧
        ∃ z ∈ stripIndices (FirstAPV f * 128) (LastAPV l * 128 + 128), (n : Int) ≤ z) := by
  constructor
  · intro hmul hpos f l hfl hln z hz
    rw [mem_stripIndices_int] at hz
    have hF : FirstAPV f = ((f / 128 : Nat) : Int) := by
      unfold FirstAPV; exact toInt32_of_lt _ (by omega)
    rw [hF, LastAPV_of_pos l (by omega) (by omega)] at hz
    omega
  · intro hmul
    refine ⟨0, n, by omega, le_refl n, (n : Int), ?_, le_refl _⟩
    rw [mem_stripIndices_int]
    have hF : FirstAPV 0 = 0 := by
      unfold FirstAPV; rw [toInt32_of_lt _ (by norm_num)]; rfl
    rw [hF, LastAPV_of_pos n (by omega) (by omega)]
    omega

/-- C23 at concrete inputs: 768 channels with the footprint [100,106), every
written index is below 768; 100 channels with the footprint [0,100), the
index 100 is written. -/
theorem saturation_loop_index_safety_witness :
    (∀ z ∈ stripIndices (FirstAPV 100 * 128) (LastAPV 106 * 128 + 128),
      0 ≤ z ∧ z < ((768 : Nat) : Int)) ∧
    (∃ f l, f < l ∧ l ≤ 100 ∧
      ∃ z ∈ stripIndices (FirstAPV f * 128) (LastAPV l * 128 + 128), ((100 : Nat) : Int) ≤ z) :=
  ⟨(saturation_loop_index_safety 768 (by norm_num)).1 (by norm_num) (by norm_num) 100 106
      (by norm_num) (by norm_num),
   (saturation_loop_index_safety 100 (by norm_num)).2 (by norm_num)⟩

/-- C24: let an accepted hit of the unit, with truth association on, change the
amplitude of channel `c` by a nonzero delta while the Contribution list of `c`
already has an entry `a` with the hit's `(trackId, eventId)` (the first such
entry, after `pre`).  After the loop body the list of `c` is the old list with
only `contributionToADC` of `a` increased by the delta: same length, `a` at the
same position with its `simHitGlobalIndex`, `tofBin`, `trackID` and `eventID`,
every other entry as it was.  The list of any other channel is what that
channel's own delta makes of its own old list; it is unchanged when the hit
does not change the channel's amplitude. -/
theorem merge_changes_only_charge (cfg : Config) (col : Collaborators) (det : StripGeomDetUnit)
    (bfield : Vector3) (langle : ℚ) (tofBin idx : Nat) (st : HitLoopState) (hit : PSimHit)
    (c : Nat) (pre post : List AssociationInfo) (a : AssociationInfo)
    (hmk : cfg.makeDigiSimLinks_ = true)
    (hd : hit.detUnitId = det.rawId) (ht : passesTOF cfg det hit)
    (hc : c < (col.processHit hit det bfield langle st.locAmpl det.nstrips 0
      st.engine).locAmpl.length)
    (hδ : (col.processHit hit det bfield langle st.locAmpl det.nstrips 0
      st.engine).locAmpl.getD c 0 - st.locAmpl.getD c 0 ≠ 0)
    (hlist : st.associationInfo c = some (pre ++ a :: post))
    (ha : a.trackID = hit.trackId ∧ a.eventID = hit.eventId)
    (hpre : ∀ a' ∈ pre, ¬ (a'.trackID = hit.trackId ∧ a'.eventID = hit.eventId)) :
    (processSimHit cfg col det bfield langle tofBin idx st hit).associationInfo c
      = some (pre ++
          { trackID := a.trackID, eventID := a.eventID,
            contributionToADC := a.contributionToADC +
              ((col.processHit hit det bfield langle st.locAmpl det.nstrips 0
                st.engine).locAmpl.getD c 0 - st.locAmpl.getD c 0),
            simHitGlobalIndex := a.simHitGlobalIndex, tofBin := a.tofBin } :: post) ∧
    (∀ c', c' ≠ c →
      (processSimHit cfg col det bfield langle tofBin idx st hit).associationInfo c'
        = if c' < (col.processHit hit det bfield langle st.locAmpl det.nstrips 0
              st.engine).locAmpl.length ∧
            (col.processHit hit det bfield langle st.locAmpl det.nstrips 0
              st.engine).locAmpl.getD c' 0 - st.locAmpl.getD c' 0 ≠ 0 then
            some (updateAssociationVector ((st.associationInfo c').getD []) hit.trackId
              hit.eventId
              ((col.processHit hit det bfield langle st.locAmpl det.nstrips 0
                st.engine).locAmpl.getD c' 0 - st.locAmpl.getD c' 0) idx tofBin)
          else st.associationInfo c') ∧
    (∀ c', (col.processHit hit det bfield langle st.locAmpl det.nstrips 0
        st.engine).locAmpl.getD c' 0 - st.locAmpl.getD c' 0 = 0 →
      (processSimHit cfg col det bfield langle tofBin idx st hit).associationInfo c'
        = st.associationInfo c') := by
  refine ⟨?_, ?_, ?_⟩
  · rw [processSimHit_associationInfo _ _ _ _ _ _ _ _ _ _ hd ht hmk, recordSimHit_apply,
      if_pos ⟨hc, hδ⟩, hlist, Option.getD_some,
      updateAssociationVector_present pre post a _ _ _ _ _ hpre ha]
  · intro c' _
    rw [processSimHit_associationInfo _ _ _ _ _ _ _ _ _ _ hd ht hmk, recordSimHit_apply]
  · intro c' h0
    rw [processSimHit_associationInfo _ _ _ _ _ _ _ _ _ _ hd ht hmk, recordSimHit_apply,
      if_neg (fun h => h.2 h0)]

/-- C24 at a concrete input: channel 0 of unit 1 holds the Contributions of
tracks 8 and 7 (created by the hits 4 and 5 in time bin 2); a later hit of
track 7 (hit 9, time bin 3) with the charge 1 changes only the charge of the
second entry, and channel 1 keeps its list. -/
theorem merge_changes_only_charge_witness :
    (processSimHit (exCfg true false) (exCol fun _ => true) exDet (0, 0, 0) 0 3 9
        { locAmpl := [5, 0], thisFirstChannelWithSignal := 0, thisLastChannelWithSignal := 1,
          hipChannels := [false, false],
          associationInfo := fun ch =>
            if ch = 0 then some [⟨8, 0, 2, 4, 2⟩, ⟨7, 0, 3, 5, 2⟩] else none,
          engine := exEngine }
        (exHit 7 1)).associationInfo 0
      = some [⟨8, 0, 2, 4, 2⟩, ⟨7, 0, 4, 5, 2⟩] ∧
    (processSimHit (exCfg true false) (exCol fun _ => true) exDet (0, 0, 0) 0 3 9
        { locAmpl := [5, 0], thisFirstChannelWithSignal := 0, thisLastChannelWithSignal := 1,
          hipChannels := [false, false],
          associationInfo := fun ch =>
            if ch = 0 then some [⟨8, 0, 2, 4, 2⟩, ⟨7, 0, 3, 5, 2⟩] else none,
          engine := exEngine }
        (exHit 7 1)).associationInfo 1 = none := by
  have h := merge_changes_only_charge (exCfg true false) (exCol fun _ => true) exDet (0, 0, 0)
    0 3 9
    { locAmpl := [5, 0], thisFirstChannelWithSignal := 0, thisLastChannelWithSignal := 1,
      hipChannels := [false, false],
      associationInfo := fun ch =>
        if ch = 0 then some [⟨8, 0, 2, 4, 2⟩, ⟨7, 0, 3, 5, 2⟩] else none,
      engine := exEngine }
    (exHit 7 1) 0 [⟨8, 0, 2, 4, 2⟩] [] ⟨7, 0, 3, 5, 2⟩ rfl rfl
    (by simp [passesTOF, exCfg, exDet, exHit])
    (by simp [exCol])
    (by simp [exCol, exHit])
    (by simp)
    ⟨rfl, rfl⟩
    (by intro a' ha'; simp at ha'; subst ha'; simp [exHit])
  refine ⟨?_, ?_⟩
  · rw [h.1]
    simp [exCol, exHit]
    norm_num
  · rw [h.2.2 1 (by simp [exCol])]
    simp

/-! ## Lemmas on the totals of the truth association -/

theorem updateAssociationVector_sum (v : List AssociationInfo) (t e : Nat) (x : ℚ)
    (i b : Nat) :
    ((updateAssociationVector v t e x i b).map (fun a => a.contributionToADC)).sum
      = (v.map (fun a => a.contributionToADC)).sum + x := by
  induction v with
  | nil => simp [updateAssociationVector]
  | cons a rest ih =>
    unfold updateAssociationVector
    split_ifs
    · simp only [List.map_cons, List.sum_cons]; ring
    · simp only [List.map_cons, List.sum_cons, ih]; ring

theorem recordSimHit_listTotal (loc prev : List ℚ) (t e i b : Nat)
    (info : AssociationInfoForChannel) (c : Nat) (hlen : loc.length = prev.length) :
    listTotal (recordSimHit loc prev t e i b info c)
      = listTotal (info c) + (loc.getD c 0 - prev.getD c 0) := by
  rw [recordSimHit_apply]
  by_cases hc : c < loc.length
  · by_cases hδ : loc.getD c 0 - prev.getD c 0 = 0
    · rw [if_neg (fun h => h.2 hδ), hδ, add_zero]
    · rw [if_pos ⟨hc, hδ⟩]
      simp only [listTotal, Option.getD_some, updateAssociationVector_sum]
  · have h1 : loc.getD c 0 = 0 := by
      rw [List.getD_eq_getElem?_getD, List.getElem?_eq_none (by omega)]; rfl
    have h2 : prev.getD c 0 = 0 := by
      rw [List.getD_eq_getElem?_getD, List.getElem?_eq_none (by omega)]; rfl
    rw [if_neg (fun h => hc h.1), h1, h2, sub_zero, add_zero]

/-- Along the loop over the sim hits, for a charge sharing that keeps the size
of the vector, the total of a channel's Contributions grows by what the local
amplitude of the channel grows. -/
theorem simHitLoop_listTotal (cfg : Config) (col : Collaborators) (det : StripGeomDetUnit)
    (bfield : Vector3) (langle : ℚ) (tofBin : Nat)
    (hmk : cfg.makeDigiSimLinks_ = true)
    (hlen : ∀ hit ampl e,
      (col.processHit hit det bfield langle ampl det.nstrips 0 e).locAmpl.length = ampl.length)
    (input : List PSimHit) (idx : Nat) (st : HitLoopState) (c : Nat) :
    listTotal ((simHitLoop cfg col det bfield langle tofBin input idx st).associationInfo c)
        - (simHitLoop cfg col det bfield langle tofBin input idx st).locAmpl.getD c 0
      = listTotal (st.associationInfo c) - st.locAmpl.getD c 0 := by
  induction input generalizing idx st with
  | nil => rfl
  | cons hit rest ih =>
    rw [simHitLoop, ih]
    by_cases hacc : hit.detUnitId = det.rawId ∧ passesTOF cfg det hit
    · have hloc : (processSimHit cfg col det bfield langle tofBin idx st hit).locAmpl
          = (col.processHit hit det bfield langle st.locAmpl det.nstrips 0 st.engine).locAmpl := by
        simp [processSimHit, hacc.1, hacc.2]
      rw [processSimHit_associationInfo _ _ _ _ _ _ _ _ _ _ hacc.1 hacc.2 hmk, hloc,
        recordSimHit_listTotal _ _ _ _ _ _ _ _ (hlen hit st.locAmpl st.engine)]
      ring
    · have hst : processSimHit cfg col det bfield langle tofBin idx st hit = st := by
        unfold processSimHit
        by_cases hd : hit.detUnitId = det.rawId
        · have ht : ¬ passesTOF cfg det hit := fun ht => hacc ⟨hd, ht⟩
          simp [hd, ht]
        · simp [hd]
      rw [hst]

/-- One call: the truth total of a channel of the unit grows by the local
amplitude of the channel handed to the pile-up store. -/
theorem accumulateSimHits_truthTotal (cfg : Config) (col : Collaborators) (s : State)
    (input : List PSimHit) (idx tofBin : Nat) (det : StripGeomDetUnit) (bfield : Vector3)
    (engine : HepRandomEngine) (c : Nat)
    (hmk : cfg.makeDigiSimLinks_ = true)
    (hlen : ∀ hit langle ampl e,
      (col.processHit hit det bfield langle ampl det.nstrips 0 e).locAmpl.length = ampl.length) :
    truthTotal (accumulateSimHits cfg col s input idx tofBin det bfield engine).state
        det.rawId c
      = truthTotal s det.rawId c
        + (localAmplitudes cfg col s input idx tofBin det bfield engine).getD c 0 := by
  unfold truthTotal localAmplitudes
  by_cases hacc : (shoot engine).1 > cfg.inefficiency
  · rw [accumulateSimHits_contributions _ _ _ _ _ _ _ _ _ _ hacc hmk]
    have h := simHitLoop_listTotal cfg col det bfield (lorentzAngle s det.rawId) tofBin hmk
      (fun hit ampl e => hlen hit _ ampl e) input idx (hitLoopStart s det engine) c
    rw [hitLoopStart_associationInfo] at h
    have h0 : (hitLoopStart s det engine).locAmpl.getD c 0 = 0 := getD_replicate_zero _ _
    rw [h0, sub_zero] at h
    simp only [hacc, decide_True, if_true]
    rw [← h]
    ring
  · have hc : contributions (accumulateSimHits cfg col s input idx tofBin det bfield
        engine).state det.rawId c = contributions s det.rawId c := by
      simp [contributions, accumulateSimHits, hacc]
    have h0 : (hitLoopStart s det engine).locAmpl.getD c 0 = 0 := getD_replicate_zero _ _
    simp only [hacc, decide_False, Bool.false_eq_true, if_false]
    rw [hc, h0, add_zero]

theorem accumulateAll_truthTotal (cfg : Config) (col : Collaborators) (det : StripGeomDetUnit)
    (bfield : Vector3) (calls : List AccumulateCall) (s : State) (c : Nat)
    (hmk : cfg.makeDigiSimLinks_ = true)
    (hlen : ∀ hit langle ampl e,
      (col.processHit hit det bfield langle ampl det.nstrips 0 e).locAmpl.length = ampl.length) :
    truthTotal (accumulateAll cfg col s det bfield calls) det.rawId c
      = truthTotal s det.rawId c + handedTotal cfg col det bfield s calls c := by
  induction calls generalizing s with
  | nil => simp [accumulateAll, handedTotal]
  | cons call rest ih =>
    have hfold : accumulateAll cfg col s det bfield (call :: rest)
        = accumulateAll cfg col (accumulateSimHits cfg col s call.input
            call.inputBeginGlobalIndex call.tofBin det bfield call.engine).state det bfield
            rest := rfl
    rw [hfold, ih, accumulateSimHits_truthTotal _ _ _ _ _ _ _ _ _ _ hmk hlen, handedTotal]
    ring

theorem accumulateAll_chargeVector (cfg : Config) (col : Collaborators) (det : StripGeomDetUnit)
    (bfield : Vector3) (calls : List AccumulateCall) (s : State) (c : Nat) :
    chargeVector (accumulateAll cfg col s det bfield calls) det.rawId c
      = chargeVector s det.rawId c + handedTotal cfg col det bfield s calls c := by
  induction calls generalizing s with
  | nil => simp [accumulateAll, handedTotal]
  | cons call rest ih =>
    have hfold : accumulateAll cfg col s det bfield (call :: rest)
        = accumulateAll cfg col (accumulateSimHits cfg col s call.input
            call.inputBeginGlobalIndex call.tofBin det bfield call.engine).state det bfield
            rest := rfl
    have hone : chargeVector (accumulateSimHits cfg col s call.input
        call.inputBeginGlobalIndex call.tofBin det bfield call.engine).state det.rawId c
        = chargeVector s det.rawId c
          + (localAmplitudes cfg col s call.input call.inputBeginGlobalIndex call.tofBin det
              bfield call.engine).getD c 0 := by
      simp [chargeVector, accumulateSimHits, localAmplitudes, SiPileUpSignals.add,
        SiPileUpSignals.getSignal]
    rw [hfold, ih, hone, handedTotal]
    ring

/-- C21: with truth association on and a charge sharing that keeps the size of
the amplitude vector, after `initializeEvent` and any sequence of
`accumulateSimHits` calls for a unit, for every channel the sum of
`contributionToADC` over the channel's Contributions in the TruthMap (0 for a
channel without Contribution) equals the sum over the calls of the local
amplitude of the channel handed to the pile-up store, which is also the
channel's amplitude in the store. -/
theorem truth_totals_match_signal (cfg : Config) (col : Collaborators) (s : State)
    (iSetup : EventSetup) (det : StripGeomDetUnit) (bfield : Vector3)
    (calls : List AccumulateCall) (c : Nat)
    (hmk : cfg.makeDigiSimLinks_ = true)
    (hlen : ∀ hit langle ampl e,
      (col.processHit hit det bfield langle ampl det.nstrips 0 e).locAmpl.length = ampl.length) :
    truthTotal (accumulateAll cfg col (initializeEvent s iSetup) det bfield calls) det.rawId c
      = handedTotal cfg col det bfield (initializeEvent s iSetup) calls c ∧
    chargeVector (accumulateAll cfg col (initializeEvent s iSetup) det bfield calls) det.rawId c
      = handedTotal cfg col det bfield (initializeEvent s iSetup) calls c ∧
    (contributions (accumulateAll cfg col (initializeEvent s iSetup) det bfield calls)
        det.rawId c = none →
      handedTotal cfg col det bfield (initializeEvent s iSetup) calls c = 0) := by
  have h1 := accumulateAll_truthTotal cfg col det bfield calls (initializeEvent s iSetup) c
    hmk hlen
  have h2 := accumulateAll_chargeVector cfg col det bfield calls (initializeEvent s iSetup) c
  have t0 : truthTotal (initializeEvent s iSetup) det.rawId c = 0 := by
    simp [truthTotal, listTotal, contributions, initializeEvent]
  have c0 : chargeVector (initializeEvent s iSetup) det.rawId c = 0 := by
    simp [chargeVector, initializeEvent, SiPileUpSignals.getSignal, SiPileUpSignals.reset]
  rw [t0, zero_add] at h1
  rw [c0, zero_add] at h2
  refine ⟨h1, h2, ?_⟩
  intro hnone
  rw [← h1]
  simp [truthTotal, listTotal, hnone]

/-- C21 at a concrete input: two calls on unit 1, a hit of track 7 with the
charge 3 and a hit of track 8 with the charge 1 on channel 0: both totals are 4. -/
theorem truth_totals_match_signal_witness :
    handedTotal (exCfg true false) (exCol fun _ => true) exDet (0, 0, 0) exState
        [⟨[exHit 7 3], 0, 0, exEngine⟩, ⟨[exHit 8 1], 1, 0, exEngine⟩] 0 = 4 ∧
    truthTotal (accumulateAll (exCfg true false) (exCol fun _ => true) exState exDet (0, 0, 0)
        [⟨[exHit 7 3], 0, 0, exEngine⟩, ⟨[exHit 8 1], 1, 0, exEngine⟩]) exDet.rawId 0
      = handedTotal (exCfg true false) (exCol fun _ => true) exDet (0, 0, 0) exState
        [⟨[exHit 7 3], 0, 0, exEngine⟩, ⟨[exHit 8 1], 1, 0, exEngine⟩] 0 := by
  refine ⟨?_, ?_⟩
  · simp [handedTotal, localAmplitudes, accumulateSimHits, exCfg, exCol, exState, exDet, exHit,
      exEngine, shoot, simHitLoop, processSimHit, passesTOF, apvKiller, assign,
      initializeEvent, initializeDetUnit, hitLoopStart, lorentzAngle, exSetup, exState0]
    norm_num
  · exact (truth_totals_match_signal (exCfg true false) (exCol fun _ => true)
      (initializeDetUnit exState0 exDet exSetup) exSetup exDet (0, 0, 0)
      [⟨[exHit 7 3], 0, 0, exEngine⟩, ⟨[exHit 8 1], 1, 0, exEngine⟩] 0 rfl
      (by intro hit langle ampl e; simp [exCol])).1

theorem detAmplStart_spec (s : State) (det : StripGeomDetUnit) :
    (detAmplStart s det).length = det.nstrips ∧
    ∀ c, c < det.nstrips → (detAmplStart s det).getD c 0 = chargeVector s det.rawId c := by
  unfold detAmplStart chargeVector
  cases s.theSiPileUpSignals.getSignal det.rawId with
  | none =>
    refine ⟨by simp, ?_⟩
    intro c _
    rw [getD_replicate_zero]
    rfl
  | some sig =>
    refine ⟨by simp, ?_⟩
    intro c hc
    simp [List.getD_eq_getElem?_getD, hc]

/-- The outputs of `digitize` in terms of the amplitudes left by the masking
loop: the noise stages and the converters receive the masked amplitudes. -/
theorem digitize_fields (cfg : Config) (col : Collaborators) (s : State)
    (outdigi : List SiStripDigi) (outrawdigi : List SiStripRawDigi)
    (outLink : List StripDigiSimLink) (det : StripGeomDetUnit) (cal : Calibration)
    (engine : HepRandomEngine) :
    (digitize cfg col s outdigi outrawdigi outLink det cal engine).outdigi
      = (if cfg.zeroSuppression then
          col.suppress (col.convert
            (suppressedNoise cfg col cal det.rawId det.nstrips (s.allBadChannels det.rawId)
              (maskedStart s det engine).1 (s.firstChannelsWithSignal det.rawId)
              (s.lastChannelsWithSignal det.rawId) (maskedStart s det engine).2).detAmpl
            cal.getStripGain det.rawId) det.rawId cal.getNoise cal.threshold
         else outdigi) ∧
    (digitize cfg col s outdigi outrawdigi outLink det cal engine).outrawdigi
      = (if cfg.zeroSuppression then outrawdigi
         else col.convertRaw
          (rawAnalog cfg col cal det (s.allBadChannels det.rawId) (maskedStart s det engine).1
            (maskedStart s det engine).2).detAmpl cal.getStripGain det.rawId) ∧
    (digitize cfg col s outdigi outrawdigi outLink det cal engine).engine
      = (if cfg.zeroSuppression then
          (suppressedNoise cfg col cal det.rawId det.nstrips (s.allBadChannels det.rawId)
            (maskedStart s det engine).1 (s.firstChannelsWithSignal det.rawId)
            (s.lastChannelsWithSignal det.rawId) (maskedStart s det engine).2).engine
         else (rawAnalog cfg col cal det (s.allBadChannels det.rawId)
            (maskedStart s det engine).1 (maskedStart s det engine).2).engine) := by
  cases hz : cfg.zeroSuppression <;> exact ⟨by simp [digitize, hz, maskedStart, detAmplStart],
    by simp [digitize, hz, maskedStart, detAmplStart],
    by simp [digitize, hz, maskedStart, detAmplStart]⟩

theorem foldl_nonBad_spec (bad : List Bool) (value : Nat → ℚ) (n m : Nat) :
    ((List.range m).foldl
        (fun v strip => if bad.getD strip false then v else v.set strip (value strip))
        (List.replicate n 0)).length = n ∧
    ∀ k, ((List.range m).foldl
        (fun v strip => if bad.getD strip false then v else v.set strip (value strip))
        (List.replicate n 0)).getD k 0
      = if k < m ∧ k < n ∧ bad.getD k false = false then value k else 0 := by
  induction m with
  | zero => exact ⟨by simp, fun k => by simp [getD_replicate_zero]⟩
  | succ j ih =>
    obtain ⟨ih1, ih2⟩ := ih
    rw [List.range_succ, List.foldl_append, List.foldl_cons, List.foldl_nil]
    cases hb : bad.getD j false with
    | true =>
      simp only [if_true]
      refine ⟨ih1, ?_⟩
      intro k
      rw [ih2 k]
      by_cases hk : k = j
      · subst hk
        simp only [hb, lt_irrefl, false_and, and_false, if_false, Bool.true_eq_false]
      · have h1 : (k < j + 1) = (k < j) := by apply propext; omega
        simp only [h1]
    | false =>
      simp only [Bool.false_eq_true, if_false]
      refine ⟨by rw [List.length_set, ih1], ?_⟩
      intro k
      rw [getD_set_rat, ih1, ih2 k]
      by_cases hk : k = j
      · subst hk
        by_cases hn : k < n
        · simp only [hn, hb, and_self, if_true, Nat.lt_succ_self]
        · simp only [hn, and_false, false_and, if_false]
      · have h1 : (k < j + 1) = (k < j) := by apply propext; omega
        have hk' : ¬ j = k := fun h => hk h.symm
        simp only [hk', false_and, if_false, h1]

theorem nonBadVector_getD (bad : List Bool) (n : Nat) (value : Nat → ℚ) (k : Nat) :
    (nonBadVector bad n value).getD k 0
      = if k < n ∧ bad.getD k false = false then value k else 0 := by
  unfold nonBadVector
  rw [(foldl_nonBad_spec bad value n n).2 k]
  by_cases hk : k < n
  · simp only [hk, true_and]
  · simp only [hk, false_and]

/-- C16: in `digitize` a dead channel of the unit has the amplitude 0 after the
masking loop, whatever charge was accumulated on it and whether or not it is
saturated, and the noise RMS and pedestal vectors built per channel are 0 on it.
Two runs of `digitize` on members that differ only in the pile-up store, and
whose accumulated charges agree on the channels of the unit that are not dead,
hand the same amplitudes to the noise stages and return the same digis, raw
digis, links and engine. -/
theorem dead_channel_charge_does_not_leak (cfg : Config) (col : Collaborators) (s : State)
    (p₂ : SiPileUpSignals)
    (outdigi : List SiStripDigi) (outrawdigi : List SiStripRawDigi)
    (outLink : List StripDigiSimLink) (det : StripGeomDetUnit) (cal : Calibration)
    (engine : HepRandomEngine)
    (hcharge : ∀ c, c < det.nstrips → (s.allBadChannels det.rawId).getD c false = false →
      chargeVector s det.rawId c
        = chargeVector { s with theSiPileUpSignals := p₂ } det.rawId c) :
    (∀ k, k < det.nstrips → (s.allBadChannels det.rawId).getD k false = true →
      (maskedStart s det engine).1.getD k 0 = 0 ∧
      (∀ value, (nonBadVector (s.allBadChannels det.rawId) det.nstrips value).getD k 0 = 0) ∧
      (rawNoiseRMSv cfg cal det.rawId det.nstrips (s.allBadChannels det.rawId)).getD k 0 = 0 ∧
      (vPeds cfg cal det.rawId det.nstrips (s.allBadChannels det.rawId)).getD k 0 = 0) ∧
    maskedStart { s with theSiPileUpSignals := p₂ } det engine = maskedStart s det engine ∧
    (digitize cfg col { s with theSiPileUpSignals := p₂ } outdigi outrawdigi outLink det cal
        engine).outdigi
      = (digitize cfg col s outdigi outrawdigi outLink det cal engine).outdigi ∧
    (digitize cfg col { s with theSiPileUpSignals := p₂ } outdigi outrawdigi outLink det cal
        engine).outrawdigi
      = (digitize cfg col s outdigi outrawdigi outLink det cal engine).outrawdigi ∧
    (digitize cfg col { s with theSiPileUpSignals := p₂ } outdigi outrawdigi outLink det cal
        engine).outLink
      = (digitize cfg col s outdigi outrawdigi outLink det cal engine).outLink ∧
    (digitize cfg col { s with theSiPileUpSignals := p₂ } outdigi outrawdigi outLink det cal
        engine).engine
      = (digitize cfg col s outdigi outrawdigi outLink det cal engine).engine := by
  obtain ⟨l1, g1⟩ := detAmplStart_spec s det
  obtain ⟨l2, g2⟩ := detAmplStart_spec { s with theSiPileUpSignals := p₂ } det
  have hmask : maskedStart { s with theSiPileUpSignals := p₂ } det engine
      = maskedStart s det engine := by
    unfold maskedStart
    exact maskStrips_congr _ _ _ _ _ _ l2 l1
      (fun c hc hb => by rw [g2 c hc, g1 c hc]; exact (hcharge c hc hb).symm)
  obtain ⟨f1, f2, f3⟩ := digitize_fields cfg col s outdigi outrawdigi outLink det cal engine
  obtain ⟨k1, k2, k3⟩ := digitize_fields cfg col { s with theSiPileUpSignals := p₂ } outdigi
    outrawdigi outLink det cal engine
  rw [hmask] at k1 k2 k3
  have hd := k1.trans f1.symm
  have hr := k2.trans f2.symm
  refine ⟨?_, hmask, hd, hr, ?_, k3.trans f3.symm⟩
  · intro k hk hb
    have hnb : ∀ value, (nonBadVector (s.allBadChannels det.rawId) det.nstrips value).getD k 0
        = 0 := by
      intro value
      rw [nonBadVector_getD, hb]
      simp only [Bool.true_eq_false, and_false, if_false]
    refine ⟨?_, hnb, ?_, ?_⟩
    · unfold maskedStart
      rw [(maskStrips_spec _ _ _ _ _).2.2 k, l1]
      simp only [hk, and_self, if_true, maskedAmplitude, hb, zero_mul, ite_self]
    · unfold rawNoiseRMSv
      by_cases hs : cfg.SingleStripNoise = true
      · rw [if_pos hs]; exact hnb _
      · rw [if_neg hs]
        by_cases hr : refStripSearch (s.allBadChannels det.rawId) det.nstrips 0 < det.nstrips
        · simp only [hr, if_true]; exact hnb _
        · simp only [hr, if_false]; exact getD_replicate_zero _ _
    · unfold vPeds
      split_ifs
      · exact hnb _
      · exact hnb _
  · rw [digitize_outLink, digitize_outLink, hd, hr]

/-- C16 at a concrete input: on the two-channel unit 1 with channel 0 dead, a
store with the charge 99 on channel 0 and the empty store give the same raw
digis and the same masked amplitudes. -/
theorem dead_channel_charge_does_not_leak_witness :
    (exStateBad.allBadChannels exDet.rawId) = [true, false] ∧
    chargeVector { exStateBad with theSiPileUpSignals := exStoreDead } exDet.rawId 0 = 99 ∧
    chargeVector exStateBad exDet.rawId 0 = 0 ∧
    (digitize (exCfg true false) (exCol fun _ => true)
        { exStateBad with theSiPileUpSignals := exStoreDead } [] [] [] exDet exCal
        exEngine).outrawdigi
      = (digitize (exCfg true false) (exCol fun _ => true) exStateBad [] [] [] exDet exCal
        exEngine).outrawdigi := by
  have hbad : exStateBad.allBadChannels exDet.rawId = [true, false] := by
    simp [exStateBad, initializeEvent, initializeDetUnit, assign, exDet, exSetupBad,
      setBadStrips, setStripRange, List.range_succ]
  have h99 : chargeVector { exStateBad with theSiPileUpSignals := exStoreDead } exDet.rawId 0
      = 99 := by
    simp [chargeVector, exStoreDead, SiPileUpSignals.getSignal]
  have h0 : ∀ c, chargeVector exStateBad exDet.rawId c = 0 := by
    intro c
    simp [chargeVector, exStateBad, initializeEvent, SiPileUpSignals.getSignal,
      SiPileUpSignals.reset]
  refine ⟨hbad, h99, h0 0, ?_⟩
  refine (dead_channel_charge_does_not_leak (exCfg true false) (exCol fun _ => true)
    exStateBad exStoreDead [] [] [] exDet exCal exEngine ?_).2.2.2.1
  intro c hc hb
  rw [hbad] at hb
  have hc2 : c < 2 := hc
  have hc1 : c = 1 := by
    rcases Nat.lt_or_ge c 1 with h | h
    · have : c = 0 := by omega
      subst this
      simp at hb
    · omega
  subst hc1
  rw [h0 1]
  simp [chargeVector, exStoreDead, SiPileUpSignals.getSignal]

/-- C19: in `digitize` channel `k` of the unit is scaled with the draw number `k`
of the masking loop, `u`.  For `0 ≤ u ≤ 1` the raw factor `u*10/7 - 3/7` lies in
`[-3/7, 1]`, the multiplier is `max 0 (u*10/7 - 3/7)`, lies in `[0, 1]` and is 0
exactly when `u ≤ 3/10`.  The amplitude of the channel after the loop is its
masked amplitude: for a saturated channel that is not dead and has a
non-negative accumulated charge it lies between 0 and that charge, for a channel
that is neither saturated nor dead it is that charge.  The noise stages and the
converters receive the amplitudes left by the loop. -/
theorem saturation_scaling_bounds (cfg : Config) (col : Collaborators) (s : State)
    (outdigi : List SiStripDigi) (outrawdigi : List SiStripRawDigi)
    (outLink : List StripDigiSimLink) (det : StripGeomDetUnit) (cal : Calibration)
    (engine : HepRandomEngine) (k : Nat) (hk : k < det.nstrips)
    (hu0 : 0 ≤ engine.stream (engine.pos + k)) (hu1 : engine.stream (engine.pos + k) ≤ 1) :
    (-3 / 7 ≤ engine.stream (engine.pos + k) * 10 / 7 - 3 / 7 ∧
      engine.stream (engine.pos + k) * 10 / 7 - 3 / 7 ≤ 1) ∧
    saturationMultiplier (engine.stream (engine.pos + k))
      = max 0 (engine.stream (engine.pos + k) * 10 / 7 - 3 / 7) ∧
    (0 ≤ saturationMultiplier (engine.stream (engine.pos + k)) ∧
      saturationMultiplier (engine.stream (engine.pos + k)) ≤ 1) ∧
    (saturationMultiplier (engine.stream (engine.pos + k)) = 0
      ↔ engine.stream (engine.pos + k) ≤ 3 / 10) ∧
    (maskedStart s det engine).1.getD k 0
      = maskedAmplitude (s.allBadChannels det.rawId) (s.allHIPChannels det.rawId)
          (chargeVector s det.rawId k) (engine.stream (engine.pos + k)) k ∧
    ((s.allHIPChannels det.rawId).getD k false = true →
      (s.allBadChannels det.rawId).getD k false = false →
      0 ≤ chargeVector s det.rawId k →
      0 ≤ (maskedStart s det engine).1.getD k 0 ∧
        (maskedStart s det engine).1.getD k 0 ≤ chargeVector s det.rawId k) ∧
    ((s.allHIPChannels det.rawId).getD k false = false →
      (s.allBadChannels det.rawId).getD k false = false →
      (maskedStart s det engine).1.getD k 0 = chargeVector s det.rawId k) ∧
    (digitize cfg col s outdigi outrawdigi outLink det cal engine).outdigi
      = (if cfg.zeroSuppression then
          col.suppress (col.convert
            (suppressedNoise cfg col cal det.rawId det.nstrips (s.allBadChannels det.rawId)
              (maskedStart s det engine).1 (s.firstChannelsWithSignal det.rawId)
              (s.lastChannelsWithSignal det.rawId) (maskedStart s det engine).2).detAmpl
            cal.getStripGain det.rawId) det.rawId cal.getNoise cal.threshold
         else outdigi) ∧
    (digitize cfg col s outdigi outrawdigi outLink det cal engine).outrawdigi
      = (if cfg.zeroSuppression then outrawdigi
         else col.convertRaw
          (rawAnalog cfg col cal det (s.allBadChannels det.rawId) (maskedStart s det engine).1
            (maskedStart s det engine).2).detAmpl cal.getStripGain det.rawId) := by
  obtain ⟨l1, g1⟩ := detAmplStart_spec s det
  obtain ⟨f1, f2, _⟩ := digitize_fields cfg col s outdigi outrawdigi outLink det cal engine
  have hm0 : 0 ≤ saturationMultiplier (engine.stream (engine.pos + k)) := by
    unfold saturationMultiplier
    split_ifs with h
    · exact le_of_lt h
    · exact le_refl 0
  have hm1 : saturationMultiplier (engine.stream (engine.pos + k)) ≤ 1 := by
    unfold saturationMultiplier
    split_ifs with h
    · linarith
    · norm_num
  have hmasked : (maskedStart s det engine).1.getD k 0
      = maskedAmplitude (s.allBadChannels det.rawId) (s.allHIPChannels det.rawId)
          (chargeVector s det.rawId k) (engine.stream (engine.pos + k)) k := by
    unfold maskedStart
    rw [(maskStrips_spec _ _ _ _ _).2.2 k, l1, g1 k hk]
    simp only [hk, and_self, if_true]
  refine ⟨⟨by linarith, by linarith⟩, ?_, ⟨hm0, hm1⟩, ?_, hmasked, ?_, ?_, f1, f2⟩
  · unfold saturationMultiplier
    split_ifs with h
    · exact (max_eq_right (le_of_lt h)).symm
    · exact (max_eq_left (not_lt.mp h)).symm
  · unfold saturationMultiplier
    constructor
    · intro h
      split_ifs at h with h'
      · linarith
      · linarith
    · intro h
      rw [if_neg (by linarith)]
  · intro hh hb hq
    rw [hmasked]
    simp only [maskedAmplitude, hh, hb, if_true, Bool.false_eq_true, if_false]
    constructor
    · exact mul_nonneg hq hm0
    · exact mul_le_of_le_one_right hq hm1
  · intro hh hb
    rw [hmasked]
    simp only [maskedAmplitude, hh, hb, Bool.false_eq_true, if_false]

/-- C19 at a concrete input: the draw 1/2 gives the multiplier 2/7; channel 0 of
unit 1 is not saturated and keeps its charge 4 after the masking loop. -/
theorem saturation_scaling_bounds_witness :
    saturationMultiplier (exEngine.stream (exEngine.pos + 0)) = 2 / 7 ∧
    (maskedStart (exAccumulated (fun _ => true) false 3 1) exDet exEngine).1.getD 0 0
      = chargeVector (exAccumulated (fun _ => true) false 3 1) exDet.rawId 0 := by
  have h := saturation_scaling_bounds (exCfg true false) (exCol fun _ => true)
    (exAccumulated (fun _ => true) false 3 1) [] [] [] exDet exCal exEngine 0
    (by simp [exDet]) (by simp [exEngine]) (by simp [exEngine]; norm_num)
  refine ⟨?_, h.2.2.2.2.2.2.1 ?_ ?_⟩
  · simp [saturationMultiplier, exEngine]
    norm_num
  · simp [exAccumulated, accumulateSimHits, exCfg, exCol, exState, exDet, exHit,
      exEngine, shoot, simHitLoop, processSimHit, passesTOF, apvKiller, assign,
      initializeEvent, initializeDetUnit, hitLoopStart, lorentzAngle, exSetup, exState0,
      setBadStrips]
  · simp [exAccumulated, accumulateSimHits, exState, exDet, assign,
      initializeEvent, initializeDetUnit, exSetup, exState0, setBadStrips]

/-! ## Lemmas on the reference-strip search -/

theorem refStripSearch_spec (bad : List Bool) (n : Nat) (d : Nat) :
    ∀ start, n - start = d → start ≤ n →
      start ≤ refStripSearch bad n start ∧ refStripSearch bad n start ≤ n ∧
      (refStripSearch bad n start < n →
        bad.getD (refStripSearch bad n start) false = false) ∧
      (∀ k, start ≤ k → k < refStripSearch bad n start → bad.getD k false = true) := by
  induction d with
  | zero =>
    intro start hd hs
    have hsn : start = n := by omega
    rw [refStripSearch, if_neg (by omega)]
    exact ⟨le_refl _, hs, fun h => by omega, fun k h1 h2 => by omega⟩
  | succ d ih =>
    intro start hd hs
    rw [refStripSearch]
    by_cases hb : bad.getD start false = true
    · have hlt : start < n := by omega
      rw [if_pos ⟨hlt, hb⟩]
      obtain ⟨h1, h2, h3, h4⟩ := ih (start + 1) (by omega) (by omega)
      refine ⟨by omega, h2, h3, ?_⟩
      intro k hk1 hk2
      by_cases hks : k = start
      · rw [hks]; exact hb
      · exact h4 k (by omega) hk2
    · rw [if_neg (fun h => hb h.2)]
      refine ⟨le_refl _, hs, ?_, fun k h1 h2 => by omega⟩
      intro _
      cases h : bad.getD start false with
      | false => rfl
      | true => exact absurd h hb

theorem refStripSearch_eq_iff_allDead (bad : List Bool) (n start : Nat) (hs : start ≤ n) :
    refStripSearch bad n start = n ↔ allDeadFrom bad n start := by
  obtain ⟨h1, h2, h3, h4⟩ := refStripSearch_spec bad n (n - start) start rfl hs
  constructor
  · intro h k hk1 hk2
    exact h4 k hk1 (by omega)
  · intro h
    by_contra hne
    have hlt : refStripSearch bad n start < n := by omega
    have := h (refStripSearch bad n start) h1 hlt
    rw [h3 hlt] at this
    exact absurd this (by simp)

theorem refStripSearch_congr (bad bad' : List Bool) (n : Nat)
    (h : ∀ k, k < n → bad.getD k false = bad'.getD k false) (d : Nat) :
    ∀ start, n - start = d → refStripSearch bad n start = refStripSearch bad' n start := by
  induction d with
  | zero =>
    intro start hd
    conv_lhs => rw [refStripSearch]
    conv_rhs => rw [refStripSearch]
    rw [if_neg (by omega), if_neg (by omega)]
  | succ d ih =>
    intro start hd
    conv_lhs => rw [refStripSearch]
    conv_rhs => rw [refStripSearch]
    have hlt : start < n := by omega
    rw [← h start hlt]
    by_cases hb : bad.getD start false = true
    · rw [if_pos ⟨hlt, hb⟩, if_pos ⟨hlt, hb⟩]
      exact ih (start + 1) (by omega)
    · rw [if_neg (fun h => hb h.2), if_neg (fun h => hb h.2)]

/-- C18, amended: the reference-strip search (a total function) started at
`start ≤ numStrips` returns the lowest channel at or above `start` that is not
dead, or `numStrips` when every channel from `start` on is dead, and it does not
depend on the dead mask at indices `≥ numStrips`.  With the strip noise on and
the single-strip noise off, the suppressed path (start `numStrips/2`) leaves the
amplitudes, the stored range and the engine as they are exactly in the case that
every channel from the midpoint on is dead, and calls `addNoise` with the
reference strip's RMS otherwise; the raw path (start 0) builds the zero RMS
vector when every channel of the unit is dead. -/
theorem reference_strip_search (cfg : Config) (col : Collaborators) (cal : Calibration)
    (detID numStrips : Nat) (badChannels : List Bool) (detAmpl : List ℚ)
    (first last : Nat) (engine : HepRandomEngine) :
    (∀ start, start ≤ numStrips →
      start ≤ refStripSearch badChannels numStrips start ∧
      refStripSearch badChannels numStrips start ≤ numStrips ∧
      (refStripSearch badChannels numStrips start < numStrips →
        badChannels.getD (refStripSearch badChannels numStrips start) false = false) ∧
      (∀ k, start ≤ k → k < refStripSearch badChannels numStrips start →
        badChannels.getD k false = true) ∧
      (refStripSearch badChannels numStrips start = numStrips
        ↔ allDeadFrom badChannels numStrips start)) ∧
    (∀ bad' start, (∀ k, k < numStrips → badChannels.getD k false = bad'.getD k false) →
      refStripSearch badChannels numStrips start = refStripSearch bad' numStrips start) ∧
    (cfg.noise = true → cfg.SingleStripNoise = false →
      (allDeadFrom badChannels numStrips (numStrips / 2) →
        suppressedNoise cfg col cal detID numStrips badChannels detAmpl first last engine
          = ⟨detAmpl, first, last, engine⟩) ∧
      (¬ allDeadFrom badChannels numStrips (numStrips / 2) →
        suppressedNoise cfg col cal detID numStrips badChannels detAmpl first last engine
          = col.addNoise detAmpl first last numStrips
              (cal.getNoise detID (refStripSearch badChannels numStrips (numStrips / 2))
                * cfg.theElectronPerADC
                / cal.getStripGain detID (refStripSearch badChannels numStrips (numStrips / 2)))
              engine)) ∧
    (cfg.SingleStripNoise = false → allDeadFrom badChannels numStrips 0 →
      rawNoiseRMSv cfg cal detID numStrips badChannels = List.replicate numStrips 0) := by
  refine ⟨?_, ?_, ?_, ?_⟩
  · intro start hs
    obtain ⟨h1, h2, h3, h4⟩ := refStripSearch_spec badChannels numStrips (numStrips - start)
      start rfl hs
    exact ⟨h1, h2, h3, h4, refStripSearch_eq_iff_allDead badChannels numStrips start hs⟩
  · intro bad' start h
    exact refStripSearch_congr badChannels bad' numStrips h (numStrips - start) start rfl
  · intro hnoise hsingle
    have hmid : numStrips / 2 ≤ numStrips := Nat.div_le_self _ _
    have hiff := refStripSearch_eq_iff_allDead badChannels numStrips (numStrips / 2) hmid
    obtain ⟨_, h2, _, _⟩ := refStripSearch_spec badChannels numStrips
      (numStrips - numStrips / 2) (numStrips / 2) rfl hmid
    constructor
    · intro hall
      have hr := hiff.mpr hall
      simp [suppressedNoise, hnoise, hsingle, hr]
    · intro hnot
      have hne : refStripSearch badChannels numStrips (numStrips / 2) ≠ numStrips :=
        fun h => hnot (hiff.mp h)
      have hlt : refStripSearch badChannels numStrips (numStrips / 2) < numStrips := by omega
      simp [suppressedNoise, hnoise, hsingle, hlt]
  · intro hsingle hall
    have hr := (refStripSearch_eq_iff_allDead badChannels numStrips 0 (Nat.zero_le _)).mpr hall
    simp [rawNoiseRMSv, hsingle, hr]

/-- C18 fails as stated: on a two-channel unit whose channel 0 is not dead and
whose channel 1 is dead, the suppressed search starts at the midpoint 1, ends at
`numStrips = 2`, and the noise stage adds nothing, although with both channels
alive the same noise adder changes the amplitudes. -/
theorem reference_noise_skipped_with_live_channel :
    [false, true].getD 0 false = false ∧
    refStripSearch [false, true] 2 (2 / 2) = 2 ∧
    (suppressedNoise exCfgRefNoise exColNoisy exCal 1 2 [false, true] [5, 0] 0 2
      exEngine).detAmpl = [5, 0] ∧
    (suppressedNoise exCfgRefNoise exColNoisy exCal 1 2 [false, false] [5, 0] 0 2
      exEngine).detAmpl = [6, 1] := by
  have h1 : refStripSearch [false, true] 2 (2 / 2) = 2 := by
    rw [refStripSearch_eq_iff_allDead _ _ _ (by norm_num)]
    intro k hk1 hk2
    have : k = 1 := by omega
    subst this
    rfl
  have h2 : refStripSearch [false, false] 2 (2 / 2) = 1 := by
    rw [refStripSearch]
    simp
  refine ⟨rfl, h1, ?_, ?_⟩
  · simp [suppressedNoise, exCfgRefNoise, exCfg, h1]
  · simp [suppressedNoise, exCfgRefNoise, exCfg, h2, exColNoisy]
    norm_num

/-- C20, amended: `digitize` does not reset the stored range of a unit.  In raw
mode the stored first and last channel with signal of every unit are after
`digitize` what they were before; in suppressed mode those of every other unit
are, and those of the digitized unit are as well when the strip noise is off or
the single-strip noise is on (otherwise they are what `addNoise`, which is
handed them by reference, leaves).  The range is set to the empty value
(first channel `nstrips`, last channel 0) by `initializeDetUnit`. -/
theorem digitize_keeps_range (cfg : Config) (col : Collaborators) (s : State)
    (outdigi : List SiStripDigi) (outrawdigi : List SiStripRawDigi)
    (outLink : List StripDigiSimLink) (det : StripGeomDetUnit) (cal : Calibration)
    (engine : HepRandomEngine) :
    (cfg.zeroSuppression = false →
      (digitize cfg col s outdigi outrawdigi outLink det cal
        engine).state.firstChannelsWithSignal = s.firstChannelsWithSignal ∧
      (digitize cfg col s outdigi outrawdigi outLink det cal
        engine).state.lastChannelsWithSignal = s.lastChannelsWithSignal) ∧
    (∀ d, d ≠ det.rawId →
      (digitize cfg col s outdigi outrawdigi outLink det cal
        engine).state.firstChannelsWithSignal d = s.firstChannelsWithSignal d ∧
      (digitize cfg col s outdigi outrawdigi outLink det cal
        engine).state.lastChannelsWithSignal d = s.lastChannelsWithSignal d) ∧
    ((cfg.noise = false ∨ cfg.SingleStripNoise = true) →
      (digitize cfg col s outdigi outrawdigi outLink det cal
        engine).state.firstChannelsWithSignal det.rawId = s.firstChannelsWithSignal det.rawId ∧
      (digitize cfg col s outdigi outrawdigi outLink det cal
        engine).state.lastChannelsWithSignal det.rawId = s.lastChannelsWithSignal det.rawId) ∧
    (∀ iSetup, (initializeDetUnit s det iSetup).firstChannelsWithSignal det.rawId = det.nstrips ∧
      (initializeDetUnit s det iSetup).lastChannelsWithSignal det.rawId = 0) := by
  refine ⟨?_, ?_, ?_, ?_⟩
  · intro hz
    simp [digitize, hz]
  · intro d hd
    cases hz : cfg.zeroSuppression <;> simp [digitize, hz, assign, hd]
  · intro hn
    cases hz : cfg.zeroSuppression with
    | false => simp [digitize, hz]
    | true =>
      rcases hn with hn | hn
      · simp [digitize, hz, assign, suppressedNoise, hn]
      · cases hnoise : cfg.noise <;> simp [digitize, hz, assign, suppressedNoise, hn, hnoise]
  · intro iSetup
    simp [initializeDetUnit, assign]

/-- C20 fails as stated: on the two-channel unit 1 in raw mode, after an
accumulation with the footprint [0,1) the stored range is first 0, last 1, and it
is the same after `digitize`, not the empty value first 2, last 0. -/
theorem range_not_reset_by_digitize :
    (exAccumulated (fun _ => true) false 3 1).firstChannelsWithSignal 1 = 0 ∧
    (exAccumulated (fun _ => true) false 3 1).lastChannelsWithSignal 1 = 1 ∧
    (exDigitized (fun _ => true) false 3 1).state.firstChannelsWithSignal 1 = 0 ∧
    (exDigitized (fun _ => true) false 3 1).state.lastChannelsWithSignal 1 = 1 ∧
    exDet.nstrips = 2 := by
  have h1 : (exAccumulated (fun _ => true) false 3 1).firstChannelsWithSignal 1 = 0 := by
    simp [exAccumulated, accumulateSimHits, exCfg, exCol, exState, exDet, exHit,
      exEngine, shoot, simHitLoop, processSimHit, passesTOF, apvKiller, assign,
      initializeEvent, initializeDetUnit, hitLoopStart, lorentzAngle, exSetup, exState0]
  have h2 : (exAccumulated (fun _ => true) false 3 1).lastChannelsWithSignal 1 = 1 := by
    simp [exAccumulated, accumulateSimHits, exCfg, exCol, exState, exDet, exHit,
      exEngine, shoot, simHitLoop, processSimHit, passesTOF, apvKiller, assign,
      initializeEvent, initializeDetUnit, hitLoopStart, lorentzAngle, exSetup, exState0]
  refine ⟨h1, h2, ?_, ?_, rfl⟩
  · have : (exDigitized (fun _ => true) false 3 1).state.firstChannelsWithSignal
        = (exAccumulated (fun _ => true) false 3 1).firstChannelsWithSignal := by
      simp [exDigitized, digitize, exCfg]
    rw [this, h1]
  · have : (exDigitized (fun _ => true) false 3 1).state.lastChannelsWithSignal
        = (exAccumulated (fun _ => true) false 3 1).lastChannelsWithSignal := by
      simp [exDigitized, digitize, exCfg]
    rw [this, h2]

/-! ## Lemmas on the hit index of a Contribution -/

theorem simHitLoop_append (cfg : Config) (col : Collaborators) (det : StripGeomDetUnit)
    (bfield : Vector3) (langle : ℚ) (tofBin : Nat) (l₁ l₂ : List PSimHit) (idx : Nat)
    (st : HitLoopState) :
    simHitLoop cfg col det bfield langle tofBin (l₁ ++ l₂) idx st
      = simHitLoop cfg col det bfield langle tofBin l₂ (idx + l₁.length)
          (simHitLoop cfg col det bfield langle tofBin l₁ idx st) := by
  induction l₁ generalizing idx st with
  | nil => rfl
  | cons hit rest ih =>
    rw [List.cons_append, simHitLoop, ih, simHitLoop, List.length_cons]
    congr 1
    omega

theorem updateAssociationVector_keeps (v : List AssociationInfo) (t e : Nat) (x : ℚ)
    (i b : Nat) (t₀ e₀ i₀ b₀ : Nat) (h : HasEntry (some v) t₀ e₀ i₀ b₀) :
    HasEntry (some (updateAssociationVector v t e x i b)) t₀ e₀ i₀ b₀ := by
  obtain ⟨a, ha, h1, h2, h3, h4⟩ := h
  simp only [Option.getD_some] at ha
  induction v with
  | nil => simp at ha
  | cons a' rest ih =>
    unfold updateAssociationVector
    by_cases hm : a'.trackID = t ∧ a'.eventID = e
    · rw [if_pos hm]
      rcases List.mem_cons.mp ha with rfl | hr
      · exact ⟨_, List.mem_cons_self _ _, h1, h2, h3, h4⟩
      · exact ⟨a, List.mem_cons_of_mem _ hr, h1, h2, h3, h4⟩
    · rw [if_neg hm]
      rcases List.mem_cons.mp ha with rfl | hr
      · exact ⟨a, List.mem_cons_self _ _, h1, h2, h3, h4⟩
      · obtain ⟨a₂, ha₂, k1, k2, k3, k4⟩ := ih hr
        exact ⟨a₂, List.mem_cons_of_mem _ ha₂, k1, k2, k3, k4⟩

theorem recordSimHit_keeps (loc prev : List ℚ) (t e i b : Nat)
    (info : AssociationInfoForChannel) (c : Nat) (t₀ e₀ i₀ b₀ : Nat)
    (h : HasEntry (info c) t₀ e₀ i₀ b₀) :
    HasEntry (recordSimHit loc prev t e i b info c) t₀ e₀ i₀ b₀ := by
  rw [recordSimHit_apply]
  split_ifs
  · apply updateAssociationVector_keeps
    obtain ⟨a, ha, hrest⟩ := h
    exact ⟨a, by simpa using ha, hrest⟩
  · exact h

theorem processSimHit_keeps (cfg : Config) (col : Collaborators) (det : StripGeomDetUnit)
    (bfield : Vector3) (langle : ℚ) (tofBin idx : Nat) (st : HitLoopState) (hit : PSimHit)
    (c : Nat) (t₀ e₀ i₀ b₀ : Nat) (h : HasEntry (st.associationInfo c) t₀ e₀ i₀ b₀) :
    HasEntry ((processSimHit cfg col det bfield langle tofBin idx st hit).associationInfo c)
      t₀ e₀ i₀ b₀ := by
  unfold processSimHit
  by_cases hd : hit.detUnitId ≠ det.rawId
  · simpa [hd] using h
  · by_cases ht : passesTOF cfg det hit
    · simp only [hd, ht, if_true, if_false]
      cases hm : cfg.makeDigiSimLinks_ with
      | true => simpa using recordSimHit_keeps _ _ _ _ _ _ _ c t₀ e₀ i₀ b₀ h
      | false => simpa using h
    · simpa [hd, ht] using h

theorem simHitLoop_keeps (cfg : Config) (col : Collaborators) (det : StripGeomDetUnit)
    (bfield : Vector3) (langle : ℚ) (tofBin : Nat) (input : List PSimHit) (idx : Nat)
    (st : HitLoopState) (c : Nat) (t₀ e₀ i₀ b₀ : Nat)
    (h : HasEntry (st.associationInfo c) t₀ e₀ i₀ b₀) :
    HasEntry ((simHitLoop cfg col det bfield langle tofBin input idx st).associationInfo c)
      t₀ e₀ i₀ b₀ := by
  induction input generalizing idx st with
  | nil => exact h
  | cons hit rest ih =>
    rw [simHitLoop]
    exact ih _ _ (processSimHit_keeps cfg col det bfield langle tofBin idx st hit c _ _ _ _ h)

/-- C17: in an accepted call with truth association on, let the hit at position
`pre.length` of the input range (after the hits `pre`, whether they were
processed, skipped for another unit or rejected by the time-of-flight test) be an
accepted hit of the unit that changes the amplitude of channel `c`, while no
Contribution of `c` has its `(trackId, eventId)` when it is reached.  After the
call the Contribution list of `c` has an entry with the hit's `trackId` and
`eventId`, the hit index `inputBeginGlobalIndex + pre.length` and the call's
`tofBin`. -/
theorem new_contribution_carries_hit_index (cfg : Config) (col : Collaborators) (s : State)
    (pre post : List PSimHit) (hit : PSimHit) (inputBeginGlobalIndex tofBin : Nat)
    (det : StripGeomDetUnit) (bfield : Vector3) (engine : HepRandomEngine) (c : Nat)
    (hmk : cfg.makeDigiSimLinks_ = true)
    (hacc : (shoot engine).1 > cfg.inefficiency)
    (hd : hit.detUnitId = det.rawId) (ht : passesTOF cfg det hit)
    (hc : c < (col.processHit hit det bfield (lorentzAngle s det.rawId)
      (simHitLoop cfg col det bfield (lorentzAngle s det.rawId) tofBin pre
        inputBeginGlobalIndex (hitLoopStart s det engine)).locAmpl det.nstrips 0
      (simHitLoop cfg col det bfield (lorentzAngle s det.rawId) tofBin pre
        inputBeginGlobalIndex (hitLoopStart s det engine)).engine).locAmpl.length)
    (hδ : (col.processHit hit det bfield (lorentzAngle s det.rawId)
      (simHitLoop cfg col det bfield (lorentzAngle s det.rawId) tofBin pre
        inputBeginGlobalIndex (hitLoopStart s det engine)).locAmpl det.nstrips 0
      (simHitLoop cfg col det bfield (lorentzAngle s det.rawId) tofBin pre
        inputBeginGlobalIndex (hitLoopStart s det engine)).engine).locAmpl.getD c 0
      - (simHitLoop cfg col det bfield (lorentzAngle s det.rawId) tofBin pre
        inputBeginGlobalIndex (hitLoopStart s det engine)).locAmpl.getD c 0 ≠ 0)
    (hfresh : ∀ a ∈ ((simHitLoop cfg col det bfield (lorentzAngle s det.rawId) tofBin pre
        inputBeginGlobalIndex (hitLoopStart s det engine)).associationInfo c).getD [],
      ¬ (a.trackID = hit.trackId ∧ a.eventID = hit.eventId)) :
    HasEntry
      (contributions
        (accumulateSimHits cfg col s (pre ++ hit :: post) inputBeginGlobalIndex tofBin det
          bfield engine).state det.rawId c)
      hit.trackId hit.eventId (inputBeginGlobalIndex + pre.length) tofBin := by
  rw [accumulateSimHits_contributions _ _ _ _ _ _ _ _ _ _ hacc hmk, simHitLoop_append,
    simHitLoop]
  apply simHitLoop_keeps
  rw [processSimHit_associationInfo _ _ _ _ _ _ _ _ _ _ hd ht hmk, recordSimHit_apply,
    if_pos ⟨hc, hδ⟩, updateAssociationVector_absent _ _ _ _ _ _ hfresh]
  unfold HasEntry
  rw [Option.getD_some]
  exact ⟨_, List.mem_append_right _ (List.mem_singleton_self _), rfl, rfl, rfl, rfl⟩

/-- C17 at a concrete input: the range starts at the global index 5 with a hit
of another unit, which is skipped, followed by a hit of track 7 on unit 1; the
Contribution created carries the index 6 and the call's time bin 2. -/
theorem new_contribution_carries_hit_index_witness :
    contributions
      (accumulateSimHits (exCfg true false) (exCol fun _ => true) exState
        ([exHitOther] ++ exHit 7 3 :: []) 5 2 exDet (0, 0, 0) exEngine).state exDet.rawId 0
      = some [⟨7, 0, 3, 6, 2⟩] ∧
    HasEntry
      (contributions
        (accumulateSimHits (exCfg true false) (exCol fun _ => true) exState
          ([exHitOther] ++ exHit 7 3 :: []) 5 2 exDet (0, 0, 0) exEngine).state exDet.rawId 0)
      (exHit 7 3).trackId (exHit 7 3).eventId (5 + [exHitOther].length) 2 := by
  refine ⟨?_, ?_⟩
  · simp [contributions, accumulateSimHits, exCfg, exCol, exState, exDet, exHit, exHitOther,
      exEngine, shoot, simHitLoop, processSimHit, passesTOF, apvKiller, recordSimHit,
      recordStrip, updateAssociationVector, assign, initializeEvent, initializeDetUnit,
      hitLoopStart, lorentzAngle, exSetup, exState0, List.range_succ]
  · exact new_contribution_carries_hit_index (exCfg true false) (exCol fun _ => true) exState
      [exHitOther] [] (exHit 7 3) 5 2 exDet (0, 0, 0) exEngine 0 rfl
      (by simp [shoot, exEngine, exCfg]) rfl
      (by simp [passesTOF, exCfg, exDet, exHit])
      (by simp [simHitLoop, processSimHit, exHitOther, exDet, exCol, hitLoopStart])
      (by simp [simHitLoop, processSimHit, exHitOther, exDet, exCol, hitLoopStart, exHit])
      (by simp [simHitLoop, processSimHit, exHitOther, exDet, hitLoopStart, exState,
            initializeEvent])

/-! ## The raw-mode pass-through scenario -/

theorem rawLinks_eq_flatMap (info : AssociationInfoForChannel) (n : Nat)
    (out : List StripDigiSimLink) :
    rawLinks info n out = out ++ (List.range n).flatMap (rawLinksOf info) := by
  unfold rawLinks
  induction n with
  | zero => simp
  | succ m ih =>
    rw [List.range_succ, List.foldl_append, ih, List.foldl_cons, List.foldl_nil,
      List.flatMap_append, List.flatMap_singleton]
    unfold rawLinksOf
    cases info m <;> simp

theorem flatMap_ite_singleton {α β : Type} (p : α → Prop) [DecidablePred p] (f : α → β)
    (l : List α) :
    l.flatMap (fun c => if p c then [f c] else []) = (l.filter (fun c => decide (p c))).map f := by
  induction l with
  | nil => rfl
  | cons a rest ih =>
    rw [List.flatMap_cons, ih]
    by_cases h : p a
    · simp [h]
    · simp [h]

theorem addPedestalsSpec_zero (a v : List ℚ) (h : ∀ i, v.getD i 0 = 0) :
    addPedestalsSpec a v = a := by
  unfold addPedestalsSpec
  apply List.ext_getElem (by simp)
  intro i h1 h2
  rw [List.getElem_map, List.getElem_range, h i, add_zero, List.getD_eq_getElem _ _ h2]

theorem singleHit_loop (cfg : Config) (col : Collaborators) (s : State) (hit : PSimHit)
    (idx tofBin : Nat) (det : StripGeomDetUnit) (bfield : Vector3) (engine : HepRandomEngine)
    (hsat : cfg.APVSaturationFromHIP = false) (hmk : cfg.makeDigiSimLinks_ = true)
    (hd : hit.detUnitId = det.rawId) (ht : passesTOF cfg det hit) :
    (simHitLoop cfg col det bfield (lorentzAngle s det.rawId) tofBin [hit] idx
        (hitLoopStart s det engine)).locAmpl = depositedCharges col s hit det bfield engine ∧
    (simHitLoop cfg col det bfield (lorentzAngle s det.rawId) tofBin [hit] idx
        (hitLoopStart s det engine)).hipChannels = s.allHIPChannels det.rawId ∧
    (simHitLoop cfg col det bfield (lorentzAngle s det.rawId) tofBin [hit] idx
        (hitLoopStart s det engine)).associationInfo
      = recordSimHit (depositedCharges col s hit det bfield engine)
          (List.replicate det.nstrips 0) hit.trackId hit.eventId idx tofBin
          ((s.associationInfoForDetId_ det.rawId).getD (fun _ => none)) := by
  simp [simHitLoop, processSimHit, hd, ht, hsat, hmk, apvKiller, hitLoopStart, depositedCharges]

theorem startOfEvent_fields (s : State) (det : StripGeomDetUnit) (iSetup : EventSetup)
    (hbad : iSetup.badStripRange det.rawId = []) :
    (startOfEvent s det iSetup).allBadChannels det.rawId = List.replicate det.nstrips false ∧
    (startOfEvent s det iSetup).allHIPChannels det.rawId = List.replicate det.nstrips false ∧
    (startOfEvent s det iSetup).associationInfoForDetId_ det.rawId = none ∧
    ∀ c, chargeVector (startOfEvent s det iSetup) det.rawId c = 0 := by
  simp [startOfEvent, initializeEvent, initializeDetUnit, assign, hbad, setBadStrips,
    chargeVector, SiPileUpSignals.reset, SiPileUpSignals.getSignal]

theorem singleHit_state (cfg : Config) (col : Collaborators) (s : State) (iSetup : EventSetup)
    (det : StripGeomDetUnit) (hit : PSimHit) (idx tofBin : Nat) (bfield : Vector3)
    (engine : HepRandomEngine)
    (hmk : cfg.makeDigiSimLinks_ = true) (hsat : cfg.APVSaturationFromHIP = false)
    (hacc : (shoot engine).1 > cfg.inefficiency)
    (hbad : iSetup.badStripRange det.rawId = [])
    (hd : hit.detUnitId = det.rawId) (ht : passesTOF cfg det hit) :
    (accumulateSimHits cfg col (startOfEvent s det iSetup) [hit] idx tofBin det bfield
        engine).state.allBadChannels det.rawId = List.replicate det.nstrips false ∧
    (accumulateSimHits cfg col (startOfEvent s det iSetup) [hit] idx tofBin det bfield
        engine).state.allHIPChannels det.rawId = List.replicate det.nstrips false ∧
    (accumulateSimHits cfg col (startOfEvent s det iSetup) [hit] idx tofBin det bfield
        engine).state.associationInfoForDetId_ det.rawId
      = some (recordSimHit (depositedCharges col (startOfEvent s det iSetup) hit det bfield engine)
          (List.replicate det.nstrips 0) hit.trackId hit.eventId idx tofBin (fun _ => none)) ∧
    ∀ c, chargeVector (accumulateSimHits cfg col (startOfEvent s det iSetup) [hit] idx tofBin
        det bfield engine).state det.rawId c
      = (depositedCharges col (startOfEvent s det iSetup) hit det bfield engine).getD c 0 := by
  obtain ⟨f1, f2, f3, f4⟩ := startOfEvent_fields s det iSetup hbad
  obtain ⟨l1, l2, l3⟩ := singleHit_loop cfg col (startOfEvent s det iSetup) hit idx tofBin det
    bfield engine hsat hmk hd ht
  refine ⟨?_, ?_, ?_, ?_⟩
  · rw [← f1]; rfl
  · rw [← f2, ← l2]
    simp [accumulateSimHits, hacc, assign]
  · rw [f3, Option.getD_none] at l3
    rw [← l3]
    simp [accumulateSimHits, hacc, hmk, assign]
  · intro c
    rw [chargeVector_accumulateSimHits, f4, if_pos hacc, l1, zero_add]

theorem vPeds_zero (cfg : Config) (cal : Calibration) (detID numStrips : Nat)
    (badChannels : List Bool) (hrp : cfg.RealPedestals = false) (hpo : cfg.pedOffset = 0)
    (i : Nat) : (vPeds cfg cal detID numStrips badChannels).getD i 0 = 0 := by
  unfold vPeds
  rw [hrp, if_neg (by decide), nonBadVector_getD, hpo]
  split <;> simp

theorem maskStrips_unmasked (n : Nat) (ampl : List ℚ) (e : HepRandomEngine) :
    (maskStrips (List.replicate n false) (List.replicate n false) n ampl e).1 = ampl := by
  obtain ⟨a1, _, a3⟩ := maskStrips_spec (List.replicate n false) (List.replicate n false) n ampl e
  apply list_ext_getD _ _ a1
  intro k _
  rw [a3 k]
  unfold maskedAmplitude
  rw [getD_replicate_false]
  split <;> simp

theorem rawLinksOf_singleHit (Q : List ℚ) (n : Nat) (hit : PSimHit) (idx tofBin : Nat) :
    rawLinksOf (recordSimHit Q (List.replicate n 0) hit.trackId hit.eventId idx tofBin
        (fun _ => none))
      = fun c => if Q.getD c 0 ≠ 0 then [unitLink hit idx tofBin c] else [] := by
  funext c
  unfold rawLinksOf
  rw [recordSimHit_apply, getD_replicate_zero, sub_zero]
  generalize hx : Q.getD c 0 = x
  by_cases hq : x = 0
  · rw [if_neg (fun h => h.2 hq), if_neg (fun h => h hq)]
  · have hc : c < Q.length := by
      by_contra hge
      exact hq (hx ▸ List.getD_eq_default _ _ (Nat.le_of_not_lt hge))
    rw [if_pos ⟨hc, hq⟩, if_pos hq]
    simp [updateAssociationVector, makeLinks, totalSimADC, fdiv, hq, unitLink]

/-- C13: the raw-mode pass-through scenario.  A unit without bad strips is
initialised, an event is started, one accepted accumulation call (efficiency 1,
a positive draw) brings one hit of the unit that passes the time cut, and the
unit is digitised in raw mode with truth association on and with strip noise,
common-mode noise, baseline shift, real pedestals, pedestal offset and
saturation emulation off.  With the raw converter and the pedestal adder of the
spec, the raw digis are `round(charge / electronPerADC)` of the charges the hit
deposits, one per channel of the unit, 0 on every channel without charge, and
the links are exactly one per channel with a nonzero charge, in channel order,
with weight 1 and the hit's track id, event id, global index and time bin. -/
theorem raw_pass_through (cfg : Config) (col : Collaborators) (s : State) (iSetup : EventSetup)
    (det : StripGeomDetUnit) (hit : PSimHit) (inputBeginGlobalIndex tofBin : Nat)
    (bfield : Vector3) (cal : Calibration) (engine engine' : HepRandomEngine)
    (hconv : col.convertRaw = convertRawSpec cfg.theElectronPerADC)
    (hped : col.addPedestals = addPedestalsSpec)
    (hzs : cfg.zeroSuppression = false) (hmk : cfg.makeDigiSimLinks_ = true)
    (hnoise : cfg.noise = false) (hcmn : cfg.CommonModeNoise = false)
    (hbs : cfg.BaselineShift = false) (hrp : cfg.RealPedestals = false)
    (hpo : cfg.pedOffset = 0) (hsat : cfg.APVSaturationFromHIP = false)
    (heff : cfg.inefficiency = 0) (hdraw : 0 < (shoot engine).1)
    (hbad : iSetup.badStripRange det.rawId = [])
    (hd : hit.detUnitId = det.rawId) (ht : passesTOF cfg det hit)
    (hlen : (depositedCharges col (startOfEvent s det iSetup) hit det bfield engine).length
      = det.nstrips) :
    (singleHitScenario cfg col s iSetup det hit inputBeginGlobalIndex tofBin bfield cal engine
        engine').outrawdigi
      = (depositedCharges col (startOfEvent s det iSetup) hit det bfield engine).map
          (fun q => ⟨(round (q / cfg.theElectronPerADC)).toNat⟩) ∧
    (singleHitScenario cfg col s iSetup det hit inputBeginGlobalIndex tofBin bfield cal engine
        engine').outrawdigi.length = det.nstrips ∧
    (∀ c, (depositedCharges col (startOfEvent s det iSetup) hit det bfield engine).getD c 0 = 0 →
      ((singleHitScenario cfg col s iSetup det hit inputBeginGlobalIndex tofBin bfield cal engine
        engine').outrawdigi.getD c ⟨0⟩).adc = 0) ∧
    (∀ c, ((singleHitScenario cfg col s iSetup det hit inputBeginGlobalIndex tofBin bfield cal
        engine engine').outrawdigi.getD c ⟨0⟩).adc
      = (round ((depositedCharges col (startOfEvent s det iSetup) hit det bfield engine).getD c 0
          / cfg.theElectronPerADC)).toNat) ∧
    (singleHitScenario cfg col s iSetup det hit inputBeginGlobalIndex tofBin bfield cal engine
        engine').outLink
      = ((List.range det.nstrips).filter (fun c => decide
            ((depositedCharges col (startOfEvent s det iSetup) hit det bfield engine).getD c 0
              ≠ 0))).map (unitLink hit inputBeginGlobalIndex tofBin) := by
  have hacc : (shoot engine).1 > cfg.inefficiency := by rw [heff]; exact hdraw
  obtain ⟨g1, g2, g3, g4⟩ := singleHit_state cfg col s iSetup det hit inputBeginGlobalIndex
    tofBin bfield engine hmk hsat hacc hbad hd ht
  obtain ⟨d1, d2⟩ := detAmplStart_spec
    (accumulateSimHits cfg col (startOfEvent s det iSetup) [hit] inputBeginGlobalIndex tofBin
      det bfield engine).state det
  have hstart : detAmplStart
      (accumulateSimHits cfg col (startOfEvent s det iSetup) [hit] inputBeginGlobalIndex tofBin
        det bfield engine).state det
      = depositedCharges col (startOfEvent s det iSetup) hit det bfield engine := by
    apply list_ext_getD _ _ (by rw [d1, hlen])
    intro k hk
    rw [d1] at hk
    rw [d2 k hk, g4 k]
  have hraw : (singleHitScenario cfg col s iSetup det hit inputBeginGlobalIndex tofBin bfield
      cal engine engine').outrawdigi
      = (depositedCharges col (startOfEvent s det iSetup) hit det bfield engine).map
          (fun q => ⟨(round (q / cfg.theElectronPerADC)).toNat⟩) := by
    unfold singleHitScenario
    rw [(digitize_fields _ _ _ _ _ _ _ _ _).2.1, hzs, if_neg (by decide)]
    unfold rawAnalog maskedStart
    rw [g1, g2, hstart, maskStrips_unmasked, hbs, hnoise, hcmn]
    simp only [Bool.false_eq_true, if_false]
    rw [hped, addPedestalsSpec_zero _ _ (vPeds_zero cfg cal _ _ _ hrp hpo), hconv]
    rfl
  have hrawlen : (singleHitScenario cfg col s iSetup det hit inputBeginGlobalIndex tofBin bfield
      cal engine engine').outrawdigi.length = det.nstrips := by
    rw [hraw, List.length_map, hlen]
  have hadc : ∀ c, ((singleHitScenario cfg col s iSetup det hit inputBeginGlobalIndex tofBin
      bfield cal engine engine').outrawdigi.getD c ⟨0⟩).adc
      = (round ((depositedCharges col (startOfEvent s det iSetup) hit det bfield engine).getD c 0
          / cfg.theElectronPerADC)).toNat := by
    intro c
    rw [hraw]
    by_cases hlt : c < (depositedCharges col (startOfEvent s det iSetup) hit det bfield
        engine).length
    · rw [List.getD_eq_getElem _ _ (by rw [List.length_map]; exact hlt), List.getElem_map,
        List.getD_eq_getElem _ _ hlt]
    · rw [List.getD_eq_default _ _ (by rw [List.length_map]; exact Nat.le_of_not_lt hlt),
        List.getD_eq_default _ _ (Nat.le_of_not_lt hlt)]
      simp
  refine ⟨hraw, hrawlen, ?_, hadc, ?_⟩
  · intro c hc
    rw [hadc c, hc]
    simp
  · have hlinks := digitize_outLink cfg col
      (accumulateSimHits cfg col (startOfEvent s det iSetup) [hit] inputBeginGlobalIndex tofBin
        det bfield engine).state [] [] [] det cal engine'
    rw [g3] at hlinks
    simp only [hzs, Bool.false_eq_true, if_false] at hlinks
    unfold singleHitScenario at hrawlen ⊢
    rw [hlinks, hrawlen, rawLinks_eq_flatMap, List.nil_append, rawLinksOf_singleHit,
      flatMap_ite_singleton]

theorem exColRaw_charges (c : Nat) :
    (depositedCharges exColRaw (startOfEvent exState0 exDet768 exSetup) (exHit 7 0) exDet768
      (0, 0, 0) exEngine).getD c 0 = exCharge c := by
  by_cases hc : c < 768
  · simp [depositedCharges, exColRaw, exDet768, List.getD_eq_getElem?_getD, hc,
      List.getElem?_replicate, -List.reduceReplicate]
  · have h0 : exCharge c = 0 := by
      unfold exCharge
      repeat (rw [if_neg (by omega)])
    rw [h0]
    apply List.getD_eq_default
    simp [depositedCharges, exColRaw, exDet768, -List.reduceReplicate]
    omega

theorem exCharge_ne_zero (c : Nat) : exCharge c ≠ 0 ↔ 100 ≤ c ∧ c ≤ 105 := by
  unfold exCharge
  split_ifs <;> simp <;> omega

set_option maxRecDepth 100000 in
theorem range_filter_charged :
    (List.range 768).filter (fun c => decide (100 ≤ c ∧ c ≤ 105))
      = [100, 101, 102, 103, 104, 105] := by
  decide

theorem round_exCharge :
    (round (exCharge 100 / 40)).toNat = 1 ∧ (round (exCharge 101 / 40)).toNat = 3 ∧
    (round (exCharge 102 / 40)).toNat = 8 ∧ (round (exCharge 103 / 40)).toNat = 7 ∧
    (round (exCharge 104 / 40)).toNat = 2 ∧ (round (exCharge 105 / 40)).toNat = 1 := by
  have r1 : round ((50 : ℚ) / 40) = 1 := by rw [round_eq, Int.floor_eq_iff]; norm_num
  have r2 : round ((120 : ℚ) / 40) = 3 := by rw [round_eq, Int.floor_eq_iff]; norm_num
  have r3 : round ((300 : ℚ) / 40) = 8 := by rw [round_eq, Int.floor_eq_iff]; norm_num
  have r4 : round ((280 : ℚ) / 40) = 7 := by rw [round_eq, Int.floor_eq_iff]; norm_num
  have r5 : round ((90 : ℚ) / 40) = 2 := by rw [round_eq, Int.floor_eq_iff]; norm_num
  have r6 : round ((40 : ℚ) / 40) = 1 := by rw [round_eq, Int.floor_eq_iff]; norm_num
  have e0 : exCharge 100 = 50 := by simp [exCharge]
  have e1 : exCharge 101 = 120 := by simp [exCharge]
  have e2 : exCharge 102 = 300 := by simp [exCharge]
  have e3 : exCharge 103 = 280 := by simp [exCharge]
  have e4 : exCharge 104 = 90 := by simp [exCharge]
  have e5 : exCharge 105 = 40 := by simp [exCharge]
  rw [e0, e1, e2, e3, e4, e5, r1, r2, r3, r4, r5, r6]
  exact ⟨rfl, rfl, rfl, rfl, rfl, rfl⟩

/-- C13 at the spec's input: a unit with 768 channels, one hit of track 7 that
deposits the charges 50, 120, 300, 280, 90, 40 on the channels 100 to 105, with
40 electrons per ADC count, the hit's global index 5 and the time bin 2.  The
raw digis have the values 1, 3, 8, 7, 2, 1 on the channels 100 to 105 and 0 on
the 762 others, and there are six links, one per charged channel, each with
weight 1 for track 7. -/
theorem raw_pass_through_witness :
    (singleHitScenario exCfgRaw exColRaw exState0 exSetup exDet768 (exHit 7 0) 5 2 (0, 0, 0)
        exCal exEngine exEngine).outrawdigi.length = 768 ∧
    ((List.range 6).map (fun i =>
        ((singleHitScenario exCfgRaw exColRaw exState0 exSetup exDet768 (exHit 7 0) 5 2
          (0, 0, 0) exCal exEngine exEngine).outrawdigi.getD (100 + i) ⟨0⟩).adc))
      = [1, 3, 8, 7, 2, 1] ∧
    (∀ c, c < 100 ∨ 105 < c →
      ((singleHitScenario exCfgRaw exColRaw exState0 exSetup exDet768 (exHit 7 0) 5 2 (0, 0, 0)
        exCal exEngine exEngine).outrawdigi.getD c ⟨0⟩).adc = 0) ∧
    (singleHitScenario exCfgRaw exColRaw exState0 exSetup exDet768 (exHit 7 0) 5 2 (0, 0, 0)
        exCal exEngine exEngine).outLink
      = [⟨100, 7, 5, 2, 0, some 1⟩, ⟨101, 7, 5, 2, 0, some 1⟩, ⟨102, 7, 5, 2, 0, some 1⟩,
          ⟨103, 7, 5, 2, 0, some 1⟩, ⟨104, 7, 5, 2, 0, some 1⟩, ⟨105, 7, 5, 2, 0, some 1⟩] := by
  obtain ⟨_, h2, h3, h4, h5⟩ := raw_pass_through exCfgRaw exColRaw exState0 exSetup exDet768
    (exHit 7 0) 5 2 (0, 0, 0) exCal exEngine exEngine rfl rfl rfl rfl rfl rfl rfl rfl rfl rfl rfl
    (by simp [shoot, exEngine]) rfl rfl (by simp [passesTOF, exCfgRaw, exCfg, exDet768, exHit])
    (by simp [depositedCharges, exColRaw, exDet768, -List.reduceReplicate])
  obtain ⟨r0, r1, r2, r3, r4, r5⟩ := round_exCharge
  refine ⟨h2, ?_, ?_, ?_⟩
  · simp only [List.range_succ, List.range_zero, List.nil_append, List.cons_append, List.map_cons,
      List.map_nil, h4, exColRaw_charges]
    simp only [Nat.add_zero, Nat.reduceAdd]
    rw [show exCfgRaw.theElectronPerADC = 40 from rfl, r0, r1, r2, r3, r4, r5]
  · intro c hc
    apply h3
    rw [exColRaw_charges]
    by_contra hne
    have := (exCharge_ne_zero c).1 hne
    omega
  · rw [h5]
    have hf : (fun c => decide ((depositedCharges exColRaw (startOfEvent exState0 exDet768
          exSetup) (exHit 7 0) exDet768 (0, 0, 0) exEngine).getD c 0 ≠ 0))
        = (fun c => decide (100 ≤ c ∧ c ≤ 105)) := by
      funext c
      rw [exColRaw_charges]
      exact decide_eq_decide.2 (exCharge_ne_zero c)
    rw [hf]
    show List.map _ (List.filter _ (List.range 768)) = _
    rw [range_filter_charged]
    rfl

end SiStripDigitizerAlgorithm
